import Mathlib

/-!
# aws-cost-exporter-go: label schema, publish step, billing query client, periods

A shallow embedding of `internal/config/config.go`, `internal/collector/labels.go`,
`internal/collector/collector.go`, `internal/aws/costexplorer.go` and
`pkg/timeutil/period.go`.

Conventions of the embedding:

* a Go `map[string]string` is an association list in which the first binding of a
  key is the one that counts (`List.lookup`); its key set is the list of distinct
  first components;
* a Go pointer that may be `nil` is an `Option`;
* strings are compared character by character, which for UTF-8 text is the byte
  order that `sort.Strings` uses;
* a `float64` is the number it denotes, with the sum and the order of IEEE 754;
* the second counts of the `time` package and the day offset of `AddDate` are
  machine integers of 64 bits, whose sums and products wrap modulo 2^64;
* a Go panic is the result `none`;
* what the billing API answers is an argument of the functions that call it, and
  so are the order in which the concurrent account tasks complete and the
  current instant.
-/

namespace AwsCostExporter

/-! ## `float64`

A `float64` is held by what it denotes: a finite value by the rational number it
is (`finite 0` being the positive zero), besides the negative zero, the two
infinities and NaN; the NaNs are one value. The finite values of the machine are
the rationals that `Float64.round` leaves as they are. The sum is the IEEE 754
sum: the exact sum rounded to the nearest `float64`, a tie going to the even
significand. `<` is the IEEE comparison, which is false when a side is NaN. -/

inductive Float64 where
  | finite (q : ℚ)
  | negZero
  | posInf
  | negInf
  | nan
  deriving DecidableEq, Repr

/-- The power `2 ^ e` of an integer exponent. -/
def pow2 (e : Int) : ℚ :=
  if 0 ≤ e then ((2 ^ e.toNat : Nat) : ℚ) else 1 / ((2 ^ (-e).toNat : Nat) : ℚ)

/-- The number of times that `n` can be halved before it is below 2, with at
most `fuel` halvings. -/
def halvings : Nat → Nat → Nat
  | 0, _ => 0
  | fuel + 1, n => if 2 ≤ n then halvings fuel (n / 2) + 1 else 0

/-- The binary exponent of a positive natural number `n`: the `e` with
`2 ^ e ≤ n < 2 ^ (e + 1)`. -/
def log2 (n : Nat) : Nat := halvings n n

/-- The binary exponent of a positive rational `m`: the `e` with
`2 ^ e ≤ m < 2 ^ (e + 1)`. -/
def ilog2 (m : ℚ) : Int :=
  let e := (log2 m.num.natAbs : Int) - (log2 m.den : Int)
  if pow2 e ≤ m then e else e - 1

/-- The integer nearest to `x`, the even one of the two when `x` lies half way. -/
def roundHalfEven (x : ℚ) : Int :=
  let f := x.floor
  let r := x - f
  if r < 1 / 2 then f else if 1 / 2 < r then f + 1 else if f % 2 = 0 then f else f + 1

/-- The `float64` nearest to a rational: 53 bits of significand, the exponent
not below -1022 (below it the values are subnormal, with steps of `2 ^ -1074`),
an infinity from `2 ^ 1024` on, and a zero of the sign of `q` when the nearest
value is zero. -/
def Float64.round (q : ℚ) : Float64 :=
  if q = 0 then .finite 0 else
  let m := if q < 0 then -q else q
  let e := max (ilog2 m) (-1022)
  let quantum := pow2 (e - 52)
  let r := (roundHalfEven (m / quantum) : ℚ) * quantum
  if pow2 1024 ≤ r then (if q < 0 then .negInf else .posInf)
  else if r = 0 then (if q < 0 then .negZero else .finite 0)
  else .finite (if q < 0 then -r else r)

/-- The sum `a + b` of two `float64`. -/
def Float64.add : Float64 → Float64 → Float64
  | .nan, _ => .nan
  | _, .nan => .nan
  | .posInf, .negInf => .nan
  | .negInf, .posInf => .nan
  | .posInf, _ => .posInf
  | _, .posInf => .posInf
  | .negInf, _ => .negInf
  | _, .negInf => .negInf
  | .negZero, b => b
  | a, .negZero => a
  | .finite a, .finite b => if a + b = 0 then .finite 0 else Float64.round (a + b)

/-- The comparison `a < b` of two `float64`. -/
def Float64.lt : Float64 → Float64 → Bool
  | .nan, _ => false
  | _, .nan => false
  | _, .negInf => false
  | .negInf, _ => true
  | .posInf, _ => false
  | _, .posInf => true
  | .negZero, .negZero => false
  | .negZero, .finite b => decide (0 < b)
  | .finite a, .negZero => decide (a < 0)
  | .finite a, .finite b => decide (a < b)

instance Float64.instAdd : Add Float64 := ⟨Float64.add⟩

instance Float64.instLT : LT Float64 := ⟨fun a b => Float64.lt a b = true⟩

instance Float64.decidableLT (a b : Float64) : Decidable (a < b) :=
  inferInstanceAs (Decidable (Float64.lt a b = true))

/-- A constant: the `float64` of a natural number. -/
instance Float64.instOfNat (n : Nat) : OfNat Float64 n := ⟨Float64.round n⟩

/-! ## Configuration (`internal/config/config.go`) -/

structure AliasConfig where
  LabelName : String
  Map : List (String × String)
  deriving DecidableEq, Repr

structure GroupConfig where
  «Type» : String
  Key : String
  LabelName : String
  Alias : Option AliasConfig
  deriving DecidableEq, Repr

structure MergeConfig where
  Enabled : Bool
  Threshold : Float64
  TagValue : String
  deriving DecidableEq, Repr

structure GroupByConfig where
  Enabled : Bool
  Groups : List GroupConfig
  MergeMinorCost : Option MergeConfig
  deriving DecidableEq, Repr

structure TagFilter where
  TagKey : String
  TagValues : List String
  deriving DecidableEq, Repr

structure MetricConfig where
  MetricName : String
  MetricDescription : String
  Granularity : String
  DataDelayDays : Int
  MetricType : String
  RecordTypes : List String
  GroupBy : Option GroupByConfig
  TagFilters : List TagFilter
  deriving DecidableEq, Repr

structure AWSAccount where
  AccountId : String
  AssumedRoleName : String
  Labels : List (String × String)
  deriving DecidableEq, Repr

structure Config where
  ExporterPort : Int
  PollingInterval : Int
  Metrics : List MetricConfig
  TargetAWSAccounts : List AWSAccount
  deriving DecidableEq, Repr

/-! ## Label schema (`internal/collector/labels.go`) -/

/-- The key set of a Go map held as an association list. -/
def mapKeys (m : List (String × String)) : List String :=
  (m.map Prod.fst).dedup

/-- Go's `m[k]` on a `map[string]string`: the zero value `""` when `k` is absent. -/
def mapIndex (m : List (String × String)) (k : String) : String :=
  (m.lookup k).getD ""

/-- The order of `sort.Strings`: lexicographic comparison of the characters. -/
def strLE (a b : String) : Prop := a.data ≤ b.data

instance strLE.decidable : DecidableRel strLE := fun a b =>
  inferInstanceAs (Decidable (a.data ≤ b.data))

/-- The keys of the account's label map, sorted with `sort.Strings`. -/
def getSortedLabelKeys (account : AWSAccount) : List String :=
  (mapKeys account.Labels).insertionSort strLE

/-- The charge type value: `"Usage"` when no record type is configured, else the
record types joined with commas. -/
def getChargeType (metricCfg : MetricConfig) : String :=
  if metricCfg.RecordTypes.length = 0 then "Usage"
  else ",".intercalate metricCfg.RecordTypes

/-- One iteration of the loop of `buildLabelNames` over the group-by entries. -/
def appendGroupNames (labels : List String) (group : GroupConfig) : List String :=
  let labels := labels ++ [group.LabelName]
  match group.Alias with
  | some a => labels ++ [a.LabelName]
  | none => labels

def buildLabelNames (cfg : Config) (metricCfg : MetricConfig) : List String :=
  let labels : List String :=
    match cfg.TargetAWSAccounts with
    | first :: _ => ["account_id"] ++ getSortedLabelKeys first
    | [] => []
  let labels := labels ++ ["charge_type"]
  match metricCfg.GroupBy with
  | some gb => if gb.Enabled then gb.Groups.foldl appendGroupNames labels else labels
  | none => labels

/-- Go's `strings.HasPrefix`. -/
def hasPrefix (s pfx : String) : Bool :=
  pfx.data.isPrefixOf s.data

/-- Go's `strings.TrimPrefix`. -/
def trimPrefix (s pfx : String) : String :=
  if hasPrefix s pfx then String.mk (s.data.drop pfx.data.length) else s

/-- The realized key value of a group-by entry at position `i` for the group-key
tuple `keys` (lines 62-71 of `labels.go`). -/
def groupKeyValue (group : GroupConfig) (keys : List String) (i : Nat) : String :=
  let keyValue := if i < keys.length then keys.getD i "" else ""
  if group.«Type» = "TAG" then
    let pfx := group.Key ++ "$"
    if hasPrefix keyValue pfx then trimPrefix keyValue pfx else keyValue
  else keyValue

/-- The alias value emitted for the realized key value `keyValue`
(lines 74-79 of `labels.go`). -/
def aliasValue (a : AliasConfig) (keyValue : String) : String :=
  if keyValue ≠ "" then
    match a.Map.lookup keyValue with
    | some mapped => mapped
    | none => keyValue
  else keyValue

/-- One iteration of the loop of `buildLabelValues` over the group-by entries;
the state is the list built so far and the loop index. -/
def appendGroupValues (keys : List String) (st : List String × Nat) (group : GroupConfig) :
    List String × Nat :=
  let keyValue := groupKeyValue group keys st.2
  let values := st.1 ++ [keyValue]
  match group.Alias with
  | some a => (values ++ [aliasValue a keyValue], st.2 + 1)
  | none => (values, st.2 + 1)

def buildLabelValues (account : AWSAccount) (metricCfg : MetricConfig) (keys : List String) :
    List String :=
  let values : List String := [account.AccountId]
  let values := (getSortedLabelKeys account).foldl
    (fun vs key => vs ++ [mapIndex account.Labels key]) values
  let values := values ++ [getChargeType metricCfg]
  match metricCfg.GroupBy with
  | some gb =>
    if gb.Enabled then (gb.Groups.foldl (appendGroupValues keys) (values, 0)).1 else values
  | none => values

/-! ## Gauge vectors

The part of `prometheus.GaugeVec` that the collector uses, with the behaviour that
the client library documents: `WithLabelValues` panics where
`GetMetricWithLabelValues` returns an error, which it does when the number of
label values is not the number of variable labels of the vector. -/

/-- A gauge vector: the label names declared at construction and the current
rows, one per label-value tuple. -/
structure GaugeVec where
  labelNames : List String
  rows : List (List String × Float64)
  deriving DecidableEq, Repr

def NewGaugeVec (labelNames : List String) : GaugeVec :=
  { labelNames := labelNames, rows := [] }

/-- `Reset` deletes every row. -/
def GaugeVec.Reset (g : GaugeVec) : GaugeVec :=
  { g with rows := [] }

/-- `WithLabelValues(lvs...).Set(v)`: `WithLabelValues` panics when the number of
label values differs from the number of declared label names; otherwise the row
of `lvs` is created or overwritten. -/
def GaugeVec.WithLabelValuesSet (g : GaugeVec) (lvs : List String) (v : Float64) : Option GaugeVec :=
  if lvs.length = g.labelNames.length then
    some { g with rows := (lvs, v) :: g.rows.filter (fun r => r.1 ≠ lvs) }
  else none

/-- The value exposed under the label-value tuple `lvs`, if there is such a row. -/
def GaugeVec.value? (g : GaugeVec) (lvs : List String) : Option Float64 :=
  g.rows.lookup lvs

/-- Go's `m[k] = v` on a map held as an association list with distinct keys. -/
def mapStore {β : Type} (m : List (String × β)) (k : String) (v : β) : List (String × β) :=
  match m with
  | [] => [(k, v)]
  | p :: rest => if p.1 = k then (k, v) :: rest else p :: mapStore rest k v

/-! ## Billing query client (`internal/aws/costexplorer.go`) -/

structure CostGroup where
  Keys : List String
  Amount : Float64
  Unit : String
  deriving DecidableEq, Repr

structure CostResult where
  Groups : List CostGroup
  Total : Float64
  deriving DecidableEq, Repr

structure GroupDefinition where
  «Type» : String
  Key : String
  deriving DecidableEq, Repr

/-- The query of one fetch; the two dates are instants, held as second counts. -/
structure CostQuery where
  StartDate : Int
  EndDate : Int
  Granularity : String
  MetricType : String
  RecordTypes : List String
  GroupBy : List GroupDefinition
  TagFilters : List TagFilter
  deriving DecidableEq, Repr

structure DimensionValues where
  Key : String
  Values : List String
  deriving DecidableEq, Repr

structure TagValues where
  Key : String
  Values : List String
  MatchOptions : List String
  deriving DecidableEq, Repr

/-- The fields of `types.Expression` that `buildFilter` sets. -/
inductive Expression where
  | mk (And : List Expression) (Dimensions : Option DimensionValues) (Tags : Option TagValues)

def Expression.And : Expression → List Expression
  | .mk a _ _ => a

def Expression.Dimensions : Expression → Option DimensionValues
  | .mk _ d _ => d

def Expression.Tags : Expression → Option TagValues
  | .mk _ _ t => t

/-- The SDK constant `types.DimensionRecordType`. -/
def DimensionRecordType : String := "RECORD_TYPE"

/-- The SDK constant `types.MatchOptionEquals`. -/
def MatchOptionEquals : String := "EQUALS"

def buildFilter (recordTypes : List String) (tagFilters : List TagFilter) : Expression :=
  let recordTypes := if recordTypes.length = 0 then ["Usage"] else recordTypes
  let baseFilter : Expression :=
    .mk [] (some { Key := DimensionRecordType, Values := recordTypes }) none
  if tagFilters.length = 0 then baseFilter
  else
    let allFilters : List Expression := [baseFilter]
    let allFilters := tagFilters.foldl
      (fun fs tf => fs ++ [Expression.mk [] none
        (some { Key := tf.TagKey, Values := tf.TagValues, MatchOptions := [MatchOptionEquals] })])
      allFilters
    .mk allFilters none none

structure MetricValue where
  Amount : Option String
  Unit : Option String
  deriving DecidableEq, Repr

structure Group where
  Keys : List String
  Metrics : List (String × MetricValue)
  deriving DecidableEq, Repr

structure ResultByTime where
  Groups : List Group
  Total : Option (List (String × MetricValue))
  deriving DecidableEq, Repr

structure GetCostAndUsageOutput where
  ResultsByTime : List ResultByTime
  NextPageToken : Option String
  deriving DecidableEq, Repr

structure GetCostAndUsageInput where
  TimePeriod : Int × Int
  Granularity : String
  Metrics : List String
  GroupBy : List GroupDefinition
  Filter : Expression
  NextPageToken : Option String

deriving instance DecidableEq for Except

/-- The three ways `GetCostAndUsage` fails. -/
inductive FetchError where
  | fetching (cause : String)
  | parsingCost (amount : String)
  | parsingTotal (amount : String)
  deriving DecidableEq, Repr

/-- The body of the loop over the groups of one time bucket; `parseFloat` stands
for `strconv.ParseFloat(_, 64)`, `none` being its error. What it returns without
an error is any `float64`: NaN and the infinities are among its values. -/
def addGroup (parseFloat : String → Option Float64) (metricType : String)
    (result : CostResult) (group : Group) : Except FetchError CostResult :=
  match group.Metrics.lookup metricType with
  | none => .ok result
  | some metric =>
    match metric.Amount with
    | none => .ok result
    | some s =>
      match parseFloat s with
      | none => .error (.parsingCost s)
      | some amount =>
        let unit := match metric.Unit with
          | some u => u
          | none => ""
        .ok { result with
          Groups := result.Groups ++ [{ Keys := group.Keys, Amount := amount, Unit := unit }] }

/-- The ungrouped part of one time bucket (lines 140-148). -/
def addTotal (parseFloat : String → Option Float64) (metricType : String)
    (result : CostResult) (resultByTime : ResultByTime) : Except FetchError CostResult :=
  if resultByTime.Groups.length = 0 then
    match resultByTime.Total with
    | none => .ok result
    | some total =>
      match total.lookup metricType with
      | none => .ok result
      | some metric =>
        match metric.Amount with
        | none => .ok result
        | some s =>
          match parseFloat s with
          | none => .error (.parsingTotal s)
          | some amount => .ok { result with Total := result.Total + amount }
  else .ok result

/-- The body of the loop over the time buckets of one page. -/
def addResultByTime (parseFloat : String → Option Float64) (metricType : String)
    (result : CostResult) (resultByTime : ResultByTime) : Except FetchError CostResult :=
  match resultByTime.Groups.foldlM (addGroup parseFloat metricType) result with
  | .error e => .error e
  | .ok result => addTotal parseFloat metricType result resultByTime

/-- The paging loop of `GetCostAndUsage`; `client` is the billing API and `none`
means that the loop is still running when the fuel is used up. -/
def pageLoop (parseFloat : String → Option Float64)
    (client : GetCostAndUsageInput → Except String GetCostAndUsageOutput) (metricType : String) :
    Nat → GetCostAndUsageInput → CostResult → Option (Except FetchError CostResult)
  | 0, _, _ => none
  | fuel + 1, input, result =>
    match client input with
    | .error err => some (.error (.fetching err))
    | .ok page =>
      match page.ResultsByTime.foldlM (addResultByTime parseFloat metricType) result with
      | .error e => some (.error e)
      | .ok result =>
        match page.NextPageToken with
        | none => some (.ok result)
        | some tok =>
          pageLoop parseFloat client metricType fuel { input with NextPageToken := some tok } result

def GetCostAndUsage (parseFloat : String → Option Float64)
    (client : GetCostAndUsageInput → Except String GetCostAndUsageOutput) (query : CostQuery)
    (fuel : Nat) : Option (Except FetchError CostResult) :=
  let input : GetCostAndUsageInput :=
    { TimePeriod := (query.StartDate, query.EndDate)
      Granularity := query.Granularity
      Metrics := [query.MetricType]
      GroupBy := query.GroupBy
      Filter := buildFilter query.RecordTypes query.TagFilters
      NextPageToken := none }
  pageLoop parseFloat client query.MetricType fuel input { Groups := [], Total := 0 }

/-! ## Collector (`internal/collector/collector.go`) -/

/-- The collector: its gauges by metric name, the ids of the accounts that have a
client, the configuration and the scrape-error counter. -/
structure CostCollector where
  metrics : List (String × GaugeVec)
  awsClients : List String
  config : Config
  scrapeErrors : Nat
  deriving DecidableEq, Repr

/-- The gauges created by `New`: one per metric name, without rows. -/
def initMetrics (cfg : Config) : List (String × GaugeVec) :=
  cfg.Metrics.foldl
    (fun ms metricCfg =>
      mapStore ms metricCfg.MetricName (NewGaugeVec (buildLabelNames cfg metricCfg)))
    []

/-- The constructor; `newClient` is the outcome of `NewCostExplorerClient` for
an account id, `some err` being a failure. -/
def New (cfg : Config) (newClient : String → Option String) : Except String CostCollector :=
  let metrics := initMetrics cfg
  match cfg.TargetAWSAccounts.foldlM
      (fun (cs : List String) account =>
        match newClient account.AccountId with
        | some err =>
          Except.error ("creating AWS client for " ++ account.AccountId ++ ": " ++ err)
        | none => Except.ok (if account.AccountId ∈ cs then cs else cs ++ [account.AccountId]))
      [] with
  | .error e => .error e
  | .ok clients =>
    .ok { metrics := metrics, awsClients := clients, config := cfg, scrapeErrors := 0 }

structure accountResults where
  account : AWSAccount
  results : List (String × CostResult)
  deriving DecidableEq, Repr

/-- `c.metrics[name].WithLabelValues(lvs...).Set(v)`: a panic when the gauge is
missing or rejects the label values. -/
def setGauge (c : CostCollector) (name : String) (lvs : List String) (v : Float64) :
    Option CostCollector :=
  match c.metrics.lookup name with
  | none => none
  | some gauge =>
    match gauge.WithLabelValuesSet lvs v with
    | none => none
    | some gauge => some { c with metrics := mapStore c.metrics name gauge }

/-- The body of the loop of `updateMetrics` over the result groups; the state is
the collector and `mergedMinorCost`. -/
def updateGroup (account : AWSAccount) (metricCfg : MetricConfig) (gb : GroupByConfig)
    (st : CostCollector × Float64) (group : CostGroup) : Option (CostCollector × Float64) :=
  let mergeEnabled := match gb.MergeMinorCost with
    | some mc => mc.Enabled
    | none => false
  let below := match gb.MergeMinorCost with
    | some mc => decide (group.Amount < mc.Threshold)
    | none => false
  if mergeEnabled && below then some (st.1, st.2 + group.Amount)
  else
    match setGauge st.1 metricCfg.MetricName
        (buildLabelValues account metricCfg group.Keys) group.Amount with
    | none => none
    | some c => some (c, st.2)

def updateMetrics (c : CostCollector) (account : AWSAccount) (metricCfg : MetricConfig)
    (result : CostResult) : Option CostCollector :=
  match metricCfg.GroupBy with
  | none => setGauge c metricCfg.MetricName (buildLabelValues account metricCfg []) result.Total
  | some gb =>
    if gb.Enabled = false then
      setGauge c metricCfg.MetricName (buildLabelValues account metricCfg []) result.Total
    else
      match result.Groups.foldlM (updateGroup account metricCfg gb) (c, 0) with
      | none => none
      | some (c, mergedMinorCost) =>
        if mergedMinorCost > 0 then
          match gb.MergeMinorCost with
          | none => none
          | some mc =>
            setGauge c metricCfg.MetricName
              (buildLabelValues account metricCfg (List.replicate gb.Groups.length mc.TagValue))
              mergedMinorCost
        else some c

/-- The loop of `fetchAccountCosts` over the metrics; `call j` is the outcome of
the `GetCostAndUsage` call for the metric at position `j`. -/
def fetchMetrics (call : Nat → Except String CostResult) :
    List MetricConfig → Nat → List (String × CostResult) →
    Except String (List (String × CostResult))
  | [], _, results => .ok results
  | metricCfg :: rest, j, results =>
    match call j with
    | .error err => .error ("metric " ++ metricCfg.MetricName ++ ": " ++ err)
    | .ok result => fetchMetrics call rest (j + 1) (mapStore results metricCfg.MetricName result)

def fetchAccountCosts (c : CostCollector) (call : Nat → Except String CostResult)
    (account : AWSAccount) : Except String (List (String × CostResult)) :=
  if account.AccountId ∈ c.awsClients then fetchMetrics call c.config.Metrics 0 []
  else .error ("no client found for account " ++ account.AccountId)

/-- The task of the account at position `i` of the configuration: what it sends
on `resultsCh` (`ok`) or on `errCh` (`error`). -/
def accountTask (c : CostCollector) (api : Nat → Nat → Except String CostResult) (i : Nat) :
    Option (Except String accountResults) :=
  match c.config.TargetAWSAccounts[i]? with
  | none => none
  | some acc =>
    match fetchAccountCosts c (api i) acc with
    | .error err => some (.error err)
    | .ok results => some (.ok { account := acc, results := results })

/-- What the tasks have sent when `wg.Wait()` returns, `sched` being the order in
which the tasks complete: the collector with its error counter incremented, the
content of `resultsCh` and the content of `errCh`. -/
def fetchAll (c : CostCollector) (api : Nat → Nat → Except String CostResult) (sched : List Nat) :
    CostCollector × List accountResults × List String :=
  let done := sched.filterMap (accountTask c api)
  let allResults := done.filterMap (fun r => match r with
    | .ok ar => some ar
    | .error _ => none)
  let errs := done.filterMap (fun r => match r with
    | .ok _ => none
    | .error err => some err)
  ({ c with scrapeErrors := c.scrapeErrors + errs.length }, allResults, errs)

/-- The body of the inner loop of the publish step (lines 146-148). -/
def publishMetric (ar : accountResults) (c : CostCollector) (metricCfg : MetricConfig) :
    Option CostCollector :=
  match ar.results.lookup metricCfg.MetricName with
  | some result => updateMetrics c ar.account metricCfg result
  | none => some c

/-- The inner loop of the publish step: the metrics of one collected account. -/
def publishAccount (c : CostCollector) (ar : accountResults) : Option CostCollector :=
  c.config.Metrics.foldlM (publishMetric ar) c

/-- The publish step of `Refresh` (lines 139-151): every gauge is reset, then
the collected results are written. -/
def publish (c : CostCollector) (allResults : List accountResults) : Option CostCollector :=
  let c := { c with metrics := c.metrics.map (fun p => (p.1, p.2.Reset)) }
  allResults.foldlM publishAccount c

/-- One refresh cycle: `api i j` is the outcome of the billing query of the
account at position `i` for the metric at position `j`, `sched` the order in
which the account tasks complete. The result is the collector after the cycle
and the returned error, or `none` when the publish step panics. -/
def Refresh (c : CostCollector) (api : Nat → Nat → Except String CostResult) (sched : List Nat) :
    Option (CostCollector × Option String) :=
  match fetchAll c api sched with
  | (c, allResults, errs) =>
    match publish c allResults with
    | none => none
    | some c =>
      if errs.length > 0 then
        some (c, some (toString errs.length ++ " accounts failed to fetch"))
      else some (c, none)

/-! ## Periods (`pkg/timeutil/period.go`)

A `time.Time` in UTC is held the way the `time` package holds it: an int64
number of seconds since 1 January of year 1, 00:00 UTC, and the nanosecond
within the second. The calendar is the proleptic Gregorian calendar of the
package, computed by cutting off cycles of 400, 100, 4 and 1 years of a year
that starts in March; the package reads it off the "absolute" second count, a
uint64 counted from a zero that lies about 292 billion years back, taken here
as 1 January of year -292277022399, 00:00 UTC (the zero of the Go releases up
to 1.22; later releases count from 306 days earlier and read the same dates
from the zero taken here on). The sums and products of second counts are those
of the machine integers: they wrap modulo 2^64. -/

/-- The value of an int64 expression whose exact value is `x`: `x` reduced
modulo 2^64 into the range from -2^63 to 2^63 - 1. -/
def wrapInt64 (x : Int) : Int := (x + 2 ^ 63) % 2 ^ 64 - 2 ^ 63

/-- The value of a uint64 expression whose exact value is `x`. -/
def wrapUint64 (x : Int) : Int := x % 2 ^ 64

def secondsPerDay : Int := 86400

/-- `unixToInternal`: the seconds from 1 January of year 1 to 1 January 1970. -/
def unixToInternal : Int := (1969 * 365 + 1969 / 4 - 1969 / 100 + 1969 / 400) * secondsPerDay

/-- `internalToAbsolute`: the seconds from 1 January of year -292277022399 to
1 January of year 1, which are 292277022400 years of 365.2425 days. -/
def internalToAbsolute : Int := 9223371966579724800

/-- The day number, counted from 1970-01-01, of the first day of the absolute
second count. -/
def absoluteZeroDay : Int := -((internalToAbsolute + unixToInternal) / secondsPerDay)

/-- A `time.Time` in UTC: `sec` is `t.sec()`, an int64, and `nsec` is
`t.nsec()`. -/
structure Time where
  sec : Int
  nsec : Int
  deriving DecidableEq, Repr

/-- `t.abs()`: the seconds since 1 January of year -292277022399, a uint64. -/
def Time.abs (t : Time) : Int := wrapUint64 (t.sec + internalToAbsolute)

/-- The day number, counted from 1970-01-01, on which the date of `t` is read:
the whole days of `t.abs()`. -/
def Time.day (t : Time) : Int := t.abs / secondsPerDay + absoluteZeroDay

/-- The year of its 400-year cycle and the day of that year (both from 0, the
year starting on 1 March) of a day of the cycle. -/
def yearOfEra (doe : Int) : Int × Int :=
  let cent := if doe / 36524 ≥ 4 then 3 else doe / 36524
  let doc := doe - 36524 * cent
  let quad := doc / 1461
  let doq := doc % 1461
  let yr := if doq / 365 ≥ 4 then 3 else doq / 365
  (100 * cent + 4 * quad + yr, doq - 365 * yr)

/-- The month (1 to 12) and the day of the month of a day of a year that starts
on 1 March. -/
def monthDay (doy : Int) : Int × Int :=
  let mp := (5 * doy + 2) / 153
  (if mp < 10 then mp + 3 else mp - 9, doy - (153 * mp + 2) / 5 + 1)

/-- The day of the year that starts on 1 March; `day` may lie outside the month. -/
def dayOfYear (month day : Int) : Int :=
  let mp := if month ≤ 2 then month + 9 else month - 3
  (153 * mp + 2) / 5 + day - 1

/-- The day of the 400-year cycle. -/
def dayOfEra (yoe doy : Int) : Int :=
  365 * yoe + yoe / 4 - yoe / 100 + doy

/-- The civil date (year, month, day) of a day number, day 0 being 1970-01-01. -/
def civilFromDays (z : Int) : Int × Int × Int :=
  let z := z + 719468
  let era := z / 146097
  let yd := yearOfEra (z % 146097)
  let md := monthDay yd.2
  (400 * era + yd.1 + (if md.1 ≤ 2 then 1 else 0), md.1, md.2)

/-- The day number of a civil date with a month from 1 to 12; a day outside the
month counts on into the neighbouring months. -/
def daysFromCivil (year month day : Int) : Int :=
  let y := if month ≤ 2 then year - 1 else year
  146097 * (y / 400) + dayOfEra (y % 400) (dayOfYear month day) - 719468

/-- `t.Year()` in UTC. -/
def Year (t : Time) : Int := (civilFromDays t.day).1

/-- `t.Month()` in UTC. -/
def Month (t : Time) : Int := (civilFromDays t.day).2.1

/-- `t.Day()` in UTC. -/
def Day (t : Time) : Int := (civilFromDays t.day).2.2

/-- `t.Clock()` in UTC: the hour, minute and second within the day. -/
def Clock (t : Time) : Int × Int × Int :=
  let s := t.abs % secondsPerDay
  (s / 3600, s % 3600 / 60, s % 60)

/-- `time.Date(year, month, day, hour, min, sec, nsec, time.UTC)`, for a year
not before -292277022399: the month is normalized into the year, the nanoseconds
into the seconds, and the day and the clock count on from the first day of the
month. The second count is formed in uint64 and int64, so the result holds the
exact count reduced modulo 2^64. -/
def Date (year month day hour min sec nsec : Int) : Time :=
  let y := year + (month - 1) / 12
  let m := (month - 1) % 12 + 1
  let s := sec + nsec / 1000000000
  { sec := wrapInt64 (daysFromCivil y m day * secondsPerDay + (hour * 3600 + min * 60 + s) +
      unixToInternal),
    nsec := nsec % 1000000000 }

/-- `t.AddDate(years, months, days)` in UTC; the three sums are sums of `int`. -/
def AddDate (t : Time) (years months days : Int) : Time :=
  let c := Clock t
  Date (wrapInt64 (Year t + years)) (wrapInt64 (Month t + months)) (wrapInt64 (Day t + days))
    c.1 c.2.1 c.2.2 t.nsec

structure Period where
  Start : Time
  End : Time
  deriving DecidableEq, Repr

/-- `DailyPeriod(delayDays)` when `time.Now().UTC()` is `now`; `delayDays` is
an `int` and `-delayDays` its negation in `int`. -/
def DailyPeriod (now : Time) (delayDays : Int) : Period :=
  let end0 := Date (Year now) (Month now) (Day now) 0 0 0 0
  let end1 := AddDate end0 0 0 (wrapInt64 (-delayDays))
  let start := AddDate end1 0 0 (-1)
  { Start := start, End := end1 }

/-- `MonthlyPeriod(delayDays)` when `time.Now().UTC()` is `now`. -/
def MonthlyPeriod (now : Time) (delayDays : Int) : Period :=
  let end0 := Date (Year now) (Month now) (Day now) 0 0 0 0
  let end1 := AddDate end0 0 0 (wrapInt64 (-delayDays))
  let start := Date (Year end1) (Month end1) 1 0 0 0 0
  { Start := start, End := end1 }

/-- The instant 2024-03-15 10:30:00 UTC. -/
def sampleNow : Time := { sec := 63846095400, nsec := 250 }

/-- The largest `int`. -/
def maxInt : Int := 2 ^ 63 - 1


/-! ## Definitions used to state the properties -/

/-- The group-by entries that contribute labels: those of an enabled group-by. -/
def enabledGroups (metricCfg : MetricConfig) : List GroupConfig :=
  match metricCfg.GroupBy with
  | some gb => if gb.Enabled then gb.Groups else []
  | none => []

/-- The label names of one group-by entry. -/
def groupNames (group : GroupConfig) : List String :=
  group.LabelName :: (match group.Alias with
    | some a => [a.LabelName]
    | none => [])

/-- The label values of the group-by entry at position `i`. -/
def groupValues (keys : List String) (i : Nat) (group : GroupConfig) : List String :=
  groupKeyValue group keys i :: (match group.Alias with
    | some a => [aliasValue a (groupKeyValue group keys i)]
    | none => [])

/-- The label values of consecutive group-by entries, the first at position `i`. -/
def groupValuesFrom (keys : List String) : Nat → List GroupConfig → List String
  | _, [] => []
  | i, group :: rest => groupValues keys i group ++ groupValuesFrom keys (i + 1) rest

/-- The number of labels that come before those of the group-by entry that
follows the entries `pre`: account id, custom labels, charge type, and the labels
of `pre`. -/
def groupOffset (account : AWSAccount) (pre : List GroupConfig) : Nat :=
  1 + (getSortedLabelKeys account).length + 1 + (pre.map (fun g => (groupNames g).length)).sum

/-- The (name, value) pairs of the group-by entries as the specification lists
them: per entry, its label name with its realized key value, then, when it has
an alias, the alias label name with the alias value. -/
def specGroupPairs (keys : List String) : Nat → List GroupConfig → List (String × String)
  | _, [] => []
  | i, group :: rest =>
    ((group.LabelName, groupKeyValue group keys i) ::
      (match group.Alias with
        | some a => [(a.LabelName, aliasValue a (groupKeyValue group keys i))]
        | none => [])) ++ specGroupPairs keys (i + 1) rest

/-- The (name, value) pairs of a row as the specification lists them. -/
def specLabelPairs (account : AWSAccount) (metricCfg : MetricConfig) (keys : List String) :
    List (String × String) :=
  [("account_id", account.AccountId)] ++
    (getSortedLabelKeys account).map (fun k => (k, mapIndex account.Labels k)) ++
    [("charge_type",
      if metricCfg.RecordTypes = [] then "Usage" else ",".intercalate metricCfg.RecordTypes)] ++
    specGroupPairs keys 0 (enabledGroups metricCfg)

/-- The amount string of a group for the metric type, when the group has a
metric value of that type and its amount is not null. -/
def groupAmount (metricType : String) (group : Group) : Option String :=
  match group.Metrics.lookup metricType with
  | some metric => metric.Amount
  | none => none

/-- The row of a group that carries a non-null amount for the metric type. -/
def groupRow (parseFloat : String → Option Float64) (metricType : String) (group : Group) :
    Option CostGroup :=
  match group.Metrics.lookup metricType with
  | some metric =>
    match metric.Amount with
    | some s =>
      some { Keys := group.Keys, Amount := (parseFloat s).getD 0, Unit := metric.Unit.getD "" }
    | none => none
  | none => none

/-- The amount string of the total of a time bucket for the metric type, when
the bucket contains no groups and has a non-null total of that type. -/
def totalAmount (metricType : String) (bucket : ResultByTime) : Option String :=
  if bucket.Groups = [] then
    match bucket.Total with
    | some total =>
      match total.lookup metricType with
      | some metric => metric.Amount
      | none => none
    | none => none
  else none

/-- The amount strings that are read from a list of time buckets: the non-null
amounts of the groups and the non-null totals of the buckets without groups. -/
def readAmounts (metricType : String) (buckets : List ResultByTime) : List String :=
  buckets.flatMap
    (fun b => b.Groups.filterMap (groupAmount metricType) ++ (totalAmount metricType b).toList)

/-- The rows of the groups that carry a non-null amount, in order. -/
def specGroups (parseFloat : String → Option Float64) (metricType : String)
    (buckets : List ResultByTime) : List CostGroup :=
  buckets.flatMap (fun b => b.Groups.filterMap (groupRow parseFloat metricType))

/-- The `float64` sum of `total` and the totals of the buckets that contain no
groups, added one by one in the order of the buckets. -/
def specTotalFrom (parseFloat : String → Option Float64) (metricType : String)
    (total : Float64) (buckets : List ResultByTime) : Float64 :=
  ((buckets.filterMap (totalAmount metricType)).map (fun s => (parseFloat s).getD 0)).foldl
    (fun t amount => t + amount) total

/-- The `float64` sum of the totals of the buckets that contain no groups, added
one by one, in the order of the buckets, to 0. -/
def specTotal (parseFloat : String → Option Float64) (metricType : String)
    (buckets : List ResultByTime) : Float64 :=
  specTotalFrom parseFloat metricType 0 buckets

/-- The state after a group whose amount, if any, is parsed without an error. -/
def addRow (parseFloat : String → Option Float64) (metricType : String) (r : CostResult)
    (group : Group) : CostResult :=
  { r with Groups := r.Groups ++ (groupRow parseFloat metricType group).toList }

/-- The total after a time bucket: the total of the bucket, if it is read, is
added to the total so far. -/
def bucketTotal (parseFloat : String → Option Float64) (metricType : String)
    (total : Float64) (bucket : ResultByTime) : Float64 :=
  match totalAmount metricType bucket with
  | some s => total + (parseFloat s).getD 0
  | none => total

/-- The state after a time bucket whose amounts are parsed without an error. -/
def addBucket (parseFloat : String → Option Float64) (metricType : String) (r : CostResult)
    (bucket : ResultByTime) : CostResult :=
  { Groups := r.Groups ++ bucket.Groups.filterMap (groupRow parseFloat metricType),
    Total := bucketTotal parseFloat metricType r.Total bucket }

/-- The value that the collector exposes for the metric `name` under the
label-value tuple `lvs`, if there is such a row. -/
def CostCollector.value? (c : CostCollector) (name : String) (lvs : List String) : Option Float64 :=
  match c.metrics.lookup name with
  | some gauge => gauge.value? lvs
  | none => none

/-- The label names declared for the gauge of the metric `name`. -/
def labelNamesOf (c : CostCollector) (name : String) : Option (List String) :=
  (c.metrics.lookup name).map (·.labelNames)

/-- Two collector states that differ in the rows of their gauges only. -/
def SameSchema (c c' : CostCollector) : Prop :=
  c'.config = c.config ∧ c'.awsClients = c.awsClients ∧ c'.scrapeErrors = c.scrapeErrors ∧
    ∀ name, labelNamesOf c' name = labelNamesOf c name

/-- Writing a list of rows, in order, to the gauge of the metric `name`. -/
def applyWrites (c : CostCollector) (name : String) (ws : List (List String × Float64)) :
    Option CostCollector :=
  ws.foldlM (fun c w => setGauge c name w.1 w.2) c

/-- A group that is merged into the minor-cost row: merging is enabled and the
amount is below the threshold. -/
def isMinor (gb : GroupByConfig) (group : CostGroup) : Bool :=
  match gb.MergeMinorCost with
  | some mc => mc.Enabled && decide (group.Amount < mc.Threshold)
  | none => false

/-- The `float64` sum of `acc` and the amounts of the merged groups, added one
by one in the order of the groups. -/
def minorSumFrom (gb : GroupByConfig) (acc : Float64) (groups : List CostGroup) : Float64 :=
  ((groups.filter (isMinor gb)).map (·.Amount)).foldl (fun t amount => t + amount) acc

/-- The `float64` sum of the amounts of the merged groups, added one by one, in
the order of the groups, to 0. -/
def minorSum (gb : GroupByConfig) (groups : List CostGroup) : Float64 :=
  minorSumFrom gb 0 groups

/-- The rows of the groups that are not merged, in order. -/
def groupRows (account : AWSAccount) (metricCfg : MetricConfig) (gb : GroupByConfig)
    (groups : List CostGroup) : List (List String × Float64) :=
  (groups.filter (fun g => !isMinor gb g)).map
    (fun g => (buildLabelValues account metricCfg g.Keys, g.Amount))

/-- The label-value tuple of the merged minor-cost row. -/
def mergedLabels (account : AWSAccount) (metricCfg : MetricConfig) (gb : GroupByConfig)
    (mc : MergeConfig) : List String :=
  buildLabelValues account metricCfg (List.replicate gb.Groups.length mc.TagValue)

/-- The rows that `updateMetrics` writes for one account, metric and result, in
the order in which it writes them. -/
def emittedRows (account : AWSAccount) (metricCfg : MetricConfig) (result : CostResult) :
    List (List String × Float64) :=
  match metricCfg.GroupBy with
  | none => [(buildLabelValues account metricCfg [], result.Total)]
  | some gb =>
    if gb.Enabled = false then [(buildLabelValues account metricCfg [], result.Total)]
    else
      groupRows account metricCfg gb result.Groups ++
        (match gb.MergeMinorCost with
          | some mc =>
            if minorSum gb result.Groups > 0 then
              [(mergedLabels account metricCfg gb mc, minorSum gb result.Groups)]
            else []
          | none => [])

/-- The publish step writes, for the account and the metric, a row whose
number of label values is not the number of label names of the metric's gauge
(or the metric has no gauge). -/
def MetricMismatch (c : CostCollector) (ar : accountResults) (metricCfg : MetricConfig) : Prop :=
  ∃ result, ar.results.lookup metricCfg.MetricName = some result ∧
    ∃ row ∈ emittedRows ar.account metricCfg result,
      ∀ names, labelNamesOf c metricCfg.MetricName = some names → row.1.length ≠ names.length

/-- Some row of the publish step has a wrong number of label values. -/
def PublishMismatch (c : CostCollector) (allResults : List accountResults) : Prop :=
  ∃ ar ∈ allResults, ∃ metricCfg ∈ c.config.Metrics, MetricMismatch c ar metricCfg

/-- The collector with every gauge reset. -/
def resetAll (c : CostCollector) : CostCollector :=
  { c with metrics := c.metrics.map (fun p => (p.1, p.2.Reset)) }

/-- The fetch of the account at position `i` succeeds: the account has a
client and every billing query of the cycle for it succeeds. -/
def fetchSucceeds (c : CostCollector) (api : Nat → Nat → Except String CostResult) (i : Nat) :
    Bool :=
  match c.config.TargetAWSAccounts[i]? with
  | some acc =>
    decide (acc.AccountId ∈ c.awsClients) &&
      (List.range c.config.Metrics.length).all (fun j => (api i j).toBool)
  | none => false

/-- The number of configured accounts whose fetch fails. -/
def failedCount (c : CostCollector) (api : Nat → Nat → Except String CostResult) : Nat :=
  ((List.range c.config.TargetAWSAccounts.length).filter
    (fun i => !fetchSucceeds c api i)).length

/-- The result kept under a metric name by an account task: that of the last
configured metric with this name, the metrics being those from position `j`
on and `acc` the result kept so far. -/
def namedFrom (call : Nat → Except String CostResult) (name : String) :
    List MetricConfig → Nat → Option CostResult → Option CostResult
  | [], _, acc => acc
  | metricCfg :: rest, j, acc =>
    namedFrom call name rest (j + 1)
      (if metricCfg.MetricName = name then (call j).toOption else acc)

/-- The result of the billing queries `call` for the metric name `name`. -/
def namedResult (metrics : List MetricConfig) (call : Nat → Except String CostResult)
    (name : String) : Option CostResult :=
  namedFrom call name metrics 0 none

/-- The accounts whose fetch succeeded, with their position, in the order in
which their tasks complete. -/
def succeeded (c : CostCollector) (api : Nat → Nat → Except String CostResult)
    (sched : List Nat) : List (Nat × AWSAccount) :=
  sched.filterMap (fun i =>
    if fetchSucceeds c api i then (c.config.TargetAWSAccounts[i]?).map (fun acc => (i, acc))
    else none)

/-- `updateMetrics` for one account and each configured metric, with the result
of the account's query for that metric name. -/
def specAccount (c : CostCollector) (api : Nat → Nat → Except String CostResult)
    (s : CostCollector) (ia : Nat × AWSAccount) : Option CostCollector :=
  c.config.Metrics.foldlM
    (fun s metricCfg =>
      (namedResult c.config.Metrics (api ia.1) metricCfg.MetricName).bind
        (fun result => updateMetrics s ia.2 metricCfg result))
    s

/-- The gauges obtained by starting from empty gauges and applying
`updateMetrics` for each account whose fetch succeeded and each configured
metric. -/
def specSnapshot (c : CostCollector) (api : Nat → Nat → Except String CostResult)
    (sched : List Nat) : Option (List (String × GaugeVec)) :=
  ((succeeded c api sched).foldlM (specAccount c api) (resetAll c)).map (·.metrics)

/-- The collector with another value of the error counter. -/
def withErrors (n : Nat) (c : CostCollector) : CostCollector :=
  { c with scrapeErrors := n }

/-- The value of the tuple `L` after the rows `ws` have been written, in order,
over the value `prior`: that of the last row of `L`, if there is one. -/
def overlay (ws : List (List String × Float64)) (prior : Option Float64) (L : List String) : Option Float64 :=
  match List.lookup L ws.reverse with
  | some v => some v
  | none => prior

/-- The rows that the publish step writes to the gauge `name` for one collected
account and one configured metric. -/
def metricRows (ar : accountResults) (name : String) (metricCfg : MetricConfig) :
    List (List String × Float64) :=
  if metricCfg.MetricName = name then
    match ar.results.lookup metricCfg.MetricName with
    | some result => emittedRows ar.account metricCfg result
    | none => []
  else []

/-- The rows that the publish step writes to the gauge `name` for one collected
account, in order. -/
def accountRows (metrics : List MetricConfig) (ar : accountResults) (name : String) :
    List (List String × Float64) :=
  metrics.flatMap (metricRows ar name)

/-- The first request of `GetCostAndUsage` for a query. -/
def firstInput (query : CostQuery) : GetCostAndUsageInput :=
  { TimePeriod := (query.StartDate, query.EndDate)
    Granularity := query.Granularity
    Metrics := [query.MetricType]
    GroupBy := query.GroupBy
    Filter := buildFilter query.RecordTypes query.TagFilters
    NextPageToken := none }

/-- The pages that the billing API returns for the successive requests of one
query, up to and including the first page without a continuation token. -/
def IsPageSequence (client : GetCostAndUsageInput → Except String GetCostAndUsageOutput) :
    GetCostAndUsageInput → List GetCostAndUsageOutput → Prop
  | _, [] => False
  | input, page :: rest =>
    client input = .ok page ∧
      match page.NextPageToken with
      | none => rest = []
      | some tok => IsPageSequence client { input with NextPageToken := some tok } rest

/-- The pages that the billing API returns before a request fails with `err`. -/
def FailsAfter (client : GetCostAndUsageInput → Except String GetCostAndUsageOutput) :
    GetCostAndUsageInput → List GetCostAndUsageOutput → String → Prop
  | input, [], err => client input = .error err
  | input, page :: rest, err =>
    client input = .ok page ∧
      match page.NextPageToken with
      | none => False
      | some tok => FailsAfter client { input with NextPageToken := some tok } rest err

/-- A stand-in for `strconv.ParseFloat`, which agrees with it on the unsigned
decimal integers and on the strings `NaN` and `Inf`, and rejects every other
string: an integer parses to the nearest `float64`, and is an error when that
is out of range. -/
def parseDigits (s : String) : Option Float64 :=
  if s = "NaN" then some .nan
  else if s = "Inf" then some .posInf
  else if s.data ≠ [] ∧ s.data.all Char.isDigit = true then
    match Float64.round ((s.data.foldl (fun n c => 10 * n + (c.toNat - 48)) 0 : Nat) : ℚ) with
    | .posInf => none
    | v => some v
  else none

/-! ## Sample configuration -/

def teamAlias : AliasConfig :=
  { LabelName := "team_name", Map := [("payments", "Payments Team")] }

def teamGroup : GroupConfig :=
  { «Type» := "TAG", Key := "team", LabelName := "team", Alias := some teamAlias }

def serviceGroup : GroupConfig :=
  { «Type» := "DIMENSION", Key := "SERVICE", LabelName := "service", Alias := none }

def teamMetric : MetricConfig :=
  { MetricName := "aws_cost_by_team", MetricDescription := "", Granularity := "DAILY",
    DataDelayDays := 1, MetricType := "UnblendedCost", RecordTypes := [],
    GroupBy := some { Enabled := true, Groups := [serviceGroup, teamGroup],
                      MergeMinorCost := none },
    TagFilters := [] }

/-- An alias whose map has a binding for the empty key value. -/
def untaggedAlias : AliasConfig :=
  { LabelName := "team_name", Map := [("", "Untagged"), ("payments", "Payments Team")] }

def untaggedGroup : GroupConfig :=
  { «Type» := "TAG", Key := "team", LabelName := "team", Alias := some untaggedAlias }

def untaggedMetric : MetricConfig :=
  { MetricName := "aws_cost_by_team", MetricDescription := "", Granularity := "DAILY",
    DataDelayDays := 1, MetricType := "UnblendedCost", RecordTypes := [],
    GroupBy := some { Enabled := true, Groups := [untaggedGroup], MergeMinorCost := none },
    TagFilters := [] }

def prodAccount : AWSAccount :=
  { AccountId := "111111111111", AssumedRoleName := "reader",
    Labels := [("env", "prod"), ("app", "shop")] }

def devAccount : AWSAccount :=
  { AccountId := "222222222222", AssumedRoleName := "reader",
    Labels := [("app", "shop"), ("env", "dev")] }

/-- An account without custom labels. -/
def bareAccount : AWSAccount :=
  { AccountId := "333333333333", AssumedRoleName := "reader", Labels := [] }

def sampleConfig : Config :=
  { ExporterPort := 9090, PollingInterval := 28800, Metrics := [teamMetric],
    TargetAWSAccounts := [prodAccount, devAccount] }

/-- A configuration whose second account has no custom label while the first has two. -/
def driftConfig : Config :=
  { ExporterPort := 9090, PollingInterval := 28800, Metrics := [teamMetric],
    TargetAWSAccounts := [prodAccount, bareAccount] }

def usdAmount (s : String) : MetricValue :=
  { Amount := some s, Unit := some "USD" }

def sampleQuery : CostQuery :=
  { StartDate := 0, EndDate := 86400, Granularity := "DAILY", MetricType := "UnblendedCost",
    RecordTypes := [], GroupBy := [{ «Type» := "DIMENSION", Key := "SERVICE" }],
    TagFilters := [] }

/-- A first page with two groups and a continuation token. -/
def pageOne : GetCostAndUsageOutput :=
  { ResultsByTime :=
      [{ Groups := [{ Keys := ["Amazon EC2"], Metrics := [("UnblendedCost", usdAmount "12")] },
                    { Keys := ["Amazon S3"], Metrics := [("UnblendedCost", ⟨none, none⟩)] }],
         Total := some [] }],
    NextPageToken := some "t1" }

/-- A last page with one group and one bucket without groups. -/
def pageTwo : GetCostAndUsageOutput :=
  { ResultsByTime :=
      [{ Groups := [{ Keys := ["AWS Lambda"], Metrics := [("UnblendedCost", usdAmount "3")] }],
         Total := some [] },
       { Groups := [], Total := some [("UnblendedCost", usdAmount "7")] }],
    NextPageToken := none }

/-- A billing API that serves `pageOne`, then `pageTwo` for the token `t1`, and
fails for every other token. -/
def twoPageClient (input : GetCostAndUsageInput) : Except String GetCostAndUsageOutput :=
  match input.NextPageToken with
  | none => .ok pageOne
  | some tok => if tok = "t1" then .ok pageTwo else .error "invalid token"

/-- A single page whose bucket has one group and, next to it, a total that is
not a number. -/
def mixedPage : GetCostAndUsageOutput :=
  { ResultsByTime :=
      [{ Groups := [{ Keys := ["Amazon EC2"], Metrics := [("UnblendedCost", usdAmount "12")] }],
         Total := some [("UnblendedCost", usdAmount "n/a")] }],
    NextPageToken := none }

def mixedClient (_ : GetCostAndUsageInput) : Except String GetCostAndUsageOutput :=
  .ok mixedPage

/-- A single page with a group whose amount is the string `NaN` and two buckets
without groups, the total of the second being the string `Inf`. -/
def nanPage : GetCostAndUsageOutput :=
  { ResultsByTime :=
      [{ Groups := [{ Keys := ["Amazon EC2"], Metrics := [("UnblendedCost", usdAmount "NaN")] }],
         Total := none },
       { Groups := [], Total := some [("UnblendedCost", usdAmount "7")] },
       { Groups := [], Total := some [("UnblendedCost", usdAmount "Inf")] }],
    NextPageToken := none }

def nanClient (_ : GetCostAndUsageInput) : Except String GetCostAndUsageOutput :=
  .ok nanPage

/-- The `float64` of the decimal constant with the digits `n`, `k` of them
after the point. -/
def decimal (n : Int) (k : Nat) : Float64 :=
  Float64.round ((n : ℚ) / ((10 ^ k : Nat) : ℚ))

/-- A metric grouped by service whose groups below 5 are merged into the row
`other`. -/
def mergeMetric : MetricConfig :=
  { MetricName := "aws_cost_by_service", MetricDescription := "", Granularity := "DAILY",
    DataDelayDays := 1, MetricType := "UnblendedCost", RecordTypes := [],
    GroupBy := some { Enabled := true, Groups := [serviceGroup],
                      MergeMinorCost := some { Enabled := true, Threshold := 5,
                                               TagValue := "other" } },
    TagFilters := [] }

def mergeConfig : Config :=
  { ExporterPort := 9090, PollingInterval := 28800, Metrics := [mergeMetric],
    TargetAWSAccounts := [bareAccount] }

/-- The collector of `mergeConfig` as `New` builds it. -/
def mergeCollector : CostCollector :=
  { metrics := initMetrics mergeConfig, awsClients := ["333333333333"], config := mergeConfig,
    scrapeErrors := 0 }

/-- Two groups below the threshold and one above. -/
def mergeResult : CostResult :=
  { Groups := [{ Keys := ["a"], Amount := 2, Unit := "USD" },
               { Keys := ["b"], Amount := 3, Unit := "USD" },
               { Keys := ["c"], Amount := 50, Unit := "USD" }],
    Total := 0 }

/-- Three groups below the threshold 5 with the amounts 0.01, 0.02 and -0.03,
whose `float64` sum is 0. -/
def roundingResult : CostResult :=
  { Groups := [{ Keys := ["a"], Amount := decimal 1 2, Unit := "USD" },
               { Keys := ["b"], Amount := decimal 2 2, Unit := "USD" },
               { Keys := ["c"], Amount := decimal (-3) 2, Unit := "USD" }],
    Total := 0 }

/-- A group whose amount is NaN and a group below the threshold 5. -/
def nanResult : CostResult :=
  { Groups := [{ Keys := ["a"], Amount := .nan, Unit := "USD" },
               { Keys := ["b"], Amount := 3, Unit := "USD" }],
    Total := 0 }

/-- A result with a group whose key is the placeholder of the merged row. -/
def collidingResult : CostResult :=
  { Groups := [{ Keys := ["other"], Amount := 50, Unit := "USD" },
               { Keys := ["a"], Amount := 2, Unit := "USD" }],
    Total := 0 }

/-- A result with one group by service and team. -/
def teamResult : CostResult :=
  { Groups := [{ Keys := ["Amazon EC2", "team$payments"], Amount := 12, Unit := "USD" }],
    Total := 0 }

/-- The collector of `driftConfig` as `New` builds it. -/
def driftCollector : CostCollector :=
  { metrics := initMetrics driftConfig, awsClients := ["111111111111", "333333333333"],
    config := driftConfig, scrapeErrors := 0 }

/-- The collector of `sampleConfig` as `New` builds it. -/
def sampleCollector : CostCollector :=
  { metrics := initMetrics sampleConfig, awsClients := ["111111111111", "222222222222"],
    config := sampleConfig, scrapeErrors := 0 }

/-- A cycle in which every query returns the group of the team `payments`. -/
def firstCycle (_ _ : Nat) : Except String CostResult :=
  .ok teamResult

/-- A result without the team `payments`. -/
def searchResult : CostResult :=
  { Groups := [{ Keys := ["Amazon EC2", "team$search"], Amount := 7, Unit := "USD" }],
    Total := 0 }

/-- A cycle in which the query of the second account fails and the team
`payments` has disappeared from the result of the first. -/
def secondCycle (i _ : Nat) : Except String CostResult :=
  if i = 1 then .error "AccessDenied" else .ok searchResult

/-- The collector after the first cycle. -/
def afterFirstCycle : CostCollector :=
  match Refresh sampleCollector firstCycle [0, 1] with
  | some (c, _) => c
  | none => sampleCollector

/-- A configuration of three accounts. -/
def threeConfig : Config :=
  { ExporterPort := 9090, PollingInterval := 28800, Metrics := [mergeMetric],
    TargetAWSAccounts :=
      [{ AccountId := "1", AssumedRoleName := "reader", Labels := [] },
       { AccountId := "2", AssumedRoleName := "reader", Labels := [] },
       { AccountId := "3", AssumedRoleName := "reader", Labels := [] }] }

def threeCollector : CostCollector :=
  { metrics := initMetrics threeConfig, awsClients := ["1", "2", "3"], config := threeConfig,
    scrapeErrors := 0 }

/-- A cycle in which the query of the second of three accounts fails. -/
def secondFails (i _ : Nat) : Except String CostResult :=
  if i = 1 then .error "Throttling" else .ok mergeResult

/-! ## Lemmas on the label schema -/

theorem strLE_iff (a b : String) : strLE a b ↔ a ≤ b :=
  String.le_iff_toList_le.symm

instance strLE.isTotal : IsTotal String strLE :=
  ⟨fun a b => by simpa [strLE_iff] using le_total a b⟩

instance strLE.isTrans : IsTrans String strLE :=
  ⟨fun a b c hab hbc => by
    rw [strLE_iff] at *
    exact le_trans hab hbc⟩

instance strLE.isAntisymm : IsAntisymm String strLE :=
  ⟨fun a b hab hba => by
    rw [strLE_iff] at *
    exact le_antisymm hab hba⟩

theorem getSortedLabelKeys_perm (account : AWSAccount) :
    (getSortedLabelKeys account).Perm (mapKeys account.Labels) :=
  List.perm_insertionSort _ _

theorem getSortedLabelKeys_nodup (account : AWSAccount) : (getSortedLabelKeys account).Nodup :=
  (getSortedLabelKeys_perm account).nodup_iff.mpr (List.nodup_dedup _)

theorem mem_getSortedLabelKeys (account : AWSAccount) (k : String) :
    k ∈ getSortedLabelKeys account ↔ k ∈ mapKeys account.Labels :=
  (getSortedLabelKeys_perm account).mem_iff

theorem getSortedLabelKeys_sorted (account : AWSAccount) :
    List.Sorted strLE (getSortedLabelKeys account) :=
  List.sorted_insertionSort _ _

theorem getSortedLabelKeys_strict (account : AWSAccount) :
    List.Sorted (· < ·) (getSortedLabelKeys account) := by
  have h : List.Sorted (· ≤ ·) (getSortedLabelKeys account) :=
    (getSortedLabelKeys_sorted account).imp (fun {a b} hab => (strLE_iff a b).mp hab)
  exact h.lt_of_le (getSortedLabelKeys_nodup account)

/-- Accounts with the same label keys have the same sorted key list. -/
theorem getSortedLabelKeys_congr (a b : AWSAccount)
    (h : ∀ k, k ∈ mapKeys a.Labels ↔ k ∈ mapKeys b.Labels) :
    getSortedLabelKeys a = getSortedLabelKeys b := by
  apply List.eq_of_perm_of_sorted _ (getSortedLabelKeys_sorted a) (getSortedLabelKeys_sorted b)
  rw [List.perm_ext_iff_of_nodup (getSortedLabelKeys_nodup a) (getSortedLabelKeys_nodup b)]
  intro k
  rw [mem_getSortedLabelKeys, mem_getSortedLabelKeys]
  exact h k

theorem foldl_appendGroupNames (groups : List GroupConfig) (labels : List String) :
    groups.foldl appendGroupNames labels = labels ++ groups.flatMap groupNames := by
  induction groups generalizing labels with
  | nil => simp
  | cons g rest ih =>
    rw [List.foldl_cons, ih]
    cases hA : g.Alias <;> simp [appendGroupNames, groupNames, hA]

theorem foldl_appendGroupValues (keys : List String) (groups : List GroupConfig)
    (vs : List String) (i : Nat) :
    (groups.foldl (appendGroupValues keys) (vs, i)).1 = vs ++ groupValuesFrom keys i groups := by
  induction groups generalizing vs i with
  | nil => simp [groupValuesFrom]
  | cons g rest ih =>
    rw [List.foldl_cons]
    cases hA : g.Alias <;> simp [appendGroupValues, groupValuesFrom, groupValues, hA, ih]

theorem foldl_append_singleton {α β : Type} (f : α → β) (l : List α) (init : List β) :
    l.foldl (fun vs key => vs ++ [f key]) init = init ++ l.map f := by
  induction l generalizing init with
  | nil => simp
  | cons a rest ih => simp [ih]

theorem buildLabelNames_eq (cfg : Config) (first : AWSAccount) (rest : List AWSAccount)
    (metricCfg : MetricConfig) (hcfg : cfg.TargetAWSAccounts = first :: rest) :
    buildLabelNames cfg metricCfg =
      "account_id" :: getSortedLabelKeys first ++ ["charge_type"] ++
        (enabledGroups metricCfg).flatMap groupNames := by
  unfold buildLabelNames enabledGroups
  rw [hcfg]
  cases hG : metricCfg.GroupBy with
  | none => simp
  | some gb => by_cases hE : gb.Enabled = true <;> simp [hE, foldl_appendGroupNames]

theorem buildLabelValues_eq (account : AWSAccount) (metricCfg : MetricConfig)
    (keys : List String) :
    buildLabelValues account metricCfg keys =
      account.AccountId :: (getSortedLabelKeys account).map (mapIndex account.Labels) ++
        [getChargeType metricCfg] ++ groupValuesFrom keys 0 (enabledGroups metricCfg) := by
  unfold buildLabelValues enabledGroups
  cases hG : metricCfg.GroupBy with
  | none => simp [foldl_append_singleton, groupValuesFrom]
  | some gb =>
    by_cases hE : gb.Enabled = true <;>
      simp [hE, foldl_append_singleton, foldl_appendGroupValues, groupValuesFrom]

theorem length_groupValues (keys : List String) (i : Nat) (g : GroupConfig) :
    (groupValues keys i g).length = (groupNames g).length := by
  cases hA : g.Alias <;> simp [groupValues, groupNames, hA]

theorem length_groupValuesFrom (keys : List String) (i : Nat) (groups : List GroupConfig) :
    (groupValuesFrom keys i groups).length = (groups.map (fun g => (groupNames g).length)).sum := by
  induction groups generalizing i with
  | nil => simp [groupValuesFrom]
  | cons g rest ih => simp [groupValuesFrom, length_groupValues, ih]

theorem length_flatMap_groupNames (groups : List GroupConfig) :
    (groups.flatMap groupNames).length = (groups.map (fun g => (groupNames g).length)).sum := by
  induction groups with
  | nil => simp
  | cons g rest ih => simp [ih]

theorem length_buildLabelValues (account : AWSAccount) (metricCfg : MetricConfig)
    (keys : List String) :
    (buildLabelValues account metricCfg keys).length =
      1 + (getSortedLabelKeys account).length + 1 +
        ((enabledGroups metricCfg).map (fun g => (groupNames g).length)).sum := by
  rw [buildLabelValues_eq]
  simp [length_groupValuesFrom]
  omega

theorem length_getSortedLabelKeys (account : AWSAccount) :
    (getSortedLabelKeys account).length = (mapKeys account.Labels).length :=
  (getSortedLabelKeys_perm account).length_eq


theorem hasPrefix_append (p v : String) : hasPrefix (p ++ v) p = true := by
  simp [hasPrefix, String.data_append]

theorem trimPrefix_append (p v : String) : trimPrefix (p ++ v) p = v := by
  simp [trimPrefix, hasPrefix_append, String.data_append]

theorem hasPrefix_iff (s p : String) : hasPrefix s p = true ↔ ∃ v : String, s = p ++ v := by
  constructor
  · intro h
    obtain ⟨t, ht⟩ := List.isPrefixOf_iff_prefix.mp h
    exact ⟨String.mk t, String.ext (by simp [String.data_append, ht])⟩
  · rintro ⟨v, rfl⟩
    exact hasPrefix_append p v

theorem getD_guard (keys : List String) (i : Nat) :
    (if i < keys.length then keys.getD i "" else "") = keys.getD i "" := by
  split
  · rfl
  · rw [List.getD_eq_default]
    omega

theorem groupKeyValue_eq (g : GroupConfig) (keys : List String) (i : Nat) :
    groupKeyValue g keys i =
      if g.«Type» = "TAG" then
        (if hasPrefix (keys.getD i "") (g.Key ++ "$") = true then
          trimPrefix (keys.getD i "") (g.Key ++ "$")
        else keys.getD i "")
      else keys.getD i "" := by
  unfold groupKeyValue
  simp only [getD_guard]

theorem groupKeyValue_of_length_le (g : GroupConfig) (keys : List String) (i : Nat)
    (h : keys.length ≤ i) : groupKeyValue g keys i = "" := by
  have hi : ¬ i < keys.length := by omega
  have hp : hasPrefix "" (g.Key ++ "$") = false := by
    simp [hasPrefix, String.data_append, List.isPrefixOf]
  unfold groupKeyValue
  simp [hi, hp]

theorem groupValuesFrom_append (keys : List String) (i : Nat) (pre post : List GroupConfig) :
    groupValuesFrom keys i (pre ++ post) =
      groupValuesFrom keys i pre ++ groupValuesFrom keys (i + pre.length) post := by
  induction pre generalizing i with
  | nil => simp [groupValuesFrom]
  | cons g rest ih =>
    have hi : i + 1 + rest.length = i + (rest.length + 1) := by omega
    show groupValues keys i g ++ groupValuesFrom keys (i + 1) (rest ++ post) = _
    rw [ih, hi]
    simp [groupValuesFrom]

/-- The labels of the entry that follows `pre` start at `groupOffset account pre`. -/
theorem buildLabelValues_split (account : AWSAccount) (metricCfg : MetricConfig)
    (keys : List String) (pre post : List GroupConfig) (g : GroupConfig)
    (h : enabledGroups metricCfg = pre ++ g :: post) :
    ∃ front : List String, front.length = groupOffset account pre ∧
      buildLabelValues account metricCfg keys =
        front ++ (groupValues keys pre.length g ++
          groupValuesFrom keys (pre.length + 1) post) := by
  refine ⟨account.AccountId :: (getSortedLabelKeys account).map (mapIndex account.Labels) ++
    [getChargeType metricCfg] ++ groupValuesFrom keys 0 pre, ?_, ?_⟩
  · simp [groupOffset, length_groupValuesFrom]
    omega
  · rw [buildLabelValues_eq, h, groupValuesFrom_append]
    simp [groupValuesFrom]

theorem buildLabelValues_key_at (account : AWSAccount) (metricCfg : MetricConfig)
    (keys : List String) (pre post : List GroupConfig) (g : GroupConfig)
    (h : enabledGroups metricCfg = pre ++ g :: post) :
    (buildLabelValues account metricCfg keys)[groupOffset account pre]? =
      some (groupKeyValue g keys pre.length) := by
  obtain ⟨front, hlen, heq⟩ := buildLabelValues_split account metricCfg keys pre post g h
  rw [heq, ← hlen, List.getElem?_append_right (le_refl _)]
  simp [groupValues]

theorem buildLabelValues_alias_at (account : AWSAccount) (metricCfg : MetricConfig)
    (keys : List String) (pre post : List GroupConfig) (g : GroupConfig) (a : AliasConfig)
    (h : enabledGroups metricCfg = pre ++ g :: post) (ha : g.Alias = some a) :
    (buildLabelValues account metricCfg keys)[groupOffset account pre + 1]? =
      some (aliasValue a (groupKeyValue g keys pre.length)) := by
  obtain ⟨front, hlen, heq⟩ := buildLabelValues_split account metricCfg keys pre post g h
  rw [heq, ← hlen, List.getElem?_append_right (by omega)]
  simp [groupValues, ha]

theorem enabledGroups_eq (metricCfg : MetricConfig) (gb : GroupByConfig)
    (hgb : metricCfg.GroupBy = some gb) (hen : gb.Enabled = true) :
    enabledGroups metricCfg = gb.Groups := by
  simp [enabledGroups, hgb, hen]

theorem zip_specGroupPairs (keys : List String) (i : Nat) (groups : List GroupConfig) :
    List.zip (groups.flatMap groupNames) (groupValuesFrom keys i groups) =
      specGroupPairs keys i groups := by
  induction groups generalizing i with
  | nil => simp [groupValuesFrom, specGroupPairs]
  | cons g rest ih =>
    rw [List.flatMap_cons, groupValuesFrom, List.zip_append (length_groupValues keys i g).symm, ih]
    cases hA : g.Alias <;> simp [specGroupPairs, groupNames, groupValues, hA]

theorem mem_mapKeys (m : List (String × String)) (k : String) :
    k ∈ mapKeys m ↔ ∃ v, (k, v) ∈ m := by
  simp [mapKeys]

theorem lookup_of_mem_mapKeys (m : List (String × String)) (k : String) (h : k ∈ mapKeys m) :
    m.lookup k = some (mapIndex m k) := by
  obtain ⟨v, hv⟩ := (mem_mapKeys m k).mp h
  induction m with
  | nil => simp at hv
  | cons p rest ih =>
    obtain ⟨k', v'⟩ := p
    by_cases hk : k = k'
    · subst hk
      simp [mapIndex, List.lookup]
    · have hb : (k == k') = false := by simpa using hk
      have hmem : (k, v) ∈ rest := by
        rcases List.mem_cons.mp hv with h1 | h1
        · exact absurd (congrArg Prod.fst h1) hk
        · exact h1
      have := ih ((mem_mapKeys rest k).mpr ⟨v, hmem⟩) hmem
      simpa [mapIndex, List.lookup, hb] using this

theorem zip_map_self {α β : Type} (f : α → β) (l : List α) :
    List.zip l (l.map f) = l.map (fun k => (k, f k)) := by
  induction l with
  | nil => rfl
  | cons a rest ih => simp [ih]

theorem getChargeType_eq (metricCfg : MetricConfig) :
    getChargeType metricCfg =
      if metricCfg.RecordTypes = [] then "Usage" else ",".intercalate metricCfg.RecordTypes := by
  unfold getChargeType
  cases metricCfg.RecordTypes <;> simp

/-! ## The label schema: settled properties -/

/-- C1 (as amended): when the configuration has at least one account and the
account has as many label keys as the first configured account, the label
values built for any group-key tuple are as many as the label names of the
metric. -/
theorem buildLabelValues_length_eq_names (cfg : Config) (first : AWSAccount)
    (rest : List AWSAccount) (account : AWSAccount) (metricCfg : MetricConfig)
    (keys : List String) (hcfg : cfg.TargetAWSAccounts = first :: rest)
    (hkeys : (mapKeys account.Labels).length = (mapKeys first.Labels).length) :
    (buildLabelValues account metricCfg keys).length =
      (buildLabelNames cfg metricCfg).length := by
  rw [length_buildLabelValues, buildLabelNames_eq cfg first rest metricCfg hcfg]
  simp only [List.length_append, List.length_cons, List.length_singleton, List.length_nil,
    length_flatMap_groupNames, length_getSortedLabelKeys, hkeys]
  omega

theorem buildLabelValues_length_eq_names_witness :
    sampleConfig.TargetAWSAccounts = prodAccount :: [devAccount] ∧
    (mapKeys devAccount.Labels).length = (mapKeys prodAccount.Labels).length ∧
    (buildLabelValues devAccount teamMetric ["Amazon EC2", "team$payments"]).length =
      (buildLabelNames sampleConfig teamMetric).length :=
  ⟨rfl, by decide,
    buildLabelValues_length_eq_names sampleConfig prodAccount [devAccount] devAccount teamMetric
      ["Amazon EC2", "team$payments"] rfl (by decide)⟩

/-- C1 (as stated) fails: `bareAccount`, the second account of `driftConfig`, has
no custom label while the label names come from the first account, which has
two; its label values are two fewer than the label names. -/
theorem buildLabelValues_length_ne_names :
    bareAccount ∈ driftConfig.TargetAWSAccounts ∧
    (buildLabelNames driftConfig teamMetric).length = 7 ∧
    (buildLabelValues bareAccount teamMetric ["Amazon EC2", "team$payments"]).length = 5 := by
  decide

/-- C6: for a configuration with at least one account and an account whose label
keys are those of the first configured account, label names and label values
have the same length and pair up, position by position, as the specification
lists them: `account_id` with the account id; each custom label key, in strictly
ascending order, with its value in the label map; `charge_type` with the
comma-joined record types (`Usage` when there is none); then per group-by entry
its label name with its realized key value (empty when the tuple has no key at
that position) and, when it has an alias, the alias label name with the alias
value. -/
theorem labels_correspond (cfg : Config) (first : AWSAccount) (rest : List AWSAccount)
    (account : AWSAccount) (metricCfg : MetricConfig) (keys : List String)
    (hcfg : cfg.TargetAWSAccounts = first :: rest)
    (hkeys : ∀ k, k ∈ mapKeys account.Labels ↔ k ∈ mapKeys first.Labels) :
    (buildLabelNames cfg metricCfg).length = (buildLabelValues account metricCfg keys).length ∧
    List.zip (buildLabelNames cfg metricCfg) (buildLabelValues account metricCfg keys) =
      specLabelPairs account metricCfg keys ∧
    List.Sorted (· < ·) (getSortedLabelKeys account) ∧
    (∀ k, k ∈ getSortedLabelKeys account ↔ ∃ v, (k, v) ∈ account.Labels) ∧
    (∀ k ∈ getSortedLabelKeys account,
      account.Labels.lookup k = some (mapIndex account.Labels k)) ∧
    (∀ (g : GroupConfig) (i : Nat), keys.length ≤ i → groupKeyValue g keys i = "") := by
  have hsame : getSortedLabelKeys first = getSortedLabelKeys account :=
    (getSortedLabelKeys_congr account first hkeys).symm
  refine ⟨?_, ?_, getSortedLabelKeys_strict account, ?_, ?_, ?_⟩
  · rw [length_buildLabelValues, buildLabelNames_eq cfg first rest metricCfg hcfg, hsame]
    simp only [List.length_append, List.length_cons, List.length_singleton, List.length_nil,
      length_flatMap_groupNames]
    omega
  · rw [buildLabelNames_eq cfg first rest metricCfg hcfg, buildLabelValues_eq, hsame,
      List.zip_append (by simp), zip_specGroupPairs, List.cons_append, List.cons_append,
      List.zip_cons_cons, List.zip_append (by simp), zip_map_self, getChargeType_eq]
    simp [specLabelPairs]
  · intro k
    rw [mem_getSortedLabelKeys, mem_mapKeys]
  · intro k hk
    exact lookup_of_mem_mapKeys _ _ ((mem_getSortedLabelKeys account k).mp hk)
  · intro g i hi
    exact groupKeyValue_of_length_le g keys i hi

theorem labels_correspond_witness :
    sampleConfig.TargetAWSAccounts = prodAccount :: [devAccount] ∧
    (∀ k, k ∈ mapKeys devAccount.Labels ↔ k ∈ mapKeys prodAccount.Labels) ∧
    List.zip (buildLabelNames sampleConfig teamMetric)
        (buildLabelValues devAccount teamMetric ["Amazon EC2", "team$payments"]) =
      [("account_id", "222222222222"), ("app", "shop"), ("env", "dev"),
       ("charge_type", "Usage"), ("service", "Amazon EC2"), ("team", "payments"),
       ("team_name", "Payments Team")] :=
  have hk : ∀ k, k ∈ mapKeys devAccount.Labels ↔ k ∈ mapKeys prodAccount.Labels := by
    intro k
    have h1 : mapKeys devAccount.Labels = ["app", "env"] := by decide
    have h2 : mapKeys prodAccount.Labels = ["env", "app"] := by decide
    rw [h1, h2]
    simp [or_comm]
  ⟨rfl, hk,
    (labels_correspond sampleConfig prodAccount [devAccount] devAccount teamMetric
      ["Amazon EC2", "team$payments"] rfl hk).2.1.trans (by decide)⟩

/-- C7: the label value of a TAG entry with key `k` is `v` when the group key at
its position is `k$v`, and the group key itself when that key does not start
with `k$`; the label value of a DIMENSION or COST_CATEGORY entry is always the
group key itself. The entry is the one after the entries `pre`, the group key at
its position is `keys.getD pre.length ""`. -/
theorem tag_prefix_stripped (account : AWSAccount) (metricCfg : MetricConfig)
    (gb : GroupByConfig) (pre post : List GroupConfig) (g : GroupConfig) (keys : List String)
    (hgb : metricCfg.GroupBy = some gb) (hen : gb.Enabled = true)
    (hgroups : gb.Groups = pre ++ g :: post) :
    (∀ v : String, g.«Type» = "TAG" → keys.getD pre.length "" = g.Key ++ "$" ++ v →
      (buildLabelValues account metricCfg keys)[groupOffset account pre]? = some v) ∧
    (g.«Type» = "TAG" → (¬ ∃ v : String, keys.getD pre.length "" = g.Key ++ "$" ++ v) →
      (buildLabelValues account metricCfg keys)[groupOffset account pre]? =
        some (keys.getD pre.length "")) ∧
    (g.«Type» = "DIMENSION" ∨ g.«Type» = "COST_CATEGORY" →
      (buildLabelValues account metricCfg keys)[groupOffset account pre]? =
        some (keys.getD pre.length "")) := by
  have hE : enabledGroups metricCfg = pre ++ g :: post := by
    rw [enabledGroups_eq metricCfg gb hgb hen, hgroups]
  have hat := buildLabelValues_key_at account metricCfg keys pre post g hE
  rw [hat, groupKeyValue_eq]
  refine ⟨?_, ?_, ?_⟩
  · intro v hT hv
    rw [if_pos hT, hv, if_pos (hasPrefix_append _ _), trimPrefix_append]
  · intro hT hno
    have hp : ¬ hasPrefix (keys.getD pre.length "") (g.Key ++ "$") = true :=
      fun h => hno ((hasPrefix_iff _ _).mp h)
    rw [if_pos hT, if_neg hp]
  · intro hT
    have hne : g.«Type» ≠ "TAG" := by
      rcases hT with h | h <;> rw [h] <;> decide
    rw [if_neg hne]

theorem tag_prefix_stripped_witness :
    teamMetric.GroupBy = some { Enabled := true, Groups := [serviceGroup, teamGroup],
                                MergeMinorCost := none } ∧
    teamGroup.«Type» = "TAG" ∧
    ["Amazon EC2", "team$payments"].getD [serviceGroup].length "" = teamGroup.Key ++ "$" ++ "payments" ∧
    (buildLabelValues prodAccount teamMetric ["Amazon EC2", "team$payments"])[
      groupOffset prodAccount [serviceGroup]]? = some "payments" :=
  ⟨rfl, rfl, by decide,
    (tag_prefix_stripped prodAccount teamMetric
      { Enabled := true, Groups := [serviceGroup, teamGroup], MergeMinorCost := none }
      [serviceGroup] [] teamGroup ["Amazon EC2", "team$payments"] rfl rfl rfl).1
      "payments" rfl (by decide)⟩

/-- C8 (as amended): for a group-by entry with an alias whose map is `m`, the
label value that follows the realized key value `v` of the entry is `m[v]` when
`v` is not empty and is a key of `m`, `v` itself when `v` is not empty and is not
a key of `m`, and the empty string when `v` is empty, whatever `m` holds. -/
theorem alias_value_after_key (account : AWSAccount) (metricCfg : MetricConfig)
    (gb : GroupByConfig) (pre post : List GroupConfig) (g : GroupConfig) (a : AliasConfig)
    (keys : List String) (hgb : metricCfg.GroupBy = some gb) (hen : gb.Enabled = true)
    (hgroups : gb.Groups = pre ++ g :: post) (halias : g.Alias = some a) :
    (buildLabelValues account metricCfg keys)[groupOffset account pre]? =
      some (groupKeyValue g keys pre.length) ∧
    (∀ w : String, groupKeyValue g keys pre.length ≠ "" →
      a.Map.lookup (groupKeyValue g keys pre.length) = some w →
      (buildLabelValues account metricCfg keys)[groupOffset account pre + 1]? = some w) ∧
    (groupKeyValue g keys pre.length ≠ "" →
      a.Map.lookup (groupKeyValue g keys pre.length) = none →
      (buildLabelValues account metricCfg keys)[groupOffset account pre + 1]? =
        some (groupKeyValue g keys pre.length)) ∧
    (groupKeyValue g keys pre.length = "" →
      (buildLabelValues account metricCfg keys)[groupOffset account pre + 1]? = some "") := by
  have hE : enabledGroups metricCfg = pre ++ g :: post := by
    rw [enabledGroups_eq metricCfg gb hgb hen, hgroups]
  rw [buildLabelValues_alias_at account metricCfg keys pre post g a hE halias]
  refine ⟨buildLabelValues_key_at account metricCfg keys pre post g hE, ?_, ?_, ?_⟩
  · intro w hne hw
    simp [aliasValue, hne, hw]
  · intro hne hw
    simp [aliasValue, hne, hw]
  · intro he
    simp [aliasValue, he]

theorem alias_value_after_key_witness :
    teamMetric.GroupBy = some { Enabled := true, Groups := [serviceGroup, teamGroup],
                                MergeMinorCost := none } ∧
    teamGroup.Alias = some teamAlias ∧
    groupKeyValue teamGroup ["Amazon EC2", "team$payments"] [serviceGroup].length ≠ "" ∧
    teamAlias.Map.lookup
      (groupKeyValue teamGroup ["Amazon EC2", "team$payments"] [serviceGroup].length) =
        some "Payments Team" ∧
    (buildLabelValues prodAccount teamMetric ["Amazon EC2", "team$payments"])[
      groupOffset prodAccount [serviceGroup] + 1]? = some "Payments Team" :=
  ⟨rfl, rfl, by decide, by decide,
    (alias_value_after_key prodAccount teamMetric
      { Enabled := true, Groups := [serviceGroup, teamGroup], MergeMinorCost := none }
      [serviceGroup] [] teamGroup teamAlias ["Amazon EC2", "team$payments"] rfl rfl rfl rfl).2.1
      "Payments Team" (by decide) (by decide)⟩

/-- C8 (as stated) fails on the empty key value: for the TAG entry `team` and the
group key `team$` the realized key value is the empty string, which is a key of
the alias map with value `Untagged`, yet the alias label value is the empty
string. -/
theorem alias_value_empty_key_unmapped :
    (buildLabelValues bareAccount untaggedMetric ["team$"])[groupOffset bareAccount []]? =
      some "" ∧
    untaggedAlias.Map.lookup "" = some "Untagged" ∧
    (buildLabelValues bareAccount untaggedMetric ["team$"])[groupOffset bareAccount [] + 1]? =
      some "" ∧
    (buildLabelValues bareAccount untaggedMetric ["team$"])[groupOffset bareAccount [] + 1]? ≠
      some "Untagged" := by
  decide

/-! ## The `float64` arithmetic -/

/-- The arithmetic of the model on known sums: 0.1 + 0.2 is the `float64` above
0.3; 0.01 + 0.02 - 0.03 is 0 although the three `float64` do not add up to 0
exactly; 1 is lost in 10^16 + 1; above 2^53 a tie goes to the even neighbour;
the largest `float64` added to itself is +Inf; the sum of the two infinities is
NaN; the zeros add up to the positive zero unless both are negative; no
comparison with NaN holds; the negative zero is not below the positive one. -/
theorem float64_samples :
    decimal 1 1 + decimal 2 1 = .finite (5404319552844596 / 2 ^ 54) ∧
    decimal 3 1 = .finite (5404319552844595 / 2 ^ 54) ∧
    decimal 1 2 + decimal 2 2 + decimal (-3) 2 = 0 ∧
    decimal 1 2 ≠ .finite (1 / 100) ∧
    (10000000000000000 : Float64) + 1 = 10000000000000000 ∧
    (9007199254740992 : Float64) + 1 = 9007199254740992 ∧
    (9007199254740992 : Float64) + 3 = 9007199254740996 ∧
    (9007199254740993 : Float64) = 9007199254740992 ∧
    Float64.finite ((2 ^ 53 - 1) * 2 ^ 971) + Float64.finite ((2 ^ 53 - 1) * 2 ^ 971) =
      .posInf ∧
    Float64.round ((2 ^ 53 - 1) * 2 ^ 971) = .finite ((2 ^ 53 - 1) * 2 ^ 971) ∧
    Float64.round (1 / 2 ^ 1074) = .finite (1 / 2 ^ 1074) ∧
    Float64.round (1 / 2 ^ 1075) = 0 ∧
    Float64.round (-1 / 2 ^ 1075) = .negZero ∧
    Float64.posInf + Float64.negInf = .nan ∧
    Float64.negZero + Float64.negZero = .negZero ∧
    Float64.negZero + (0 : Float64) = 0 ∧
    (2 : Float64) + .finite (-2) = 0 ∧
    ¬ (Float64.nan < 5) ∧ ¬ ((5 : Float64) < .nan) ∧ ¬ (Float64.nan < .nan) ∧
    ¬ (Float64.negZero < 0) ∧ ¬ ((0 : Float64) < .negZero) ∧
    Float64.negInf < 5 ∧ (5 : Float64) < .posInf ∧ (2 : Float64) < 5 ∧ ¬ ((50 : Float64) < 5) := by
  decide!

/-! ## The billing query client -/

theorem foldl_tagFilters (f : List TagFilter) (init : List Expression) :
    f.foldl
      (fun fs tf => fs ++ [Expression.mk [] none
        (some { Key := tf.TagKey, Values := tf.TagValues, MatchOptions := [MatchOptionEquals] })])
      init =
    init ++ f.map (fun tf => Expression.mk [] none
      (some { Key := tf.TagKey, Values := tf.TagValues, MatchOptions := [MatchOptionEquals] })) := by
  induction f generalizing init with
  | nil => simp
  | cons tf rest ih =>
    rw [List.foldl_cons, ih]
    simp

/-- C10: `buildFilter` builds the RECORD_TYPE dimension filter with values `r`,
or `["Usage"]` when `r` is empty; it returns that filter alone when there is no
tag filter, and otherwise an AND of `1 + len(f)` expressions: the record-type
filter, then one tag filter per element of `f`, in order, with that element's
key and values and the EQUALS match option. -/
theorem buildFilter_shape (r : List String) (f : List TagFilter) :
    buildFilter r f =
      (if f = [] then
        Expression.mk []
          (some { Key := "RECORD_TYPE", Values := if r = [] then ["Usage"] else r }) none
      else
        Expression.mk
          (Expression.mk []
              (some { Key := "RECORD_TYPE", Values := if r = [] then ["Usage"] else r }) none ::
            f.map (fun tf => Expression.mk [] none
              (some { Key := tf.TagKey, Values := tf.TagValues, MatchOptions := ["EQUALS"] })))
          none none) ∧
    (buildFilter r f).And.length = (if f = [] then 0 else 1 + f.length) := by
  have hr : (if r.length = 0 then ["Usage"] else r) = (if r = [] then ["Usage"] else r) := by
    cases r <;> simp
  have h : buildFilter r f =
      (if f = [] then
        Expression.mk []
          (some { Key := "RECORD_TYPE", Values := if r = [] then ["Usage"] else r }) none
      else
        Expression.mk
          (Expression.mk []
              (some { Key := "RECORD_TYPE", Values := if r = [] then ["Usage"] else r }) none ::
            f.map (fun tf => Expression.mk [] none
              (some { Key := tf.TagKey, Values := tf.TagValues, MatchOptions := ["EQUALS"] })))
          none none) := by
    unfold buildFilter
    simp only [foldl_tagFilters, hr]
    cases f with
    | nil => simp [DimensionRecordType]
    | cons tf rest => simp [DimensionRecordType, MatchOptionEquals]
  refine ⟨h, ?_⟩
  rw [h]
  cases f <;> simp [Expression.And]
  omega

/-- A loop whose every step succeeds is a fold. -/
theorem foldlM_except_ok {σ α ε : Type} (f : σ → α → Except ε σ) (g : σ → α → σ)
    (l : List α) (r : σ) (h : ∀ a ∈ l, ∀ r, f r a = .ok (g r a)) :
    l.foldlM f r = .ok (l.foldl g r) := by
  induction l generalizing r with
  | nil => rfl
  | cons a rest ih =>
    rw [List.foldlM_cons, h a (List.mem_cons_self _ _) r]
    exact ih (g r a) (fun b hb => h b (List.mem_cons_of_mem _ hb))

/-- A loop with a step that fails in every state fails. -/
theorem foldlM_except_error {σ α ε : Type} (f : σ → α → Except ε σ)
    (l : List α) (r : σ) (h : ∃ a ∈ l, ∀ r, ∃ e, f r a = .error e) :
    ∃ e, l.foldlM f r = .error e := by
  induction l generalizing r with
  | nil =>
    obtain ⟨a, ha, _⟩ := h
    simp at ha
  | cons a rest ih =>
    rw [List.foldlM_cons]
    cases hfa : f r a with
    | error e => exact ⟨e, rfl⟩
    | ok r' =>
      obtain ⟨b, hb, hbad⟩ := h
      rcases List.mem_cons.mp hb with hba | hbr
      · subst hba
        obtain ⟨e, he⟩ := hbad r
        rw [hfa] at he
        cases he
      · exact ih r' ⟨b, hbr, hbad⟩

theorem addGroup_ok (parseFloat : String → Option Float64) (metricType : String) (group : Group)
    (h : ∀ s, groupAmount metricType group = some s → parseFloat s ≠ none) (r : CostResult) :
    addGroup parseFloat metricType r group = .ok (addRow parseFloat metricType r group) := by
  cases hm : group.Metrics.lookup metricType with
  | none => simp [addGroup, addRow, groupRow, hm]
  | some metric =>
    cases ha : metric.Amount with
    | none => simp [addGroup, addRow, groupRow, hm, ha]
    | some s =>
      have hs : groupAmount metricType group = some s := by simp [groupAmount, hm, ha]
      cases hp : parseFloat s with
      | none => exact absurd hp (h s hs)
      | some amount =>
        cases hu : metric.Unit <;> simp [addGroup, addRow, groupRow, hm, ha, hp, hu]

theorem groupAmount_eq_some (metricType : String) (group : Group) (s : String)
    (hs : groupAmount metricType group = some s) :
    ∃ metric, group.Metrics.lookup metricType = some metric ∧ metric.Amount = some s := by
  cases hm : group.Metrics.lookup metricType with
  | none => simp [groupAmount, hm] at hs
  | some metric => exact ⟨metric, rfl, by simpa [groupAmount, hm] using hs⟩

theorem addGroup_error (parseFloat : String → Option Float64) (metricType : String) (group : Group)
    (s : String) (hs : groupAmount metricType group = some s) (hp : parseFloat s = none)
    (r : CostResult) : ∃ e, addGroup parseFloat metricType r group = .error e := by
  obtain ⟨metric, hm, ha⟩ := groupAmount_eq_some metricType group s hs
  exact ⟨.parsingCost s, by simp [addGroup, hm, ha, hp]⟩

theorem foldl_addRow (parseFloat : String → Option Float64) (metricType : String)
    (groups : List Group) (r : CostResult) :
    groups.foldl (addRow parseFloat metricType) r =
      { r with Groups := r.Groups ++ groups.filterMap (groupRow parseFloat metricType) } := by
  induction groups generalizing r with
  | nil => simp
  | cons g rest ih =>
    rw [List.foldl_cons, ih]
    cases hg : groupRow parseFloat metricType g <;> simp [addRow, hg, List.filterMap_cons]

theorem totalAmount_eq_some (metricType : String) (bucket : ResultByTime) (s : String)
    (hs : totalAmount metricType bucket = some s) :
    bucket.Groups = [] ∧ ∃ total metric, bucket.Total = some total ∧
      total.lookup metricType = some metric ∧ metric.Amount = some s := by
  by_cases hg : bucket.Groups = []
  · refine ⟨hg, ?_⟩
    cases ht : bucket.Total with
    | none => simp [totalAmount, hg, ht] at hs
    | some total =>
      cases hm : total.lookup metricType with
      | none => simp [totalAmount, hg, ht, hm] at hs
      | some metric => exact ⟨total, metric, rfl, hm, by simpa [totalAmount, hg, ht, hm] using hs⟩
  · simp [totalAmount, hg] at hs

theorem addTotal_ok (parseFloat : String → Option Float64) (metricType : String)
    (bucket : ResultByTime)
    (h : ∀ s, totalAmount metricType bucket = some s → parseFloat s ≠ none) (r : CostResult) :
    addTotal parseFloat metricType r bucket =
      .ok { r with Total := bucketTotal parseFloat metricType r.Total bucket } := by
  by_cases hg : bucket.Groups = []
  · cases ht : bucket.Total with
    | none => simp [addTotal, bucketTotal, totalAmount, hg, ht]
    | some total =>
      cases hm : total.lookup metricType with
      | none => simp [addTotal, bucketTotal, totalAmount, hg, ht, hm]
      | some metric =>
        cases ha : metric.Amount with
        | none => simp [addTotal, bucketTotal, totalAmount, hg, ht, hm, ha]
        | some s =>
          have hs : totalAmount metricType bucket = some s := by
            simp [totalAmount, hg, ht, hm, ha]
          cases hp : parseFloat s with
          | none => exact absurd hp (h s hs)
          | some amount => simp [addTotal, bucketTotal, totalAmount, hg, ht, hm, ha, hp]
  · have hl : ¬ bucket.Groups.length = 0 := fun h0 => hg (List.length_eq_zero.mp h0)
    simp [addTotal, bucketTotal, totalAmount, hg, hl]

theorem addTotal_error (parseFloat : String → Option Float64) (metricType : String)
    (bucket : ResultByTime) (s : String) (hs : totalAmount metricType bucket = some s)
    (hp : parseFloat s = none) (r : CostResult) :
    ∃ e, addTotal parseFloat metricType r bucket = .error e := by
  obtain ⟨hg, total, metric, ht, hm, ha⟩ := totalAmount_eq_some metricType bucket s hs
  exact ⟨.parsingTotal s, by simp [addTotal, hg, ht, hm, ha, hp]⟩

theorem addResultByTime_ok (parseFloat : String → Option Float64) (metricType : String)
    (bucket : ResultByTime)
    (h : ∀ s ∈ readAmounts metricType [bucket], parseFloat s ≠ none) (r : CostResult) :
    addResultByTime parseFloat metricType r bucket =
      .ok (addBucket parseFloat metricType r bucket) := by
  have hgroups : ∀ g ∈ bucket.Groups, ∀ r,
      addGroup parseFloat metricType r g = .ok (addRow parseFloat metricType r g) := by
    intro g hg r
    apply addGroup_ok
    intro s hs
    apply h
    simp only [readAmounts, List.flatMap_cons, List.flatMap_nil, List.append_nil,
      List.mem_append, List.mem_filterMap]
    exact Or.inl ⟨g, hg, hs⟩
  have htotal : ∀ s, totalAmount metricType bucket = some s → parseFloat s ≠ none := by
    intro s hs
    apply h
    simp [readAmounts, hs]
  unfold addResultByTime
  rw [foldlM_except_ok _ _ _ _ hgroups, foldl_addRow]
  simp only
  rw [addTotal_ok _ _ _ htotal]
  rfl

theorem addResultByTime_error (parseFloat : String → Option Float64) (metricType : String)
    (bucket : ResultByTime)
    (h : ∃ s ∈ readAmounts metricType [bucket], parseFloat s = none) (r : CostResult) :
    ∃ e, addResultByTime parseFloat metricType r bucket = .error e := by
  obtain ⟨s, hs, hp⟩ := h
  simp only [readAmounts, List.flatMap_cons, List.flatMap_nil, List.append_nil,
    List.mem_append, List.mem_filterMap] at hs
  unfold addResultByTime
  cases hf : bucket.Groups.foldlM (addGroup parseFloat metricType) r with
  | error e => exact ⟨e, rfl⟩
  | ok r' =>
    rcases hs with ⟨g, hg, hgs⟩ | hs
    · obtain ⟨e, he⟩ := foldlM_except_error (addGroup parseFloat metricType) bucket.Groups r
        ⟨g, hg, fun r => addGroup_error parseFloat metricType g s hgs hp r⟩
      rw [hf] at he
      cases he
    · have hs' : totalAmount metricType bucket = some s := by
        cases ht : totalAmount metricType bucket with
        | none => simp [ht] at hs
        | some t =>
          simp [ht] at hs
          rw [hs]
      exact addTotal_error parseFloat metricType bucket s hs' hp r'

theorem readAmounts_append (metricType : String) (xs ys : List ResultByTime) :
    readAmounts metricType (xs ++ ys) = readAmounts metricType xs ++ readAmounts metricType ys := by
  simp [readAmounts]

theorem specGroups_append (parseFloat : String → Option Float64) (metricType : String)
    (xs ys : List ResultByTime) :
    specGroups parseFloat metricType (xs ++ ys) =
      specGroups parseFloat metricType xs ++ specGroups parseFloat metricType ys := by
  simp [specGroups]

theorem specTotalFrom_append (parseFloat : String → Option Float64) (metricType : String)
    (total : Float64) (xs ys : List ResultByTime) :
    specTotalFrom parseFloat metricType total (xs ++ ys) =
      specTotalFrom parseFloat metricType (specTotalFrom parseFloat metricType total xs) ys := by
  simp [specTotalFrom]

theorem specTotalFrom_cons (parseFloat : String → Option Float64) (metricType : String)
    (total : Float64) (b : ResultByTime) (bs : List ResultByTime) :
    specTotalFrom parseFloat metricType total (b :: bs) =
      specTotalFrom parseFloat metricType (bucketTotal parseFloat metricType total b) bs := by
  cases ht : totalAmount metricType b <;>
    simp [specTotalFrom, bucketTotal, ht, List.filterMap_cons]

theorem foldl_addBucket (parseFloat : String → Option Float64) (metricType : String)
    (buckets : List ResultByTime) (r : CostResult) :
    buckets.foldl (addBucket parseFloat metricType) r =
      { Groups := r.Groups ++ specGroups parseFloat metricType buckets,
        Total := specTotalFrom parseFloat metricType r.Total buckets } := by
  induction buckets generalizing r with
  | nil => simp [specGroups, specTotalFrom]
  | cons b rest ih =>
    rw [List.foldl_cons, ih, specTotalFrom_cons]
    simp [addBucket, specGroups]

theorem foldlM_addResultByTime_ok (parseFloat : String → Option Float64) (metricType : String)
    (buckets : List ResultByTime)
    (h : ∀ s ∈ readAmounts metricType buckets, parseFloat s ≠ none) (r : CostResult) :
    buckets.foldlM (addResultByTime parseFloat metricType) r =
      .ok { Groups := r.Groups ++ specGroups parseFloat metricType buckets,
            Total := specTotalFrom parseFloat metricType r.Total buckets } := by
  rw [foldlM_except_ok _ (addBucket parseFloat metricType), foldl_addBucket]
  intro b hb r
  apply addResultByTime_ok
  intro s hs
  apply h
  simp only [readAmounts, List.mem_flatMap] at hs ⊢
  obtain ⟨b', hb', hs'⟩ := hs
  rw [List.mem_singleton] at hb'
  subst hb'
  exact ⟨b', hb, hs'⟩

theorem foldlM_addResultByTime_error (parseFloat : String → Option Float64) (metricType : String)
    (buckets : List ResultByTime)
    (h : ∃ s ∈ readAmounts metricType buckets, parseFloat s = none) (r : CostResult) :
    ∃ e, buckets.foldlM (addResultByTime parseFloat metricType) r = .error e := by
  obtain ⟨s, hs, hp⟩ := h
  simp only [readAmounts, List.mem_flatMap] at hs
  obtain ⟨b, hb, hsb⟩ := hs
  apply foldlM_except_error
  refine ⟨b, hb, fun r => addResultByTime_error parseFloat metricType b ⟨s, ?_, hp⟩ r⟩
  simp only [readAmounts, List.mem_flatMap]
  exact ⟨b, List.mem_singleton.mpr rfl, hsb⟩

theorem pageLoop_ok (parseFloat : String → Option Float64)
    (client : GetCostAndUsageInput → Except String GetCostAndUsageOutput) (metricType : String)
    (pages : List GetCostAndUsageOutput) :
    ∀ (input : GetCostAndUsageInput) (r : CostResult) (fuel : Nat),
      IsPageSequence client input pages →
      (∀ s ∈ readAmounts metricType (pages.flatMap (·.ResultsByTime)), parseFloat s ≠ none) →
      pages.length ≤ fuel →
      pageLoop parseFloat client metricType fuel input r =
        some (.ok
          { Groups := r.Groups ++
              specGroups parseFloat metricType (pages.flatMap (·.ResultsByTime)),
            Total := specTotalFrom parseFloat metricType r.Total
              (pages.flatMap (·.ResultsByTime)) }) := by
  induction pages with
  | nil => intro input r fuel hseq; exact absurd hseq (by simp [IsPageSequence])
  | cons page rest ih =>
    intro input r fuel hseq hparse hfuel
    obtain ⟨f, rfl⟩ : ∃ f, fuel = f + 1 := ⟨fuel - 1, by simp at hfuel; omega⟩
    obtain ⟨hclient, hnext⟩ := hseq
    rw [List.flatMap_cons, readAmounts_append] at hparse
    have hpage := foldlM_addResultByTime_ok parseFloat metricType page.ResultsByTime
      (fun s hs => hparse s (List.mem_append_left _ hs)) r
    rw [List.flatMap_cons, specGroups_append, specTotalFrom_append]
    unfold pageLoop
    rw [hclient]
    simp only [hpage]
    cases htok : page.NextPageToken with
    | none =>
      rw [htok] at hnext
      simp only at hnext
      subst hnext
      simp [specGroups, specTotalFrom]
    | some tok =>
      rw [htok] at hnext
      simp only at hnext ⊢
      rw [ih _ _ f hnext (fun s hs => hparse s (List.mem_append_right _ hs))
        (by simp at hfuel; omega)]
      simp

theorem pageLoop_succ (parseFloat : String → Option Float64)
    (client : GetCostAndUsageInput → Except String GetCostAndUsageOutput) (metricType : String)
    (f : Nat) (input : GetCostAndUsageInput) (r : CostResult) (page : GetCostAndUsageOutput)
    (h : client input = .ok page) :
    pageLoop parseFloat client metricType (f + 1) input r =
      match page.ResultsByTime.foldlM (addResultByTime parseFloat metricType) r with
      | .error e => some (.error e)
      | .ok result =>
        match page.NextPageToken with
        | none => some (.ok result)
        | some tok =>
          pageLoop parseFloat client metricType f { input with NextPageToken := some tok } result := by
  rw [pageLoop, h]

theorem pageLoop_bad_amount (parseFloat : String → Option Float64)
    (client : GetCostAndUsageInput → Except String GetCostAndUsageOutput) (metricType : String)
    (pages : List GetCostAndUsageOutput) :
    ∀ (input : GetCostAndUsageInput) (r : CostResult) (fuel : Nat),
      IsPageSequence client input pages →
      (∃ s ∈ readAmounts metricType (pages.flatMap (·.ResultsByTime)), parseFloat s = none) →
      pages.length ≤ fuel →
      ∃ e, pageLoop parseFloat client metricType fuel input r = some (.error e) := by
  induction pages with
  | nil => intro input r fuel hseq; exact absurd hseq (by simp [IsPageSequence])
  | cons page rest ih =>
    intro input r fuel hseq hbad hfuel
    obtain ⟨f, rfl⟩ : ∃ f, fuel = f + 1 := ⟨fuel - 1, by simp at hfuel; omega⟩
    obtain ⟨hclient, hnext⟩ := hseq
    rw [pageLoop_succ _ _ _ _ _ _ _ hclient]
    cases hpage : page.ResultsByTime.foldlM (addResultByTime parseFloat metricType) r with
    | error e => exact ⟨e, rfl⟩
    | ok r' =>
      obtain ⟨s, hs, hp⟩ := hbad
      rw [List.flatMap_cons, readAmounts_append, List.mem_append] at hs
      rcases hs with hs | hs
      · obtain ⟨e, he⟩ := foldlM_addResultByTime_error parseFloat metricType page.ResultsByTime
          ⟨s, hs, hp⟩ r
        rw [hpage] at he
        cases he
      · cases htok : page.NextPageToken with
        | none =>
          rw [htok] at hnext
          simp only at hnext
          subst hnext
          simp [readAmounts] at hs
        | some tok =>
          rw [htok] at hnext
          simp only at hnext ⊢
          exact ih _ r' f hnext ⟨s, hs, hp⟩ (by simp at hfuel; omega)

theorem pageLoop_request_fails (parseFloat : String → Option Float64)
    (client : GetCostAndUsageInput → Except String GetCostAndUsageOutput) (metricType : String)
    (pages : List GetCostAndUsageOutput) (err : String) :
    ∀ (input : GetCostAndUsageInput) (r : CostResult) (fuel : Nat),
      FailsAfter client input pages err →
      pages.length < fuel →
      ∃ e, pageLoop parseFloat client metricType fuel input r = some (.error e) := by
  induction pages with
  | nil =>
    intro input r fuel hfail hfuel
    obtain ⟨f, rfl⟩ : ∃ f, fuel = f + 1 := ⟨fuel - 1, by simp at hfuel; omega⟩
    have hclient : client input = .error err := hfail
    rw [pageLoop, hclient]
    exact ⟨.fetching err, rfl⟩
  | cons page rest ih =>
    intro input r fuel hfail hfuel
    obtain ⟨f, rfl⟩ : ∃ f, fuel = f + 1 := ⟨fuel - 1, by simp at hfuel; omega⟩
    obtain ⟨hclient, hnext⟩ := hfail
    rw [pageLoop_succ _ _ _ _ _ _ _ hclient]
    cases hpage : page.ResultsByTime.foldlM (addResultByTime parseFloat metricType) r with
    | error e => exact ⟨e, rfl⟩
    | ok r' =>
      cases htok : page.NextPageToken with
      | none =>
        rw [htok] at hnext
        exact absurd hnext (by simp)
      | some tok =>
        rw [htok] at hnext
        simp only at hnext ⊢
        exact ih _ r' f hnext (by simp at hfuel; omega)

/-- C9 (as amended): for the pages that the billing API returns for one query
(up to the first page without a continuation token) and enough fuel for that
many requests, `GetCostAndUsage` returns the groups that carry a non-null amount
for the metric type, in order over all pages and time buckets, each with the
`float64` that `strconv.ParseFloat` returns for its amount (NaN and the
infinities among them), and as Total the `float64` sum of the totals of the
buckets without groups, added one by one to 0 in the order of the buckets, when
`strconv.ParseFloat` returns no error for any amount that the call reads (the
non-null amount of a group, the non-null total of a bucket without groups); it
returns an error when `strconv.ParseFloat` returns an error for one of these
amounts; and it returns an error when a page request fails. -/
theorem GetCostAndUsage_result (parseFloat : String → Option Float64)
    (client : GetCostAndUsageInput → Except String GetCostAndUsageOutput) (query : CostQuery)
    (pages : List GetCostAndUsageOutput) (fuel : Nat) :
    (IsPageSequence client (firstInput query) pages → pages.length ≤ fuel →
      (∀ s ∈ readAmounts query.MetricType (pages.flatMap (·.ResultsByTime)),
        parseFloat s ≠ none) →
      GetCostAndUsage parseFloat client query fuel =
        some (.ok
          { Groups := specGroups parseFloat query.MetricType (pages.flatMap (·.ResultsByTime)),
            Total := specTotal parseFloat query.MetricType
              (pages.flatMap (·.ResultsByTime)) })) ∧
    (IsPageSequence client (firstInput query) pages → pages.length ≤ fuel →
      (∃ s ∈ readAmounts query.MetricType (pages.flatMap (·.ResultsByTime)),
        parseFloat s = none) →
      ∃ e, GetCostAndUsage parseFloat client query fuel = some (.error e)) ∧
    (∀ err : String, FailsAfter client (firstInput query) pages err → pages.length < fuel →
      ∃ e, GetCostAndUsage parseFloat client query fuel = some (.error e)) := by
  refine ⟨?_, ?_, ?_⟩
  · intro hseq hfuel hparse
    have h := pageLoop_ok parseFloat client query.MetricType pages (firstInput query)
      { Groups := [], Total := 0 } fuel hseq hparse hfuel
    simpa [GetCostAndUsage, firstInput, specTotal] using h
  · intro hseq hfuel hbad
    exact pageLoop_bad_amount parseFloat client query.MetricType pages (firstInput query)
      { Groups := [], Total := 0 } fuel hseq hbad hfuel
  · intro err hfail hfuel
    exact pageLoop_request_fails parseFloat client query.MetricType pages err (firstInput query)
      { Groups := [], Total := 0 } fuel hfail hfuel

theorem GetCostAndUsage_result_witness :
    IsPageSequence twoPageClient (firstInput sampleQuery) [pageOne, pageTwo] ∧
    [pageOne, pageTwo].length ≤ 2 ∧
    (∀ s ∈ readAmounts sampleQuery.MetricType ([pageOne, pageTwo].flatMap (·.ResultsByTime)),
      parseDigits s ≠ none) ∧
    GetCostAndUsage parseDigits twoPageClient sampleQuery 2 =
      some (.ok { Groups := [{ Keys := ["Amazon EC2"], Amount := 12, Unit := "USD" },
                             { Keys := ["AWS Lambda"], Amount := 3, Unit := "USD" }],
                  Total := 7 }) :=
  ⟨⟨rfl, rfl, rfl⟩, by decide, by decide!,
    ((GetCostAndUsage_result parseDigits twoPageClient sampleQuery [pageOne, pageTwo] 2).1
      ⟨rfl, rfl, rfl⟩ (by decide) (by decide!)).trans (by decide!)⟩

/-- C9 (as stated) fails: the only page has a time bucket with one group and,
next to it, a total of the configured metric type whose amount `n/a` is not a
number (`strconv.ParseFloat` returns an error for it); the total of a bucket
with groups is not read, so the call succeeds. -/
theorem GetCostAndUsage_skips_total_beside_groups :
    IsPageSequence mixedClient (firstInput sampleQuery) [mixedPage] ∧
    mixedPage.ResultsByTime.map
        (fun b => (b.Total.bind (·.lookup sampleQuery.MetricType)).bind (·.Amount)) =
      [some "n/a"] ∧
    parseDigits "n/a" = none ∧
    GetCostAndUsage parseDigits mixedClient sampleQuery 1 =
      some (.ok { Groups := [{ Keys := ["Amazon EC2"], Amount := 12, Unit := "USD" }],
                  Total := 0 }) :=
  ⟨⟨rfl, rfl⟩, by decide, by decide, by decide!⟩

/-- The strings `NaN` and `Inf` are amounts that `strconv.ParseFloat` accepts:
the call succeeds, the group carries NaN and the total is 7 + Inf. -/
theorem GetCostAndUsage_accepts_NaN :
    IsPageSequence nanClient (firstInput sampleQuery) [nanPage] ∧
    readAmounts sampleQuery.MetricType nanPage.ResultsByTime = ["NaN", "7", "Inf"] ∧
    GetCostAndUsage parseDigits nanClient sampleQuery 1 =
      some (.ok { Groups := [{ Keys := ["Amazon EC2"], Amount := .nan, Unit := "USD" }],
                  Total := .posInf }) :=
  ⟨⟨rfl, rfl⟩, by decide, by decide!⟩

/-! ## The gauges and the publish step -/

theorem lookup_cons_eq {β : Type} (k a : String) (b : β) (m : List (String × β)) :
    List.lookup k ((a, b) :: m) = if k = a then some b else List.lookup k m := by
  by_cases h : k = a
  · subst h
    simp [List.lookup]
  · have hb : (k == a) = false := by simpa using h
    simp [List.lookup, hb, h]

theorem lookup_mapStore {β : Type} (m : List (String × β)) (k k' : String) (v : β) :
    (mapStore m k v).lookup k' = if k' = k then some v else m.lookup k' := by
  induction m with
  | nil => simp [mapStore, lookup_cons_eq]
  | cons p rest ih =>
    obtain ⟨a, b⟩ := p
    unfold mapStore
    by_cases ha : a = k
    · subst ha
      simp only [if_true, lookup_cons_eq]
      by_cases h1 : k' = a <;> simp [h1]
    · simp only [ha, if_false, lookup_cons_eq, ih]
      by_cases h1 : k' = a
      · have h2 : ¬ k' = k := fun h => ha (h1.symm.trans h)
        simp [h1, h2, ha]
      · simp [h1]

theorem lookup_rows_cons (k a : List String) (b : Float64) (m : List (List String × Float64)) :
    List.lookup k ((a, b) :: m) = if k = a then some b else List.lookup k m := by
  by_cases h : k = a
  · subst h
    simp [List.lookup]
  · have hb : (k == a) = false := by simpa using h
    simp [List.lookup, hb, h]

theorem lookup_filter_ne (rows : List (List String × Float64)) (lvs L : List String) (h : L ≠ lvs) :
    List.lookup L (rows.filter (fun r => r.1 ≠ lvs)) = List.lookup L rows := by
  induction rows with
  | nil => rfl
  | cons p rest ih =>
    obtain ⟨a, b⟩ := p
    by_cases ha : a = lvs
    · subst ha
      simp only [List.filter_cons, lookup_rows_cons, h, if_false, ne_eq, not_true_eq_false,
        decide_False, Bool.false_eq_true]
      exact ih
    · simp only [List.filter_cons, ha, lookup_rows_cons, ne_eq, not_false_eq_true, decide_True,
        if_true]
      rw [ih]

theorem value_WithLabelValuesSet (g g' : GaugeVec) (lvs : List String) (v : Float64)
    (h : g.WithLabelValuesSet lvs v = some g') (L : List String) :
    g'.value? L = if L = lvs then some v else g.value? L := by
  unfold GaugeVec.WithLabelValuesSet at h
  split at h
  · cases h
    unfold GaugeVec.value?
    by_cases hL : L = lvs
    · simp [lookup_rows_cons, hL]
    · simp only [lookup_rows_cons, hL, if_false]
      exact lookup_filter_ne g.rows lvs L hL
  · cases h

theorem labelNames_WithLabelValuesSet (g g' : GaugeVec) (lvs : List String) (v : Float64)
    (h : g.WithLabelValuesSet lvs v = some g') : g'.labelNames = g.labelNames := by
  unfold GaugeVec.WithLabelValuesSet at h
  split at h
  · cases h
    rfl
  · cases h

theorem sameSchema_refl (c : CostCollector) : SameSchema c c :=
  ⟨rfl, rfl, rfl, fun _ => rfl⟩

theorem sameSchema_trans {a b c : CostCollector} (h₁ : SameSchema a b) (h₂ : SameSchema b c) :
    SameSchema a c :=
  ⟨h₂.1.trans h₁.1, h₂.2.1.trans h₁.2.1, h₂.2.2.1.trans h₁.2.2.1,
    fun n => (h₂.2.2.2 n).trans (h₁.2.2.2 n)⟩

theorem labelNamesOf_eq_some (c : CostCollector) (name : String) (names : List String)
    (h : labelNamesOf c name = some names) :
    ∃ g, c.metrics.lookup name = some g ∧ g.labelNames = names := by
  unfold labelNamesOf at h
  cases hg : c.metrics.lookup name with
  | none => simp [hg] at h
  | some g => exact ⟨g, rfl, by simpa [hg] using h⟩

/-- A write with as many label values as the gauge has label names succeeds; it
changes the row of that tuple and nothing else. -/
theorem setGauge_ok (c : CostCollector) (name : String) (names lvs : List String) (v : Float64)
    (hn : labelNamesOf c name = some names) (hl : lvs.length = names.length) :
    ∃ c', setGauge c name lvs v = some c' ∧ SameSchema c c' ∧
      ∀ n L, c'.value? n L = if n = name ∧ L = lvs then some v else c.value? n L := by
  obtain ⟨g, hg, hgn⟩ := labelNamesOf_eq_some c name names hn
  obtain ⟨g', hset⟩ : ∃ g', g.WithLabelValuesSet lvs v = some g' := by
    simp [GaugeVec.WithLabelValuesSet, hl, hgn]
  have hnames := labelNames_WithLabelValuesSet g g' lvs v hset
  refine ⟨{ c with metrics := mapStore c.metrics name g' }, ?_, ?_, ?_⟩
  · simp [setGauge, hg, hset]
  · refine ⟨rfl, rfl, rfl, fun n => ?_⟩
    unfold labelNamesOf
    simp only [lookup_mapStore]
    by_cases h : n = name
    · subst h
      simp [hg, hnames]
    · simp [h]
  · intro n L
    unfold CostCollector.value?
    simp only [lookup_mapStore]
    by_cases h : n = name
    · subst h
      simp only [if_true, true_and, hg]
      exact value_WithLabelValuesSet g _ lvs v hset L
    · simp [h]

/-- A write with another number of label values panics. -/
theorem setGauge_mismatch (c : CostCollector) (name : String) (names lvs : List String) (v : Float64)
    (hn : labelNamesOf c name = some names) (hl : lvs.length ≠ names.length) :
    setGauge c name lvs v = none := by
  obtain ⟨g, hg, hgn⟩ := labelNamesOf_eq_some c name names hn
  simp [setGauge, hg, GaugeVec.WithLabelValuesSet, hgn, hl]

theorem applyWrites_nil (c : CostCollector) (name : String) : applyWrites c name [] = some c :=
  rfl

theorem applyWrites_cons (c : CostCollector) (name : String) (w : List String × Float64)
    (ws : List (List String × Float64)) :
    applyWrites c name (w :: ws) =
      (setGauge c name w.1 w.2).bind (fun c' => applyWrites c' name ws) := by
  simp [applyWrites, List.foldlM_cons]

theorem applyWrites_append (c : CostCollector) (name : String)
    (ws₁ ws₂ : List (List String × Float64)) :
    applyWrites c name (ws₁ ++ ws₂) =
      (applyWrites c name ws₁).bind (fun c' => applyWrites c' name ws₂) := by
  simp [applyWrites, List.foldlM_append]

theorem lookup_append_rows (L : List String) (xs ys : List (List String × Float64)) :
    List.lookup L (xs ++ ys) =
      match List.lookup L xs with
      | some v => some v
      | none => List.lookup L ys := by
  induction xs with
  | nil => simp
  | cons p rest ih =>
    obtain ⟨a, b⟩ := p
    simp only [List.cons_append, lookup_rows_cons]
    by_cases h : L = a
    · simp [h]
    · simp [h, ih]

/-- Writes that all have the right number of label values succeed; afterwards
each tuple holds the value of its last write, or its former value. -/
theorem applyWrites_ok (name : String) (names : List String) (ws : List (List String × Float64)) :
    ∀ c : CostCollector, labelNamesOf c name = some names →
      (∀ w ∈ ws, w.1.length = names.length) →
      ∃ c', applyWrites c name ws = some c' ∧ SameSchema c c' ∧
        ∀ n L, c'.value? n L =
          if n = name then
            (match List.lookup L ws.reverse with
              | some v => some v
              | none => c.value? n L)
          else c.value? n L := by
  induction ws with
  | nil =>
    intro c _ _
    exact ⟨c, rfl, sameSchema_refl c, fun n L => by simp⟩
  | cons w rest ih =>
    intro c hn hl
    obtain ⟨c₁, h₁, hs₁, hv₁⟩ := setGauge_ok c name names w.1 w.2 hn
      (hl w (List.mem_cons_self _ _))
    obtain ⟨c₂, h₂, hs₂, hv₂⟩ := ih c₁ ((hs₁.2.2.2 name).trans hn)
      (fun x hx => hl x (List.mem_cons_of_mem _ hx))
    refine ⟨c₂, ?_, sameSchema_trans hs₁ hs₂, ?_⟩
    · rw [applyWrites_cons, h₁]
      exact h₂
    · intro n L
      rw [hv₂ n L, hv₁ n L]
      by_cases h : n = name
      · simp only [h, if_true, true_and, List.reverse_cons, lookup_append_rows]
        cases hr : List.lookup L rest.reverse with
        | some v => rfl
        | none =>
          obtain ⟨a, b⟩ := w
          simp only [lookup_rows_cons]
          by_cases hL : L = a <;> simp [hL, List.lookup]
      · simp [h]

/-- Writes among which one has a wrong number of label values panic. -/
theorem applyWrites_mismatch (name : String) (names : List String)
    (ws : List (List String × Float64)) :
    ∀ c : CostCollector, labelNamesOf c name = some names →
      (∃ w ∈ ws, w.1.length ≠ names.length) → applyWrites c name ws = none := by
  induction ws with
  | nil =>
    intro c _ h
    obtain ⟨w, hw, _⟩ := h
    simp at hw
  | cons w rest ih =>
    intro c hn h
    rw [applyWrites_cons]
    by_cases hl : w.1.length = names.length
    · obtain ⟨c₁, h₁, hs₁, _⟩ := setGauge_ok c name names w.1 w.2 hn hl
      rw [h₁]
      obtain ⟨x, hx, hxl⟩ := h
      rcases List.mem_cons.mp hx with hxw | hxr
      · subst hxw
        exact absurd hl hxl
      · exact ih c₁ ((hs₁.2.2.2 name).trans hn) ⟨x, hxr, hxl⟩
    · rw [setGauge_mismatch c name names w.1 w.2 hn hl]
      rfl

theorem updateGroup_minor (account : AWSAccount) (metricCfg : MetricConfig)
    (gb : GroupByConfig) (st : CostCollector × Float64) (group : CostGroup)
    (h : isMinor gb group = true) :
    updateGroup account metricCfg gb st group = some (st.1, st.2 + group.Amount) := by
  unfold isMinor at h
  unfold updateGroup
  cases hm : gb.MergeMinorCost with
  | none => simp [hm] at h
  | some mc =>
    rw [hm] at h
    simp only at h ⊢
    rw [if_pos h]

theorem updateGroup_major (account : AWSAccount) (metricCfg : MetricConfig)
    (gb : GroupByConfig) (st : CostCollector × Float64) (group : CostGroup)
    (h : isMinor gb group = false) :
    updateGroup account metricCfg gb st group =
      (setGauge st.1 metricCfg.MetricName
        (buildLabelValues account metricCfg group.Keys) group.Amount).map (fun c => (c, st.2)) := by
  unfold isMinor at h
  unfold updateGroup
  cases hm : gb.MergeMinorCost with
  | none =>
    simp only [Bool.and_self, Bool.false_eq_true, if_false]
    cases setGauge st.1 metricCfg.MetricName
      (buildLabelValues account metricCfg group.Keys) group.Amount <;> rfl
  | some mc =>
    rw [hm] at h
    simp only at h ⊢
    rw [if_neg (by simp [h])]
    cases setGauge st.1 metricCfg.MetricName
      (buildLabelValues account metricCfg group.Keys) group.Amount <;> rfl

theorem foldlM_updateGroup (account : AWSAccount) (metricCfg : MetricConfig)
    (gb : GroupByConfig) (groups : List CostGroup) :
    ∀ (c : CostCollector) (acc : Float64),
      groups.foldlM (updateGroup account metricCfg gb) (c, acc) =
        (applyWrites c metricCfg.MetricName (groupRows account metricCfg gb groups)).map
          (fun c' => (c', minorSumFrom gb acc groups)) := by
  induction groups with
  | nil =>
    intro c acc
    simp [groupRows, minorSumFrom, applyWrites_nil]
  | cons g rest ih =>
    intro c acc
    rw [List.foldlM_cons]
    cases hmin : isMinor gb g with
    | true =>
      rw [updateGroup_minor account metricCfg gb (c, acc) g hmin]
      have hrows : groupRows account metricCfg gb (g :: rest) =
          groupRows account metricCfg gb rest := by
        simp [groupRows, List.filter_cons, hmin]
      have hsum : minorSumFrom gb acc (g :: rest) = minorSumFrom gb (acc + g.Amount) rest := by
        simp [minorSumFrom, List.filter_cons, hmin]
      rw [hrows, hsum]
      simp only [Option.pure_def, Option.bind_eq_bind, Option.some_bind]
      rw [ih c (acc + g.Amount)]
    | false =>
      rw [updateGroup_major account metricCfg gb (c, acc) g hmin]
      have hrows : groupRows account metricCfg gb (g :: rest) =
          (buildLabelValues account metricCfg g.Keys, g.Amount) ::
            groupRows account metricCfg gb rest := by
        simp [groupRows, List.filter_cons, hmin]
      have hsum : minorSumFrom gb acc (g :: rest) = minorSumFrom gb acc rest := by
        simp [minorSumFrom, List.filter_cons, hmin]
      rw [hrows, hsum, applyWrites_cons]
      cases hset : setGauge c metricCfg.MetricName
          (buildLabelValues account metricCfg g.Keys) g.Amount with
      | none => rfl
      | some c₁ =>
        simp only [Option.map_some', Option.bind_eq_bind, Option.some_bind]
        exact ih c₁ acc

theorem minorSum_of_no_merge (gb : GroupByConfig) (groups : List CostGroup)
    (h : gb.MergeMinorCost = none) : minorSum gb groups = 0 := by
  have hf : groups.filter (isMinor gb) = [] := by
    rw [List.filter_eq_nil_iff]
    intro g _
    simp [isMinor, h]
  simp [minorSum, minorSumFrom, hf]

theorem applyWrites_singleton (c : CostCollector) (name : String) (lvs : List String) (v : Float64) :
    applyWrites c name [(lvs, v)] = setGauge c name lvs v := by
  rw [applyWrites_cons]
  cases setGauge c name lvs v <;> rfl

/-- `updateMetrics` writes the rows of `emittedRows`, in order. -/
theorem updateMetrics_eq (c : CostCollector) (account : AWSAccount) (metricCfg : MetricConfig)
    (result : CostResult) :
    updateMetrics c account metricCfg result =
      applyWrites c metricCfg.MetricName (emittedRows account metricCfg result) := by
  unfold updateMetrics emittedRows
  cases hG : metricCfg.GroupBy with
  | none => simp only [applyWrites_singleton]
  | some gb =>
    simp only
    by_cases hE : gb.Enabled = false
    · simp only [hE, if_true, applyWrites_singleton]
    · rw [if_neg hE, if_neg hE, foldlM_updateGroup, applyWrites_append]
      rw [show minorSumFrom gb 0 result.Groups = minorSum gb result.Groups from rfl]
      cases hW : applyWrites c metricCfg.MetricName
          (groupRows account metricCfg gb result.Groups) with
      | none => rfl
      | some c₁ =>
        simp only [Option.map_some', Option.some_bind]
        cases hM : gb.MergeMinorCost with
        | none =>
          have h0 : ¬ minorSum gb result.Groups > 0 := by
            rw [minorSum_of_no_merge gb result.Groups hM]
            decide
          simp only [h0, if_false]
          rfl
        | some mc =>
          by_cases hpos : minorSum gb result.Groups > 0
          · simp only [hpos, if_true, applyWrites_singleton]
            rfl
          · simp only [hpos, if_false]
            rfl

theorem lookup_rows_eq_none (L : List String) (ws : List (List String × Float64))
    (h : L ∉ ws.map Prod.fst) : List.lookup L ws = none := by
  induction ws with
  | nil => rfl
  | cons p rest ih =>
    obtain ⟨a, b⟩ := p
    simp only [List.map_cons, List.mem_cons, not_or] at h
    rw [lookup_rows_cons, if_neg h.1]
    exact ih h.2

theorem lookup_rows_eq_some (L : List String) (v : Float64) (ws : List (List String × Float64))
    (hnd : (ws.map Prod.fst).Nodup) (h : (L, v) ∈ ws) : List.lookup L ws = some v := by
  induction ws with
  | nil => simp at h
  | cons p rest ih =>
    obtain ⟨a, b⟩ := p
    rw [List.map_cons, List.nodup_cons] at hnd
    rw [lookup_rows_cons]
    rcases List.mem_cons.mp h with heq | hmem
    · cases heq
      simp
    · have hne : L ≠ a := by
        intro hLa
        apply hnd.1
        rw [← hLa]
        exact List.mem_map.mpr ⟨(L, v), hmem, rfl⟩
      rw [if_neg hne]
      exact ih hnd.2 hmem

theorem length_buildLabelValues_keys (account : AWSAccount) (metricCfg : MetricConfig)
    (keys keys' : List String) :
    (buildLabelValues account metricCfg keys).length =
      (buildLabelValues account metricCfg keys').length := by
  rw [length_buildLabelValues, length_buildLabelValues]

theorem length_of_mem_emittedRows (account : AWSAccount) (metricCfg : MetricConfig)
    (result : CostResult) (w : List String × Float64) (h : w ∈ emittedRows account metricCfg result) :
    w.1.length = (buildLabelValues account metricCfg []).length := by
  unfold emittedRows at h
  cases hG : metricCfg.GroupBy with
  | none =>
    rw [hG] at h
    simp only [List.mem_singleton] at h
    rw [h]
  | some gb =>
    rw [hG] at h
    simp only at h
    by_cases hE : gb.Enabled = false
    · rw [if_pos hE, List.mem_singleton] at h
      rw [h]
    · rw [if_neg hE, List.mem_append] at h
      rcases h with h | h
      · simp only [groupRows, List.mem_map] at h
        obtain ⟨g, _, rfl⟩ := h
        exact length_buildLabelValues_keys _ _ _ _
      · cases hM : gb.MergeMinorCost with
        | none => simp [hM] at h
        | some mc =>
          rw [hM] at h
          simp only at h
          split at h
          · rw [List.mem_singleton] at h
            rw [h]
            exact length_buildLabelValues_keys _ _ _ _
          · simp at h

theorem isMinor_eq (gb : GroupByConfig) (mc : MergeConfig) (g : CostGroup)
    (hmc : gb.MergeMinorCost = some mc) (hme : mc.Enabled = true) :
    isMinor gb g = decide (g.Amount < mc.Threshold) := by
  simp [isMinor, hmc, hme]

theorem minorSum_eq (gb : GroupByConfig) (mc : MergeConfig) (groups : List CostGroup)
    (hmc : gb.MergeMinorCost = some mc) (hme : mc.Enabled = true) :
    minorSum gb groups =
      ((groups.filter (fun g => g.Amount < mc.Threshold)).map (·.Amount)).foldl
        (fun t amount => t + amount) 0 := by
  have hf : isMinor gb = fun g => decide (g.Amount < mc.Threshold) :=
    funext (fun g => isMinor_eq gb mc g hmc hme)
  simp [minorSum, minorSumFrom, hf]

theorem mem_groupRows (account : AWSAccount) (metricCfg : MetricConfig) (gb : GroupByConfig)
    (groups : List CostGroup) (L : List String) (v : Float64) :
    (L, v) ∈ groupRows account metricCfg gb groups ↔
      ∃ g ∈ groups, isMinor gb g = false ∧
        buildLabelValues account metricCfg g.Keys = L ∧ g.Amount = v := by
  simp [groupRows, and_assoc]

theorem groupRows_keys_sublist (account : AWSAccount) (metricCfg : MetricConfig)
    (gb : GroupByConfig) (groups : List CostGroup) :
    ((groupRows account metricCfg gb groups).map Prod.fst).Sublist
      (groups.map (fun g => buildLabelValues account metricCfg g.Keys)) := by
  have h : (groupRows account metricCfg gb groups).map Prod.fst =
      (groups.filter (fun g => !isMinor gb g)).map
        (fun g => buildLabelValues account metricCfg g.Keys) := by
    simp [groupRows]
  rw [h]
  exact (List.filter_sublist _).map _

/-- C2 (as amended): for a grouped metric with minor-cost merging enabled
(threshold `t`, placeholder `p`), an account whose label tuples have as many
values as the gauge has label names, and a result whose groups have pairwise
distinct realized label tuples, none of them the tuple of the merged row (the
label values built from the key tuple `(p, ..., p)`): `updateMetrics` completes;
the tuple of a group below `t` keeps the value it had before (no row after a
reset); the tuple of a group not below `t` (at or above `t`, or with an amount
or a threshold that is NaN) carries the amount of that group; the tuple of the
merged row carries `S` when `0 < S` and keeps its former value otherwise, `S`
being the `float64` sum of the amounts below `t`, added one by one to 0 in the
order of the groups; no other row changes. The comparisons are those of
`float64`. -/
theorem updateMetrics_merge (c : CostCollector) (account : AWSAccount)
    (metricCfg : MetricConfig) (gb : GroupByConfig) (mc : MergeConfig) (result : CostResult)
    (names : List String)
    (hgb : metricCfg.GroupBy = some gb) (hen : gb.Enabled = true)
    (hmc : gb.MergeMinorCost = some mc) (hme : mc.Enabled = true)
    (hnames : labelNamesOf c metricCfg.MetricName = some names)
    (hlen : (buildLabelValues account metricCfg []).length = names.length)
    (hnodup : (result.Groups.map (fun g => buildLabelValues account metricCfg g.Keys)).Nodup)
    (hmerged : ∀ g ∈ result.Groups,
      buildLabelValues account metricCfg g.Keys ≠
        buildLabelValues account metricCfg (List.replicate gb.Groups.length mc.TagValue)) :
    ∃ c', updateMetrics c account metricCfg result = some c' ∧
      (∀ g ∈ result.Groups, g.Amount < mc.Threshold →
        c'.value? metricCfg.MetricName (buildLabelValues account metricCfg g.Keys) =
          c.value? metricCfg.MetricName (buildLabelValues account metricCfg g.Keys)) ∧
      (∀ g ∈ result.Groups, ¬ g.Amount < mc.Threshold →
        c'.value? metricCfg.MetricName (buildLabelValues account metricCfg g.Keys) =
          some g.Amount) ∧
      (c'.value? metricCfg.MetricName
          (buildLabelValues account metricCfg (List.replicate gb.Groups.length mc.TagValue)) =
        if 0 < ((result.Groups.filter (fun g => g.Amount < mc.Threshold)).map (·.Amount)).foldl
            (fun t amount => t + amount) 0
        then some (((result.Groups.filter (fun g => g.Amount < mc.Threshold)).map
            (·.Amount)).foldl (fun t amount => t + amount) 0)
        else c.value? metricCfg.MetricName
          (buildLabelValues account metricCfg (List.replicate gb.Groups.length mc.TagValue))) ∧
      (∀ L, L ≠ buildLabelValues account metricCfg
            (List.replicate gb.Groups.length mc.TagValue) →
        (∀ g ∈ result.Groups, buildLabelValues account metricCfg g.Keys ≠ L) →
        c'.value? metricCfg.MetricName L = c.value? metricCfg.MetricName L) ∧
      (∀ n L, n ≠ metricCfg.MetricName → c'.value? n L = c.value? n L) := by
  have hE : ¬ gb.Enabled = false := by simp [hen]
  have hrows : emittedRows account metricCfg result =
      groupRows account metricCfg gb result.Groups ++
        (if minorSum gb result.Groups > 0 then
          [(mergedLabels account metricCfg gb mc, minorSum gb result.Groups)] else []) := by
    simp [emittedRows, hgb, hen, hmc]
  have hS := minorSum_eq gb mc result.Groups hmc hme
  have hkeysub := groupRows_keys_sublist account metricCfg gb result.Groups
  have hmergedKey : mergedLabels account metricCfg gb mc ∉
      (groupRows account metricCfg gb result.Groups).map Prod.fst := by
    intro hin
    have := hkeysub.subset hin
    obtain ⟨g, hg, hgL⟩ := List.mem_map.mp this
    exact hmerged g hg hgL
  have hnd : ((emittedRows account metricCfg result).map Prod.fst).Nodup := by
    rw [hrows, List.map_append, List.nodup_append]
    refine ⟨hkeysub.nodup hnodup, ?_, ?_⟩
    · split <;> simp
    · intro L h1 h2
      split at h2
      · simp only [List.map_cons, List.map_nil, List.mem_singleton] at h2
        subst h2
        exact hmergedKey h1
      · simp at h2
  have hndr : ((emittedRows account metricCfg result).reverse.map Prod.fst).Nodup := by
    rw [List.map_reverse]
    exact List.nodup_reverse.mpr hnd
  obtain ⟨c', hc', _, hv⟩ := applyWrites_ok metricCfg.MetricName names
    (emittedRows account metricCfg result) c hnames
    (fun w hw => (length_of_mem_emittedRows account metricCfg result w hw).trans hlen)
  have hnone : ∀ L, L ∉ (emittedRows account metricCfg result).map Prod.fst →
      c'.value? metricCfg.MetricName L = c.value? metricCfg.MetricName L := by
    intro L hL
    rw [hv, if_pos rfl, lookup_rows_eq_none L _ (by rw [List.map_reverse]; simpa using hL)]
  have hsome : ∀ L v, (L, v) ∈ emittedRows account metricCfg result →
      c'.value? metricCfg.MetricName L = some v := by
    intro L v hL
    rw [hv, if_pos rfl, lookup_rows_eq_some L v _ hndr (List.mem_reverse.mpr hL)]
  have hkeys : ∀ L, L ∈ (emittedRows account metricCfg result).map Prod.fst →
      L = mergedLabels account metricCfg gb mc ∨
        ∃ g ∈ result.Groups, isMinor gb g = false ∧
          buildLabelValues account metricCfg g.Keys = L := by
    intro L hL
    rw [hrows, List.map_append, List.mem_append] at hL
    rcases hL with hL | hL
    · obtain ⟨⟨L', v⟩, hmem, rfl⟩ := List.mem_map.mp hL
      obtain ⟨g, hg, hmin, hgL, _⟩ := (mem_groupRows account metricCfg gb _ L' v).mp hmem
      exact Or.inr ⟨g, hg, hmin, hgL⟩
    · split at hL
      · simp only [List.map_cons, List.map_nil, List.mem_singleton] at hL
        exact Or.inl hL
      · simp at hL
  refine ⟨c', (updateMetrics_eq c account metricCfg result).trans hc', ?_, ?_, ?_, ?_, ?_⟩
  · intro g hg hlt
    apply hnone
    intro hin
    rcases hkeys _ hin with h | ⟨g', hg', hmin', hL'⟩
    · exact hmerged g hg h
    · have hgg : g' = g := by
        have hinj := List.inj_on_of_nodup_map hnodup hg' hg hL'
        exact hinj
      subst hgg
      rw [isMinor_eq gb mc g' hmc hme] at hmin'
      simp [hlt] at hmin'
  · intro g hg hge
    apply hsome
    rw [hrows]
    apply List.mem_append_left
    rw [mem_groupRows]
    refine ⟨g, hg, ?_, rfl, rfl⟩
    rw [isMinor_eq gb mc g hmc hme]
    simpa using hge
  · rw [← hS]
    by_cases hpos : 0 < minorSum gb result.Groups
    · rw [if_pos hpos]
      apply hsome
      rw [hrows]
      apply List.mem_append_right
      simp [hpos, mergedLabels]
    · rw [if_neg hpos]
      apply hnone
      rw [hrows, List.map_append, List.mem_append]
      intro hin
      rcases hin with hin | hin
      · exact hmergedKey hin
      · simp [hpos] at hin
  · intro L hL hgroups
    apply hnone
    intro hin
    rcases hkeys _ hin with h | ⟨g, hg, _, hgL⟩
    · exact hL h
    · exact hgroups g hg hgL
  · intro n L hn
    rw [hv, if_neg hn]

theorem updateMetrics_merge_witness :
    ∃ c', updateMetrics mergeCollector bareAccount mergeMetric mergeResult = some c' ∧
      c'.value? "aws_cost_by_service" ["333333333333", "Usage", "a"] = none ∧
      c'.value? "aws_cost_by_service" ["333333333333", "Usage", "b"] = none ∧
      c'.value? "aws_cost_by_service" ["333333333333", "Usage", "c"] = some 50 ∧
      c'.value? "aws_cost_by_service" ["333333333333", "Usage", "other"] = some 5 := by
  obtain ⟨c', h, hlow, hhigh, hmerged, _, _⟩ :=
    updateMetrics_merge mergeCollector bareAccount mergeMetric
      { Enabled := true, Groups := [serviceGroup],
        MergeMinorCost := some { Enabled := true, Threshold := 5, TagValue := "other" } }
      { Enabled := true, Threshold := 5, TagValue := "other" } mergeResult
      ["account_id", "charge_type", "service"] rfl rfl rfl rfl (by decide) (by decide)
      (by decide) (by decide)
  refine ⟨c', h, ?_, ?_, ?_, ?_⟩
  · exact (hlow { Keys := ["a"], Amount := 2, Unit := "USD" } (by decide!) (by decide!)).trans
      (by decide)
  · exact (hlow { Keys := ["b"], Amount := 3, Unit := "USD" } (by decide!) (by decide!)).trans
      (by decide)
  · exact hhigh { Keys := ["c"], Amount := 50, Unit := "USD" } (by decide!) (by decide!)
  · exact hmerged.trans (by decide!)

/-- C2 (as stated) fails: the groups `other: 50` and `a: 2` have distinct key
tuples, the threshold is 5 and the placeholder is `other`; the merged row of
`a` is written under the label tuple of the group `other`, so that this group,
whose amount is above the threshold, has no row carrying its own amount. -/
theorem updateMetrics_merged_row_overwrites_group :
    (collidingResult.Groups.map (·.Keys)).Nodup ∧
    (updateMetrics mergeCollector bareAccount mergeMetric collidingResult).map
        (fun c => c.value? "aws_cost_by_service"
          (buildLabelValues bareAccount mergeMetric ["other"])) = some (some 2) ∧
    (updateMetrics mergeCollector bareAccount mergeMetric collidingResult).map
        (fun c => (c.metrics.lookup "aws_cost_by_service").map (·.rows)) =
      some (some [(["333333333333", "Usage", "other"], 2)]) := by
  refine ⟨by decide, by decide!, by decide!⟩

/-- The merged row follows the `float64` sum: the groups 0.01, 0.02 and -0.03
are below the threshold 5 and their `float64` sum is 0, so no row is written,
although the numbers that the three `float64` denote add up to more than 0. A
group whose amount is NaN is not below the threshold and has a row of its
own. -/
theorem updateMetrics_float_sum :
    (updateMetrics mergeCollector bareAccount mergeMetric roundingResult).map
        (fun c => (c.metrics.lookup "aws_cost_by_service").map (·.rows)) = some (some []) ∧
    roundingResult.Groups.map (·.Amount) =
      [.finite (5764607523034235 / 2 ^ 59), .finite (5764607523034235 / 2 ^ 58),
        .finite (-1080863910568919 / 2 ^ 55)] ∧
    (0 : ℚ) < 5764607523034235 / 2 ^ 59 + 5764607523034235 / 2 ^ 58 +
      -1080863910568919 / 2 ^ 55 ∧
    (updateMetrics mergeCollector bareAccount mergeMetric nanResult).map
        (fun c => (c.metrics.lookup "aws_cost_by_service").map (·.rows)) =
      some (some [(["333333333333", "Usage", "other"], 3),
        (["333333333333", "Usage", "a"], .nan)]) := by
  refine ⟨by decide!, by decide!, by norm_num, by decide!⟩

/-- A loop in the `Option` monad over states that satisfy an invariant stops
with `none` exactly when it meets a bad element. -/
theorem foldlM_option_none_iff {σ α : Type} (f : σ → α → Option σ) (Inv : σ → Prop)
    (Bad : α → Prop) (l : List α)
    (hstep : ∀ s, Inv s → ∀ a ∈ l,
      (Bad a → f s a = none) ∧ (¬ Bad a → ∃ s', f s a = some s' ∧ Inv s')) :
    ∀ s, Inv s →
      (l.foldlM f s = none ↔ ∃ a ∈ l, Bad a) ∧ (∀ s', l.foldlM f s = some s' → Inv s') := by
  induction l with
  | nil =>
    intro s hs
    refine ⟨?_, ?_⟩
    · simp [List.foldlM_nil]
    · intro s' h
      simp only [List.foldlM_nil, Option.pure_def, Option.some.injEq] at h
      exact h ▸ hs
  | cons a rest ih =>
    intro s hs
    have hrest : ∀ s, Inv s → ∀ b ∈ rest,
        (Bad b → f s b = none) ∧ (¬ Bad b → ∃ s', f s b = some s' ∧ Inv s') :=
      fun s hs b hb => hstep s hs b (List.mem_cons_of_mem _ hb)
    rw [List.foldlM_cons]
    by_cases hbad : Bad a
    · rw [(hstep s hs a (List.mem_cons_self _ _)).1 hbad]
      refine ⟨?_, ?_⟩
      · simp only [Option.bind_eq_bind, Option.none_bind, true_iff]
        exact ⟨a, List.mem_cons_self _ _, hbad⟩
      · intro s' h
        simp at h
    · obtain ⟨s₁, h₁, hinv₁⟩ := (hstep s hs a (List.mem_cons_self _ _)).2 hbad
      rw [h₁]
      simp only [Option.bind_eq_bind, Option.some_bind]
      obtain ⟨hiff, hpres⟩ := ih hrest s₁ hinv₁
      refine ⟨?_, hpres⟩
      rw [hiff]
      constructor
      · rintro ⟨b, hb, hbb⟩
        exact ⟨b, List.mem_cons_of_mem _ hb, hbb⟩
      · rintro ⟨b, hb, hbb⟩
        rcases List.mem_cons.mp hb with h | h
        · subst h
          exact absurd hbb hbad
        · exact ⟨b, h, hbb⟩

theorem applyWrites_missing (c : CostCollector) (name : String) (w : List String × Float64)
    (ws : List (List String × Float64)) (h : labelNamesOf c name = none) :
    applyWrites c name (w :: ws) = none := by
  have hg : c.metrics.lookup name = none := by
    unfold labelNamesOf at h
    cases hl : c.metrics.lookup name with
    | none => rfl
    | some g => simp [hl] at h
  rw [applyWrites_cons]
  simp [setGauge, hg]

theorem lookup_map_snd {β γ : Type} (f : β → γ) (m : List (String × β)) (k : String) :
    (m.map (fun p => (p.1, f p.2))).lookup k = (m.lookup k).map f := by
  induction m with
  | nil => rfl
  | cons p rest ih =>
    obtain ⟨a, b⟩ := p
    simp only [List.map_cons, lookup_cons_eq, ih]
    by_cases h : k = a <;> simp [h]

theorem sameSchema_resetAll (c : CostCollector) : SameSchema c (resetAll c) := by
  refine ⟨rfl, rfl, rfl, fun n => ?_⟩
  unfold labelNamesOf resetAll
  simp only [lookup_map_snd]
  cases c.metrics.lookup n <;> rfl

theorem metricMismatch_congr {c c' : CostCollector} (h : SameSchema c c') (ar : accountResults)
    (metricCfg : MetricConfig) : MetricMismatch c' ar metricCfg ↔ MetricMismatch c ar metricCfg := by
  unfold MetricMismatch
  simp only [h.2.2.2]

/-- One step of the inner loop of the publish step panics exactly when one of
its rows has a wrong number of label values; otherwise it changes rows only. -/
theorem publishMetric_step (ar : accountResults) (c : CostCollector) (metricCfg : MetricConfig) :
    (MetricMismatch c ar metricCfg → publishMetric ar c metricCfg = none) ∧
    (¬ MetricMismatch c ar metricCfg →
      ∃ c', publishMetric ar c metricCfg = some c' ∧ SameSchema c c') := by
  unfold publishMetric MetricMismatch
  cases hres : ar.results.lookup metricCfg.MetricName with
  | none =>
    refine ⟨?_, fun _ => ⟨c, rfl, sameSchema_refl c⟩⟩
    rintro ⟨result, h, _⟩
    cases h
  | some result =>
    simp only [Option.some.injEq, exists_eq_left', updateMetrics_eq]
    cases hn : labelNamesOf c metricCfg.MetricName with
    | none =>
      refine ⟨?_, ?_⟩
      · rintro ⟨row, hrow, _⟩
        cases hrows : emittedRows ar.account metricCfg result with
        | nil => simp [hrows] at hrow
        | cons w ws => exact applyWrites_missing c _ w ws hn
      · intro hno
        cases hrows : emittedRows ar.account metricCfg result with
        | nil => exact ⟨c, rfl, sameSchema_refl c⟩
        | cons w ws =>
          exfalso
          apply hno
          refine ⟨w, by simp [hrows], ?_⟩
          intro names h
          cases h
    | some names =>
      refine ⟨?_, ?_⟩
      · rintro ⟨row, hrow, hlen⟩
        exact applyWrites_mismatch _ names _ c hn ⟨row, hrow, hlen names rfl⟩
      · intro hno
        have hall : ∀ w ∈ emittedRows ar.account metricCfg result, w.1.length = names.length := by
          intro w hw
          by_contra hne
          apply hno
          refine ⟨w, hw, ?_⟩
          intro names' h
          cases h
          exact hne
        obtain ⟨c', hc', hs, _⟩ := applyWrites_ok _ names _ c hn hall
        exact ⟨c', hc', hs⟩

/-- The inner loop of the publish step, from a state with the schema of `c`. -/
theorem publishAccount_step (c : CostCollector) (ar : accountResults) (s : CostCollector)
    (hs : SameSchema c s) :
    (publishAccount s ar = none ↔ ∃ metricCfg ∈ c.config.Metrics, MetricMismatch c ar metricCfg) ∧
    (∀ s', publishAccount s ar = some s' → SameSchema c s') := by
  unfold publishAccount
  rw [hs.1]
  apply foldlM_option_none_iff (publishMetric ar) (SameSchema c) (MetricMismatch c ar)
    c.config.Metrics _ s hs
  intro t ht metricCfg _
  obtain ⟨hbad, hgood⟩ := publishMetric_step ar t metricCfg
  refine ⟨fun h => hbad ((metricMismatch_congr ht ar metricCfg).mpr h), fun h => ?_⟩
  obtain ⟨t', h', hs'⟩ := hgood (fun hm => h ((metricMismatch_congr ht ar metricCfg).mp hm))
  exact ⟨t', h', sameSchema_trans ht hs'⟩

theorem publish_eq (c : CostCollector) (allResults : List accountResults) :
    publish c allResults = allResults.foldlM publishAccount (resetAll c) :=
  rfl

theorem publish_spec (c : CostCollector) (allResults : List accountResults) :
    (publish c allResults = none ↔ PublishMismatch c allResults) ∧
    (∀ c', publish c allResults = some c' → SameSchema c c') := by
  rw [publish_eq]
  apply foldlM_option_none_iff publishAccount (SameSchema c)
    (fun ar => ∃ metricCfg ∈ c.config.Metrics, MetricMismatch c ar metricCfg)
    allResults _ (resetAll c) (sameSchema_resetAll c)
  intro s hs ar _
  obtain ⟨hiff, hpres⟩ := publishAccount_step c ar s hs
  refine ⟨fun h => hiff.mpr h, fun h => ?_⟩
  cases hp : publishAccount s ar with
  | none => exact absurd (hiff.mp hp) h
  | some s' => exact ⟨s', rfl, hpres s' hp⟩

/-- C5 (as amended): the publish step does not skip a row whose number of label
values differs from the number of label names of its gauge: it panics on the
first such row, so that it completes exactly when there is no such row; a
completed publish step leaves the configuration, the clients, the error counter
and the label names of every gauge as they were. -/
theorem publish_panics_iff_mismatch (c : CostCollector) (allResults : List accountResults) :
    (publish c allResults = none ↔
      ∃ ar ∈ allResults, ∃ metricCfg ∈ c.config.Metrics, ∃ result,
        ar.results.lookup metricCfg.MetricName = some result ∧
        ∃ row ∈ emittedRows ar.account metricCfg result,
          ∀ names, labelNamesOf c metricCfg.MetricName = some names →
            row.1.length ≠ names.length) ∧
    (∀ c', publish c allResults = some c' → SameSchema c c') :=
  publish_spec c allResults

/-- C5 (as stated) fails: in `driftConfig` the second account has no custom
label, so its row has 5 label values for the 7 label names of the gauge; the
publish step panics on it, and the row of the first account, which comes after
it in the collected results, is not published. -/
theorem publish_panics_on_short_row :
    labelNamesOf driftCollector "aws_cost_by_team" =
      some ["account_id", "app", "env", "charge_type", "service", "team", "team_name"] ∧
    emittedRows bareAccount teamMetric teamResult =
      [(["333333333333", "Usage", "Amazon EC2", "payments", "Payments Team"], 12)] ∧
    publish driftCollector
      [{ account := bareAccount, results := [("aws_cost_by_team", teamResult)] },
       { account := prodAccount, results := [("aws_cost_by_team", teamResult)] }] = none := by
  refine ⟨by decide, by decide!, by decide!⟩

/-! ## The refresh cycle -/

/-- A loop commutes with a map of the state with which each step commutes. -/
theorem foldlM_option_map {σ α : Type} (f : σ → α → Option σ) (φ : σ → σ)
    (h : ∀ s a, f (φ s) a = (f s a).map φ) (l : List α) :
    ∀ s, l.foldlM f (φ s) = (l.foldlM f s).map φ := by
  induction l with
  | nil => intro s; rfl
  | cons a rest ih =>
    intro s
    rw [List.foldlM_cons, List.foldlM_cons, h]
    cases f s a with
    | none => rfl
    | some s₁ => exact ih s₁

/-- Loops whose steps agree on the elements of the list agree. -/
theorem foldlM_option_congr {σ α : Type} (f g : σ → α → Option σ) (l : List α)
    (h : ∀ s, ∀ a ∈ l, f s a = g s a) : ∀ s, l.foldlM f s = l.foldlM g s := by
  induction l with
  | nil => intro s; rfl
  | cons a rest ih =>
    intro s
    rw [List.foldlM_cons, List.foldlM_cons, h s a (List.mem_cons_self _ _)]
    cases g s a with
    | none => rfl
    | some s₁ => exact ih (fun s b hb => h s b (List.mem_cons_of_mem _ hb)) s₁

theorem setGauge_withErrors (n : Nat) (c : CostCollector) (name : String) (lvs : List String)
    (v : Float64) :
    setGauge (withErrors n c) name lvs v = (setGauge c name lvs v).map (withErrors n) := by
  unfold setGauge withErrors
  cases hg : c.metrics.lookup name with
  | none => simp [hg]
  | some g => cases hs : g.WithLabelValuesSet lvs v <;> simp [hg, hs]

theorem updateMetrics_withErrors (n : Nat) (c : CostCollector) (account : AWSAccount)
    (metricCfg : MetricConfig) (result : CostResult) :
    updateMetrics (withErrors n c) account metricCfg result =
      (updateMetrics c account metricCfg result).map (withErrors n) := by
  rw [updateMetrics_eq, updateMetrics_eq]
  exact foldlM_option_map _ (withErrors n)
    (fun s w => setGauge_withErrors n s metricCfg.MetricName w.1 w.2) _ c

theorem specAccount_withErrors (c : CostCollector) (api : Nat → Nat → Except String CostResult)
    (n : Nat) (s : CostCollector) (ia : Nat × AWSAccount) :
    specAccount c api (withErrors n s) ia = (specAccount c api s ia).map (withErrors n) := by
  unfold specAccount
  apply foldlM_option_map
  intro t metricCfg
  cases namedResult c.config.Metrics (api ia.1) metricCfg.MetricName with
  | none => rfl
  | some r => exact updateMetrics_withErrors n t ia.2 metricCfg r

theorem namedFrom_of_not_mem (call : Nat → Except String CostResult) (name : String)
    (metrics : List MetricConfig) :
    ∀ (j : Nat) (acc : Option CostResult), name ∉ metrics.map (·.MetricName) →
      namedFrom call name metrics j acc = acc := by
  induction metrics with
  | nil => intro j acc _; rfl
  | cons m rest ih =>
    intro j acc h
    simp only [List.map_cons, List.mem_cons, not_or] at h
    rw [namedFrom, if_neg (fun e => h.1 e.symm)]
    exact ih (j + 1) acc h.2

theorem namedFrom_append (call : Nat → Except String CostResult) (name : String)
    (pre post : List MetricConfig) :
    ∀ (j : Nat) (acc : Option CostResult),
      namedFrom call name (pre ++ post) j acc =
        namedFrom call name post (j + pre.length) (namedFrom call name pre j acc) := by
  induction pre with
  | nil => intro j acc; rfl
  | cons m rest ih =>
    intro j acc
    have hj : j + 1 + rest.length = j + (rest.length + 1) := by omega
    show namedFrom call name (rest ++ post) (j + 1) _ = _
    rw [ih, hj]
    rfl

/-- With every query from position `j` on succeeding, the loop of
`fetchAccountCosts` returns the map of the results by metric name. -/
theorem fetchMetrics_ok (call : Nat → Except String CostResult) (metrics : List MetricConfig) :
    ∀ (j : Nat) (results : List (String × CostResult)),
      (∀ k, j ≤ k → k < j + metrics.length → (call k).toBool = true) →
      ∃ res, fetchMetrics call metrics j results = .ok res ∧
        ∀ name, res.lookup name = namedFrom call name metrics j (results.lookup name) := by
  induction metrics with
  | nil =>
    intro j results _
    exact ⟨results, rfl, fun _ => rfl⟩
  | cons m rest ih =>
    intro j results hall
    have hj := hall j (le_refl j) (by simp)
    cases hc : call j with
    | error e => simp [hc, Except.toBool] at hj
    | ok r =>
      obtain ⟨res, hres, hlook⟩ := ih (j + 1) (mapStore results m.MetricName r)
        (fun k hk1 hk2 => hall k (by omega) (by simp only [List.length_cons]; omega))
      refine ⟨res, ?_, ?_⟩
      · rw [fetchMetrics, hc]
        exact hres
      · intro name
        rw [hlook name, lookup_mapStore, namedFrom, hc]
        by_cases hn : name = m.MetricName
        · simp [hn, Except.toOption]
        · have hn' : ¬ m.MetricName = name := fun e => hn e.symm
          simp [hn, hn']

/-- With a failing query, the loop of `fetchAccountCosts` returns an error. -/
theorem fetchMetrics_error (call : Nat → Except String CostResult) (metrics : List MetricConfig) :
    ∀ (j : Nat) (results : List (String × CostResult)),
      (∃ k, j ≤ k ∧ k < j + metrics.length ∧ (call k).toBool = false) →
      ∃ e, fetchMetrics call metrics j results = .error e := by
  induction metrics with
  | nil =>
    intro j results h
    obtain ⟨k, h1, h2, _⟩ := h
    simp at h2
    omega
  | cons m rest ih =>
    intro j results h
    cases hc : call j with
    | error e => exact ⟨_, by rw [fetchMetrics, hc]⟩
    | ok r =>
      obtain ⟨k, h1, h2, h3⟩ := h
      have hk : k ≠ j := by
        intro e
        rw [e, hc] at h3
        simp [Except.toBool] at h3
      obtain ⟨e, he⟩ := ih (j + 1) (mapStore results m.MetricName r)
        ⟨k, by omega, by simp only [List.length_cons] at h2; omega, h3⟩
      exact ⟨e, by rw [fetchMetrics, hc]; exact he⟩

theorem fetchSucceeds_eq_true (c : CostCollector) (api : Nat → Nat → Except String CostResult)
    (i : Nat) (acc : AWSAccount) (h : c.config.TargetAWSAccounts[i]? = some acc) :
    fetchSucceeds c api i = true ↔
      acc.AccountId ∈ c.awsClients ∧
        ∀ j, j < c.config.Metrics.length → (api i j).toBool = true := by
  simp [fetchSucceeds, h, List.all_eq_true]

theorem fetchAccountCosts_ok (c : CostCollector) (call : Nat → Except String CostResult)
    (acc : AWSAccount) (hc : acc.AccountId ∈ c.awsClients)
    (hall : ∀ j, j < c.config.Metrics.length → (call j).toBool = true) :
    ∃ res, fetchAccountCosts c call acc = .ok res ∧
      ∀ name, res.lookup name = namedResult c.config.Metrics call name := by
  obtain ⟨res, hres, hlook⟩ := fetchMetrics_ok call c.config.Metrics 0 []
    (fun k _ hk => hall k (by omega))
  exact ⟨res, by simp [fetchAccountCosts, hc, hres], fun name => by
    rw [hlook name]
    rfl⟩

theorem fetchAccountCosts_error (c : CostCollector) (call : Nat → Except String CostResult)
    (acc : AWSAccount)
    (h : ¬ (acc.AccountId ∈ c.awsClients ∧
      ∀ j, j < c.config.Metrics.length → (call j).toBool = true)) :
    ∃ e, fetchAccountCosts c call acc = .error e := by
  by_cases hc : acc.AccountId ∈ c.awsClients
  · have hex : ∃ k, 0 ≤ k ∧ k < 0 + c.config.Metrics.length ∧ (call k).toBool = false := by
      by_contra hno
      apply h
      refine ⟨hc, fun j hj => ?_⟩
      by_contra hf
      exact hno ⟨j, Nat.zero_le j, by omega, by simpa using hf⟩
    obtain ⟨e, he⟩ := fetchMetrics_error call c.config.Metrics 0 [] hex
    exact ⟨e, by simp [fetchAccountCosts, hc, he]⟩
  · exact ⟨"no client found for account " ++ acc.AccountId, by simp [fetchAccountCosts, hc]⟩

theorem accountTask_none (c : CostCollector) (api : Nat → Nat → Except String CostResult)
    (i : Nat) (h : c.config.TargetAWSAccounts[i]? = none) : accountTask c api i = none := by
  simp [accountTask, h]

theorem accountTask_succeeds (c : CostCollector) (api : Nat → Nat → Except String CostResult)
    (i : Nat) (acc : AWSAccount) (h : c.config.TargetAWSAccounts[i]? = some acc)
    (hs : fetchSucceeds c api i = true) :
    ∃ res, accountTask c api i = some (.ok { account := acc, results := res }) ∧
      ∀ name, res.lookup name = namedResult c.config.Metrics (api i) name := by
  obtain ⟨hc, hall⟩ := (fetchSucceeds_eq_true c api i acc h).mp hs
  obtain ⟨res, hres, hlook⟩ := fetchAccountCosts_ok c (api i) acc hc hall
  exact ⟨res, by simp [accountTask, h, hres], hlook⟩

theorem accountTask_fails (c : CostCollector) (api : Nat → Nat → Except String CostResult)
    (i : Nat) (acc : AWSAccount) (h : c.config.TargetAWSAccounts[i]? = some acc)
    (hs : fetchSucceeds c api i = false) :
    ∃ e, accountTask c api i = some (.error e) := by
  have hno : ¬ (acc.AccountId ∈ c.awsClients ∧
      ∀ j, j < c.config.Metrics.length → (api i j).toBool = true) := by
    intro hyes
    rw [(fetchSucceeds_eq_true c api i acc h).mpr hyes] at hs
    cases hs
  obtain ⟨e, he⟩ := fetchAccountCosts_error c (api i) acc hno
  exact ⟨e, by simp [accountTask, h, he]⟩

theorem namedFrom_isSome (call : Nat → Except String CostResult) (name : String)
    (metrics : List MetricConfig) :
    ∀ (j : Nat) (acc : Option CostResult),
      (∀ k, j ≤ k → k < j + metrics.length → (call k).toBool = true) →
      (name ∈ metrics.map (·.MetricName) ∨ acc.isSome = true) →
      (namedFrom call name metrics j acc).isSome = true := by
  induction metrics with
  | nil =>
    intro j acc _ h
    rcases h with h | h
    · simp at h
    · exact h
  | cons m rest ih =>
    intro j acc hall h
    rw [namedFrom]
    apply ih (j + 1) _ (fun k hk1 hk2 => hall k (by omega) (by simp only [List.length_cons]; omega))
    by_cases hm : m.MetricName = name
    · right
      rw [if_pos hm]
      have hj := hall j (le_refl j) (by simp)
      cases hc : call j with
      | error e => simp [hc, Except.toBool] at hj
      | ok r => rfl
    · rw [if_neg hm]
      rcases h with h | h
      · left
        simp only [List.map_cons, List.mem_cons] at h
        rcases h with h | h
        · exact absurd h.symm hm
        · exact h
      · right
        exact h

/-- For an account whose fetch succeeded, the inner loop of the publish step
applies `updateMetrics` for each configured metric. -/
theorem publishAccount_eq_specAccount (c : CostCollector)
    (api : Nat → Nat → Except String CostResult) (i : Nat) (acc : AWSAccount)
    (res : List (String × CostResult)) (s : CostCollector)
    (hs : s.config = c.config) (hsucc : fetchSucceeds c api i = true)
    (hget : c.config.TargetAWSAccounts[i]? = some acc)
    (hlook : ∀ name, res.lookup name = namedResult c.config.Metrics (api i) name) :
    publishAccount s { account := acc, results := res } = specAccount c api s (i, acc) := by
  unfold publishAccount specAccount
  rw [hs]
  apply foldlM_option_congr
  intro t metricCfg hmem
  have hall := ((fetchSucceeds_eq_true c api i acc hget).mp hsucc).2
  have hsome : (namedResult c.config.Metrics (api i) metricCfg.MetricName).isSome = true :=
    namedFrom_isSome (api i) metricCfg.MetricName c.config.Metrics 0 none
      (fun k _ hk => hall k (by omega)) (Or.inl (List.mem_map.mpr ⟨metricCfg, hmem, rfl⟩))
  unfold publishMetric
  simp only [hlook]
  cases hr : namedResult c.config.Metrics (api i) metricCfg.MetricName with
  | none => simp [hr] at hsome
  | some r => rfl

theorem fetchAll_cons (c : CostCollector) (api : Nat → Nat → Except String CostResult)
    (i : Nat) (sched : List Nat) :
    (fetchAll c api (i :: sched)).2.1 =
        (match accountTask c api i with
          | some (.ok ar) => [ar]
          | _ => []) ++ (fetchAll c api sched).2.1 ∧
    (fetchAll c api (i :: sched)).2.2 =
        (match accountTask c api i with
          | some (.error e) => [e]
          | _ => []) ++ (fetchAll c api sched).2.2 := by
  unfold fetchAll
  cases h : accountTask c api i with
  | none => simp [List.filterMap_cons, h]
  | some r => cases r <;> simp [List.filterMap_cons, h]

/-- The publish loop over the collected results is the loop over the accounts
whose fetch succeeded. -/
theorem foldlM_collected (c : CostCollector) (api : Nat → Nat → Except String CostResult)
    (sched : List Nat) :
    ∀ s, SameSchema c s →
      (fetchAll c api sched).2.1.foldlM publishAccount s =
        (succeeded c api sched).foldlM (specAccount c api) s := by
  induction sched with
  | nil => intro s _; rfl
  | cons i rest ih =>
    intro s hs
    rw [(fetchAll_cons c api i rest).1]
    cases hget : c.config.TargetAWSAccounts[i]? with
    | none =>
      have hsucc : succeeded c api (i :: rest) = succeeded c api rest := by
        simp [succeeded, List.filterMap_cons, hget]
      rw [accountTask_none c api i hget, hsucc]
      exact ih s hs
    | some acc =>
      cases hf : fetchSucceeds c api i with
      | false =>
        have hsucc : succeeded c api (i :: rest) = succeeded c api rest := by
          simp [succeeded, List.filterMap_cons, hf]
        obtain ⟨e, he⟩ := accountTask_fails c api i acc hget hf
        rw [he, hsucc]
        exact ih s hs
      | true =>
        have hsucc : succeeded c api (i :: rest) = (i, acc) :: succeeded c api rest := by
          simp [succeeded, List.filterMap_cons, hf, hget]
        obtain ⟨res, hres, hlook⟩ := accountTask_succeeds c api i acc hget hf
        rw [hres, hsucc]
        simp only [List.singleton_append, List.foldlM_cons]
        rw [publishAccount_eq_specAccount c api i acc res s hs.1 hf hget hlook]
        cases hsp : specAccount c api s (i, acc) with
        | none => rfl
        | some s' =>
          have hs' : SameSchema c s' := by
            apply (publishAccount_step c { account := acc, results := res } s hs).2 s'
            rw [publishAccount_eq_specAccount c api i acc res s hs.1 hf hget hlook]
            exact hsp
          exact ih s' hs'

theorem length_errs (c : CostCollector) (api : Nat → Nat → Except String CostResult)
    (sched : List Nat) :
    (fetchAll c api sched).2.2.length =
      (sched.filter (fun i =>
        decide (i < c.config.TargetAWSAccounts.length) && !fetchSucceeds c api i)).length := by
  induction sched with
  | nil => rfl
  | cons i rest ih =>
    rw [(fetchAll_cons c api i rest).2, List.length_append, ih, List.filter_cons]
    cases hget : c.config.TargetAWSAccounts[i]? with
    | none =>
      have hi : ¬ i < c.config.TargetAWSAccounts.length := by
        intro hlt
        rw [List.getElem?_eq_getElem hlt] at hget
        cases hget
      rw [accountTask_none c api i hget]
      simp [hi]
    | some acc =>
      have hi : i < c.config.TargetAWSAccounts.length := by
        by_contra hge
        rw [List.getElem?_eq_none (by omega)] at hget
        cases hget
      cases hf : fetchSucceeds c api i with
      | false =>
        obtain ⟨e, he⟩ := accountTask_fails c api i acc hget hf
        rw [he]
        simp [hi]
        omega
      | true =>
        obtain ⟨res, hres, _⟩ := accountTask_succeeds c api i acc hget hf
        rw [hres]
        simp [hi]

theorem length_errs_of_perm (c : CostCollector) (api : Nat → Nat → Except String CostResult)
    (sched : List Nat) (hperm : sched.Perm (List.range c.config.TargetAWSAccounts.length)) :
    (fetchAll c api sched).2.2.length = failedCount c api := by
  rw [length_errs, failedCount, (hperm.filter _).length_eq]
  congr 1
  apply List.filter_congr
  intro i hi
  simp [List.mem_range.mp hi]

theorem publishMetric_withErrors (n : Nat) (ar : accountResults) (c : CostCollector)
    (metricCfg : MetricConfig) :
    publishMetric ar (withErrors n c) metricCfg =
      (publishMetric ar c metricCfg).map (withErrors n) := by
  unfold publishMetric
  cases ar.results.lookup metricCfg.MetricName with
  | none => rfl
  | some r => exact updateMetrics_withErrors n c ar.account metricCfg r

theorem publishAccount_withErrors (n : Nat) (c : CostCollector) (ar : accountResults) :
    publishAccount (withErrors n c) ar = (publishAccount c ar).map (withErrors n) :=
  foldlM_option_map (publishMetric ar) (withErrors n)
    (fun s m => publishMetric_withErrors n ar s m) c.config.Metrics c

theorem publish_withErrors (n : Nat) (c : CostCollector) (allResults : List accountResults) :
    publish (withErrors n c) allResults = (publish c allResults).map (withErrors n) :=
  foldlM_option_map publishAccount (withErrors n)
    (fun s ar => publishAccount_withErrors n s ar) allResults (resetAll c)

/-- The refresh cycle as the fetch phase followed by the publish step. -/
theorem Refresh_eq (c : CostCollector) (api : Nat → Nat → Except String CostResult)
    (sched : List Nat) :
    Refresh c api sched =
      (publish c (fetchAll c api sched).2.1).map (fun c' =>
        (withErrors (c.scrapeErrors + (fetchAll c api sched).2.2.length) c',
          if (fetchAll c api sched).2.2.length > 0 then
            some (toString (fetchAll c api sched).2.2.length ++ " accounts failed to fetch")
          else none)) := by
  have h := publish_withErrors (c.scrapeErrors + (fetchAll c api sched).2.2.length) c
    (fetchAll c api sched).2.1
  unfold Refresh
  have hfst : (fetchAll c api sched).1 =
      withErrors (c.scrapeErrors + (fetchAll c api sched).2.2.length) c := rfl
  have hsplit : fetchAll c api sched =
      ((fetchAll c api sched).1, (fetchAll c api sched).2.1, (fetchAll c api sched).2.2) := rfl
  rw [hsplit]
  simp only
  rw [hfst, h]
  cases publish c (fetchAll c api sched).2.1 with
  | none => rfl
  | some c' =>
    simp only [Option.map_some']
    split <;> rfl

theorem accountTask_congr (c₀ c : CostCollector) (api : Nat → Nat → Except String CostResult)
    (hcfg : c₀.config = c.config) (hcl : c₀.awsClients = c.awsClients) (i : Nat) :
    accountTask c₀ api i = accountTask c api i := by
  unfold accountTask fetchAccountCosts
  rw [hcfg, hcl]

theorem fetchAll_congr (c₀ c : CostCollector) (api : Nat → Nat → Except String CostResult)
    (hcfg : c₀.config = c.config) (hcl : c₀.awsClients = c.awsClients) (sched : List Nat) :
    (fetchAll c₀ api sched).2 = (fetchAll c api sched).2 := by
  have h : accountTask c₀ api = accountTask c api :=
    funext (accountTask_congr c₀ c api hcfg hcl)
  unfold fetchAll
  simp only [h]

theorem resetAll_congr (c₀ c : CostCollector) (hcfg : c₀.config = c.config)
    (hcl : c₀.awsClients = c.awsClients) (herr : c₀.scrapeErrors = c.scrapeErrors)
    (hschema : c₀.metrics.map (fun p => (p.1, p.2.labelNames)) =
      c.metrics.map (fun p => (p.1, p.2.labelNames))) :
    resetAll c₀ = resetAll c := by
  have hm : c₀.metrics.map (fun p => (p.1, p.2.Reset)) =
      c.metrics.map (fun p => (p.1, p.2.Reset)) := by
    have := congrArg (List.map (fun q : String × List String => (q.1, NewGaugeVec q.2))) hschema
    simpa [List.map_map, Function.comp_def, NewGaugeVec, GaugeVec.Reset] using this
  unfold resetAll
  rw [hm, hcfg, hcl, herr]

theorem namedResult_of_nodup (metrics : List MetricConfig)
    (call : Nat → Except String CostResult) (j : Nat) (metricCfg : MetricConfig)
    (hnd : (metrics.map (·.MetricName)).Nodup) (hj : metrics[j]? = some metricCfg) :
    namedResult metrics call metricCfg.MetricName = (call j).toOption := by
  have hlt : j < metrics.length := by
    by_contra hge
    rw [List.getElem?_eq_none (by omega)] at hj
    cases hj
  have hget : metrics[j] = metricCfg := by
    rw [List.getElem?_eq_getElem hlt] at hj
    exact Option.some.inj hj
  have hsplit : metrics = metrics.take j ++ metricCfg :: metrics.drop (j + 1) := by
    rw [← hget, ← List.drop_eq_getElem_cons hlt, List.take_append_drop]
  rw [hsplit, List.map_append, List.map_cons, List.nodup_append] at hnd
  obtain ⟨_, hnd2, hdisj⟩ := hnd
  have hpre : metricCfg.MetricName ∉ (metrics.take j).map (·.MetricName) :=
    fun h => hdisj h (List.mem_cons_self _ _)
  have hpost : metricCfg.MetricName ∉ (metrics.drop (j + 1)).map (·.MetricName) :=
    (List.nodup_cons.mp hnd2).1
  have hlen : (metrics.take j).length = j := by
    rw [List.length_take]
    omega
  unfold namedResult
  rw [hsplit, namedFrom_append, namedFrom_of_not_mem call _ _ 0 none hpre, namedFrom, if_pos rfl,
    namedFrom_of_not_mem call _ _ _ _ hpost, hlen, Nat.zero_add]

/-- C3: the gauges after `Refresh` are the gauges obtained by starting from empty
gauges and applying `updateMetrics` for each account whose fetch succeeded and
each configured metric (both are a panic when a row is rejected); `Refresh`
gives the same result from any two collectors that differ in the rows of their
gauges only, so that no row of the prior snapshot survives unless the cycle
writes it again; and when the metric names are pairwise distinct the result
applied for a metric is the one of that metric's own query. -/
theorem Refresh_snapshot (c : CostCollector) (api : Nat → Nat → Except String CostResult)
    (sched : List Nat) :
    (Refresh c api sched).map (fun r => r.1.metrics) = specSnapshot c api sched ∧
    (∀ c₀ : CostCollector, c₀.config = c.config → c₀.awsClients = c.awsClients →
      c₀.scrapeErrors = c.scrapeErrors →
      c₀.metrics.map (fun p => (p.1, p.2.labelNames)) =
        c.metrics.map (fun p => (p.1, p.2.labelNames)) →
      Refresh c₀ api sched = Refresh c api sched) ∧
    ((c.config.Metrics.map (·.MetricName)).Nodup →
      ∀ (i j : Nat) (metricCfg : MetricConfig), c.config.Metrics[j]? = some metricCfg →
        namedResult c.config.Metrics (api i) metricCfg.MetricName = (api i j).toOption) := by
  refine ⟨?_, ?_, ?_⟩
  · rw [Refresh_eq, publish_eq, foldlM_collected c api sched (resetAll c) (sameSchema_resetAll c)]
    unfold specSnapshot
    cases (succeeded c api sched).foldlM (specAccount c api) (resetAll c) <;> rfl
  · intro c₀ hcfg hcl herr hschema
    rw [Refresh_eq, Refresh_eq, publish_eq, publish_eq, fetchAll_congr c₀ c api hcfg hcl sched,
      resetAll_congr c₀ c hcfg hcl herr hschema, herr]
  · intro hnd i j metricCfg hj
    exact namedResult_of_nodup c.config.Metrics (api i) j metricCfg hnd hj

theorem Refresh_snapshot_witness :
    afterFirstCycle.value? "aws_cost_by_team"
        ["111111111111", "shop", "prod", "Usage", "Amazon EC2", "payments", "Payments Team"] =
      some 12 ∧
    Refresh afterFirstCycle secondCycle [1, 0] = Refresh sampleCollector secondCycle [1, 0] ∧
    (Refresh afterFirstCycle secondCycle [1, 0]).map (fun r =>
        (r.1.value? "aws_cost_by_team"
          ["111111111111", "shop", "prod", "Usage", "Amazon EC2", "payments", "Payments Team"],
         r.1.value? "aws_cost_by_team"
          ["111111111111", "shop", "prod", "Usage", "Amazon EC2", "search", "search"],
         r.1.value? "aws_cost_by_team"
          ["222222222222", "shop", "dev", "Usage", "Amazon EC2", "search", "search"])) =
      some (none, some 7, none) :=
  ⟨by decide!,
    (Refresh_snapshot sampleCollector secondCycle [1, 0]).2.1 afterFirstCycle
      (by decide!) (by decide!) (by decide!) (by decide!),
    by decide!⟩

theorem publishMismatch_congr {c c' : CostCollector} (h : SameSchema c c')
    (allResults : List accountResults) :
    PublishMismatch c' allResults ↔ PublishMismatch c allResults := by
  unfold PublishMismatch
  simp only [h.1, metricMismatch_congr h]

/-- C4 (as amended): in a refresh cycle in which every account task runs once
and exactly `k` account fetches fail, the scrape-error counter is incremented by
`k`; `Refresh` panics exactly when a row of the publish step has a wrong number
of label values; otherwise it returns, with no error when `k = 0` and with the
error `k accounts failed to fetch` when `k > 0`. -/
theorem Refresh_error_count (c : CostCollector) (api : Nat → Nat → Except String CostResult)
    (sched : List Nat) (hperm : sched.Perm (List.range c.config.TargetAWSAccounts.length)) :
    (fetchAll c api sched).1.scrapeErrors = c.scrapeErrors + failedCount c api ∧
    (Refresh c api sched = none ↔ PublishMismatch c (fetchAll c api sched).2.1) ∧
    (¬ PublishMismatch c (fetchAll c api sched).2.1 →
      ∃ c', Refresh c api sched =
          some (c', if failedCount c api = 0 then none
            else some (toString (failedCount c api) ++ " accounts failed to fetch")) ∧
        c'.scrapeErrors = c.scrapeErrors + failedCount c api) := by
  have hk := length_errs_of_perm c api sched hperm
  obtain ⟨hiff, _⟩ := publish_spec c (fetchAll c api sched).2.1
  refine ⟨?_, ?_, ?_⟩
  · show c.scrapeErrors + (fetchAll c api sched).2.2.length = _
    rw [hk]
  · rw [Refresh_eq, Option.map_eq_none', hiff]
  · intro hno
    cases hp : publish c (fetchAll c api sched).2.1 with
    | none => exact absurd (hiff.mp hp) hno
    | some c₁ =>
      refine ⟨withErrors (c.scrapeErrors + failedCount c api) c₁, ?_, rfl⟩
      rw [Refresh_eq, hp, hk]
      simp only [Option.map_some']
      by_cases h0 : failedCount c api = 0
      · simp [h0]
      · have hpos : failedCount c api > 0 := Nat.pos_of_ne_zero h0
        simp [h0, hpos]

theorem Refresh_error_count_witness :
    [2, 0, 1].Perm (List.range threeCollector.config.TargetAWSAccounts.length) ∧
    failedCount threeCollector secondFails = 1 ∧
    ¬ PublishMismatch threeCollector (fetchAll threeCollector secondFails [2, 0, 1]).2.1 ∧
    ∃ c', Refresh threeCollector secondFails [2, 0, 1] =
        some (c', some "1 accounts failed to fetch") ∧ c'.scrapeErrors = 1 := by
  have hperm : [2, 0, 1].Perm (List.range threeCollector.config.TargetAWSAccounts.length) := by
    decide
  have hno : ¬ PublishMismatch threeCollector
      (fetchAll threeCollector secondFails [2, 0, 1]).2.1 := by
    intro hm
    have hnone := (Refresh_error_count threeCollector secondFails [2, 0, 1] hperm).2.1.mpr hm
    have hsome : (Refresh threeCollector secondFails [2, 0, 1]).isSome = true := by decide!
    rw [hnone] at hsome
    cases hsome
  have hk : failedCount threeCollector secondFails = 1 := by decide
  obtain ⟨c', h, he⟩ :=
    (Refresh_error_count threeCollector secondFails [2, 0, 1] hperm).2.2 hno
  rw [hk] at h he
  exact ⟨hperm, hk, hno, c', by simpa using h, by simpa [threeCollector] using he⟩

/-- C4 (as stated) fails: in `driftConfig` no fetch fails, yet `Refresh` does not
return: the row of the account without custom labels has 5 label values for the
7 label names of the gauge and the publish step panics. -/
theorem Refresh_panics_without_failed_fetch :
    failedCount driftCollector firstCycle = 0 ∧
    Refresh driftCollector firstCycle [0, 1] = none := by
  refine ⟨by decide, by decide!⟩

/-- The sample collectors are the collectors that `New` builds from their
configurations when every client is created. -/
theorem New_samples :
    New sampleConfig (fun _ => none) = .ok sampleCollector ∧
    New driftConfig (fun _ => none) = .ok driftCollector ∧
    New mergeConfig (fun _ => none) = .ok mergeCollector ∧
    New threeConfig (fun _ => none) = .ok threeCollector := by
  refine ⟨by decide, by decide, by decide!, by decide!⟩

/-! ## The periods -/

theorem yearOfEra_parts (doe : Int) (h0 : 0 ≤ doe) (h1 : doe < 146097) :
    ∃ cent quad yr doy : Int, yearOfEra doe = (100 * cent + 4 * quad + yr, doy) ∧
      0 ≤ cent ∧ cent ≤ 3 ∧ 0 ≤ quad ∧ quad ≤ 24 ∧ 0 ≤ yr ∧ yr ≤ 3 ∧ 0 ≤ doy ∧ doy ≤ 365 ∧
      doe = 36524 * cent + 1461 * quad + 365 * yr + doy := by
  refine ⟨if doe / 36524 ≥ 4 then 3 else doe / 36524, _, _, _, rfl, ?_⟩
  split_ifs <;> omega

/-- The year and the day of the year of a day of a 400-year cycle are in range
and give the day back. -/
theorem yearOfEra_spec (doe : Int) (h0 : 0 ≤ doe) (h1 : doe < 146097) :
    0 ≤ (yearOfEra doe).1 ∧ (yearOfEra doe).1 ≤ 399 ∧
    0 ≤ (yearOfEra doe).2 ∧ (yearOfEra doe).2 ≤ 365 ∧
    dayOfEra (yearOfEra doe).1 (yearOfEra doe).2 = doe := by
  obtain ⟨cent, quad, yr, doy, heq, hc0, hc1, hq0, hq1, hy0, hy1, hd0, hd1, hdoe⟩ :=
    yearOfEra_parts doe h0 h1
  rw [heq]
  have h4 : (100 * cent + 4 * quad + yr) / 4 = 25 * cent + quad := by omega
  have h100 : (100 * cent + 4 * quad + yr) / 100 = cent := by omega
  simp only [dayOfEra, h4, h100]
  omega

/-- A year of the cycle and a day of a year up to 364 are found again from the
day of the cycle. -/
theorem yearOfEra_dayOfEra (yoe doy : Int) (hy0 : 0 ≤ yoe) (hy1 : yoe ≤ 399)
    (hd0 : 0 ≤ doy) (hd1 : doy ≤ 364) :
    yearOfEra (dayOfEra yoe doy) = (yoe, doy) := by
  obtain ⟨cent, quad, yr, hyoe, hc0, hc1, hq0, hq1, hr0, hr1⟩ :
      ∃ cent quad yr : Int, yoe = 100 * cent + 4 * quad + yr ∧ 0 ≤ cent ∧ cent ≤ 3 ∧
        0 ≤ quad ∧ quad ≤ 24 ∧ 0 ≤ yr ∧ yr ≤ 3 :=
    ⟨yoe / 100, yoe % 100 / 4, yoe % 4, by omega, by omega, by omega, by omega, by omega,
      by omega, by omega⟩
  have h4 : yoe / 4 = 25 * cent + quad := by omega
  have h100 : yoe / 100 = cent := by omega
  have hdoe : dayOfEra yoe doy = 36524 * cent + 1461 * quad + 365 * yr + doy := by
    simp only [dayOfEra, h4, h100]
    omega
  rw [hdoe, hyoe]
  have hcent : (36524 * cent + 1461 * quad + 365 * yr + doy) / 36524 = cent := by omega
  have hdoc : 36524 * cent + 1461 * quad + 365 * yr + doy - 36524 * cent =
      1461 * quad + 365 * yr + doy := by omega
  have hquad : (1461 * quad + 365 * yr + doy) / 1461 = quad := by omega
  have hdoq : (1461 * quad + 365 * yr + doy) % 1461 = 365 * yr + doy := by omega
  have hyr : (365 * yr + doy) / 365 = yr := by omega
  have hn4 : ¬ cent ≥ 4 := by omega
  have hn4' : ¬ yr ≥ 4 := by omega
  simp only [yearOfEra, hcent, hn4, if_false, hdoc, hquad, hdoq, hyr, hn4', Prod.mk.injEq]
  exact ⟨trivial, by omega⟩

theorem monthDay_spec (doy : Int) (h0 : 0 ≤ doy) (h1 : doy ≤ 365) :
    1 ≤ (monthDay doy).1 ∧ (monthDay doy).1 ≤ 12 ∧
    1 ≤ (monthDay doy).2 ∧ (monthDay doy).2 ≤ 31 ∧
    dayOfYear (monthDay doy).1 (monthDay doy).2 = doy := by
  simp only [monthDay, dayOfYear]
  split_ifs <;> omega

theorem monthDay_dayOfYear (m d : Int) (hm1 : 1 ≤ m) (hm2 : m ≤ 12) (hd1 : 1 ≤ d)
    (hd2 : d ≤ 28) :
    monthDay (dayOfYear m d) = (m, d) ∧ 0 ≤ dayOfYear m d ∧ dayOfYear m d ≤ 364 := by
  interval_cases m <;> simp only [monthDay, dayOfYear, Prod.mk.injEq] <;> norm_num <;>
    split_ifs <;> omega

/-- The civil date of a day number has a month from 1 to 12 and a day from 1 to
31, and gives the day number back. -/
theorem daysFromCivil_civilFromDays (z : Int) :
    1 ≤ (civilFromDays z).2.1 ∧ (civilFromDays z).2.1 ≤ 12 ∧
    1 ≤ (civilFromDays z).2.2 ∧ (civilFromDays z).2.2 ≤ 31 ∧
    daysFromCivil (civilFromDays z).1 (civilFromDays z).2.1 (civilFromDays z).2.2 = z := by
  have h0 : 0 ≤ (z + 719468) % 146097 := Int.emod_nonneg _ (by decide)
  have h1 : (z + 719468) % 146097 < 146097 := Int.emod_lt_of_pos _ (by decide)
  obtain ⟨hy0, hy1, hd0, hd1, hdoe⟩ := yearOfEra_spec _ h0 h1
  obtain ⟨hm1, hm2, hday1, hday2, hdoy⟩ := monthDay_spec _ hd0 hd1
  refine ⟨hm1, hm2, hday1, hday2, ?_⟩
  simp only [civilFromDays, daysFromCivil]
  rw [hdoy]
  generalize yearOfEra ((z + 719468) % 146097) = yd at *
  generalize monthDay yd.2 = md at *
  have hy : (if md.1 ≤ 2 then 400 * ((z + 719468) / 146097) + yd.1 +
      (if md.1 ≤ 2 then 1 else 0) - 1
      else 400 * ((z + 719468) / 146097) + yd.1 + (if md.1 ≤ 2 then 1 else 0)) =
      400 * ((z + 719468) / 146097) + yd.1 := by
    split_ifs <;> omega
  rw [hy]
  have hdiv : (400 * ((z + 719468) / 146097) + yd.1) / 400 = (z + 719468) / 146097 := by omega
  have hmod : (400 * ((z + 719468) / 146097) + yd.1) % 400 = yd.1 := by omega
  rw [hdiv, hmod, hdoe]
  omega

/-- A date with a day up to 28 is the civil date of its day number. -/
theorem civilFromDays_daysFromCivil (y m d : Int) (hm1 : 1 ≤ m) (hm2 : m ≤ 12) (hd1 : 1 ≤ d)
    (hd2 : d ≤ 28) : civilFromDays (daysFromCivil y m d) = (y, m, d) := by
  obtain ⟨hmd, hdoy0, hdoy1⟩ := monthDay_dayOfYear m d hm1 hm2 hd1 hd2
  generalize hy' : (if m ≤ 2 then y - 1 else y) = y' at *
  have hyoe0 : 0 ≤ y' % 400 := Int.emod_nonneg _ (by decide)
  have hyoe1 : y' % 400 ≤ 399 := by omega
  have hyd := yearOfEra_dayOfEra (y' % 400) (dayOfYear m d) hyoe0 hyoe1 hdoy0 hdoy1
  have hdoe0 : 0 ≤ dayOfEra (y' % 400) (dayOfYear m d) := by
    simp only [dayOfEra]
    omega
  have hdoe1 : dayOfEra (y' % 400) (dayOfYear m d) < 146097 := by
    simp only [dayOfEra]
    omega
  have hz : daysFromCivil y m d + 719468 =
      146097 * (y' / 400) + dayOfEra (y' % 400) (dayOfYear m d) := by
    simp only [daysFromCivil, hy']
    omega
  have hdiv : (146097 * (y' / 400) + dayOfEra (y' % 400) (dayOfYear m d)) / 146097 =
      y' / 400 := by omega
  have hmod : (146097 * (y' / 400) + dayOfEra (y' % 400) (dayOfYear m d)) % 146097 =
      dayOfEra (y' % 400) (dayOfYear m d) := by omega
  simp only [civilFromDays, hz, hdiv, hmod, hyd, hmd, Prod.mk.injEq, and_true]
  split_ifs at hy' ⊢ <;> omega

/-- The day number is linear in the day of the month. -/
theorem daysFromCivil_add (y m d k : Int) :
    daysFromCivil y m (d + k) = daysFromCivil y m d + k := by
  simp only [daysFromCivil, dayOfEra, dayOfYear]
  omega

theorem wrapInt64_of_range (x : Int) (h1 : -2 ^ 63 ≤ x) (h2 : x < 2 ^ 63) : wrapInt64 x = x := by
  unfold wrapInt64
  omega

theorem wrapInt64_congr (x y k : Int) (h : x = y + k * 2 ^ 64) : wrapInt64 x = wrapInt64 y := by
  unfold wrapInt64
  omega

/-- The year of a day number lies within a year of the day number counted in
years of 365 days. -/
theorem civilFromDays_year_range (z : Int) :
    400 * ((z + 719468) / 146097) ≤ (civilFromDays z).1 ∧
    (civilFromDays z).1 ≤ 400 * ((z + 719468) / 146097) + 400 := by
  have h0 : 0 ≤ (z + 719468) % 146097 := Int.emod_nonneg _ (by decide)
  have h1 : (z + 719468) % 146097 < 146097 := Int.emod_lt_of_pos _ (by decide)
  obtain ⟨hy0, hy1, _, _, _⟩ := yearOfEra_spec _ h0 h1
  simp only [civilFromDays]
  split_ifs <;> omega

theorem abs_range (t : Time) : 0 ≤ t.abs ∧ t.abs < 2 ^ 64 := by
  unfold Time.abs wrapUint64
  omega

theorem day_range (t : Time) :
    -106751991073094 ≤ t.day ∧ t.day < 106751991261508 := by
  have h := abs_range t
  simp only [Time.day, absoluteZeroDay, internalToAbsolute, unixToInternal, secondsPerDay]
  omega

/-- The year of a `Time` is an `int`, far from the limits of `int`. -/
theorem Year_range (t : Time) : -2 ^ 40 ≤ Year t ∧ Year t < 2 ^ 40 := by
  have h := day_range t
  have hy := civilFromDays_year_range t.day
  unfold Year
  omega

theorem Date_of_month (y m d h mi s ns : Int) (hm1 : 1 ≤ m) (hm2 : m ≤ 12)
    (hn1 : 0 ≤ ns) (hn2 : ns < 1000000000) :
    Date y m d h mi s ns =
      { sec := wrapInt64 (daysFromCivil y m d * secondsPerDay + (h * 3600 + mi * 60 + s) +
          unixToInternal),
        nsec := ns } := by
  have h1 : (m - 1) / 12 = 0 := by omega
  have h2 : (m - 1) % 12 + 1 = m := by omega
  have h3 : ns / 1000000000 = 0 := by omega
  have h4 : ns % 1000000000 = ns := by omega
  simp only [Date, h1, h2, h3, h4, add_zero]

/-- `time.Date` at the date of `t` moved by `k` days: the second count is that
of the day of `t` moved by `k` days, plus the clock, reduced modulo 2^64. -/
theorem Date_of_time (t : Time) (k h mi s ns : Int) (hn1 : 0 ≤ ns) (hn2 : ns < 1000000000) :
    Date (Year t) (Month t) (Day t + k) h mi s ns =
      { sec := wrapInt64 ((t.day + k) * secondsPerDay + (h * 3600 + mi * 60 + s) +
          unixToInternal),
        nsec := ns } := by
  obtain ⟨hm1, hm2, _, _, hdays⟩ := daysFromCivil_civilFromDays t.day
  unfold Year Month Day
  rw [Date_of_month _ _ _ _ _ _ _ hm1 hm2 hn1 hn2, daysFromCivil_add, hdays]

/-- `AddDate(0, 0, k)` moves the second count by `k` days of 86400 seconds,
modulo 2^64. -/
theorem AddDate_days (t : Time) (k : Int) (hk1 : -2 ^ 63 ≤ k) (hk2 : k < 2 ^ 63 - 31)
    (hn1 : 0 ≤ t.nsec) (hn2 : t.nsec < 1000000000) :
    AddDate t 0 0 k = { sec := wrapInt64 (t.sec + k * secondsPerDay), nsec := t.nsec } := by
  obtain ⟨hm1, hm2, hd1, hd2, _⟩ := daysFromCivil_civilFromDays t.day
  have hY := Year_range t
  have e1 : wrapInt64 (Year t + 0) = Year t := by
    rw [add_zero]
    exact wrapInt64_of_range _ (by omega) (by omega)
  have e2 : wrapInt64 (Month t + 0) = Month t := by
    rw [add_zero]
    exact wrapInt64_of_range _ (by unfold Month; omega) (by unfold Month; omega)
  have e3 : wrapInt64 (Day t + k) = Day t + k :=
    wrapInt64_of_range _ (by unfold Day; omega) (by unfold Day; omega)
  unfold AddDate
  simp only [e1, e2, e3]
  rw [Date_of_time _ _ _ _ _ _ hn1 hn2]
  congr 1
  have ha := abs_range t
  have hmod : ∃ j : Int, t.abs = t.sec + internalToAbsolute + j * 2 ^ 64 :=
    ⟨-((t.sec + internalToAbsolute) / 2 ^ 64), by unfold Time.abs wrapUint64; omega⟩
  obtain ⟨j, hj⟩ := hmod
  refine wrapInt64_congr _ _ j ?_
  simp only [Clock, Time.day, absoluteZeroDay, internalToAbsolute, unixToInternal,
    secondsPerDay] at hj ⊢
  generalize t.abs = a at *
  omega

/-- `time.Date` at the date of an instant not before the zero of the absolute
second count is the midnight that starts the day of the instant. -/
theorem Date_midnight (now : Time) (h1 : -internalToAbsolute ≤ now.sec) (h2 : now.sec < 2 ^ 63) :
    Date (Year now) (Month now) (Day now) 0 0 0 0 =
      { sec := now.sec / secondsPerDay * secondsPerDay, nsec := 0 } := by
  have h := Date_of_time now 0 0 0 0 0 (le_refl 0) (by decide)
  rw [add_zero] at h
  rw [h]
  congr 1
  have ha : now.abs = now.sec + internalToAbsolute := by
    unfold Time.abs wrapUint64
    simp only [internalToAbsolute] at h1 ⊢
    omega
  simp only [Time.day, ha, absoluteZeroDay, internalToAbsolute, unixToInternal,
    secondsPerDay, wrapInt64] at h1 ⊢
  omega

/-- The day on which the date of an instant not before the zero of the absolute
second count is read is the day of its second count. -/
theorem day_of_sec (t : Time) (h1 : -internalToAbsolute ≤ t.sec) (h2 : t.sec < 2 ^ 63) :
    t.day = t.sec / secondsPerDay - unixToInternal / secondsPerDay ∧
    t.abs % secondsPerDay = t.sec % secondsPerDay := by
  have ha : t.abs = t.sec + internalToAbsolute := by
    unfold Time.abs wrapUint64
    simp only [internalToAbsolute] at h1 ⊢
    omega
  simp only [Time.day, ha, absoluteZeroDay, internalToAbsolute, unixToInternal,
    secondsPerDay] at h1 ⊢
  omega

theorem wrapInt64_neg (d : Int) (h0 : 0 ≤ d) (h1 : d < 2 ^ 63) : wrapInt64 (-d) = -d :=
  wrapInt64_of_range _ (by omega) (by omega)

/-- The two instants of `DailyPeriod`: the midnight of the current day moved
back by the delay, and that moved back by one more day, each modulo 2^64. -/
theorem DailyPeriod_eq (now : Time) (delayDays : Int) (h1 : -internalToAbsolute ≤ now.sec)
    (h2 : now.sec < 2 ^ 63) (hd0 : 0 ≤ delayDays) (hd1 : delayDays < 2 ^ 63) :
    DailyPeriod now delayDays =
      { Start :=
          { sec := wrapInt64 (wrapInt64 (now.sec / secondsPerDay * secondsPerDay +
              -delayDays * secondsPerDay) + -1 * secondsPerDay),
            nsec := 0 },
        End :=
          { sec := wrapInt64 (now.sec / secondsPerDay * secondsPerDay +
              -delayDays * secondsPerDay),
            nsec := 0 } } := by
  simp only [DailyPeriod, Date_midnight now h1 h2, wrapInt64_neg delayDays hd0 hd1]
  rw [AddDate_days _ (-delayDays) (by omega) (by omega) (le_refl 0) (by norm_num)]
  rw [AddDate_days _ (-1) (by omega) (by omega) (le_refl 0) (by norm_num)]

/-- The End of `MonthlyPeriod` is the End of `DailyPeriod`. -/
theorem MonthlyPeriod_End (now : Time) (delayDays : Int) :
    (MonthlyPeriod now delayDays).End = (DailyPeriod now delayDays).End :=
  rfl

theorem MonthlyPeriod_Start (now : Time) (delayDays : Int) :
    (MonthlyPeriod now delayDays).Start =
      Date (Year (MonthlyPeriod now delayDays).End) (Month (MonthlyPeriod now delayDays).End)
        1 0 0 0 0 :=
  rfl

/-- From the zero of the absolute second count on, the day of the month minus
one is not more than the days since that zero. -/
theorem day_le_of_zero (n : Int) (h0 : 0 ≤ n) :
    (civilFromDays (n + absoluteZeroDay)).2.2 - 1 ≤ n := by
  obtain ⟨_, _, _, hd2, _⟩ := daysFromCivil_civilFromDays (n + absoluteZeroDay)
  by_cases h : 30 ≤ n
  · omega
  · have h30 : n < 30 := by omega
    interval_cases n <;> decide

/-- C11: for a current instant not before the zero of the absolute second count
and a delay `d ≥ 0` that leaves the day before End not before that zero,
`DailyPeriod(d)` returns as End the instant 00:00 UTC of the current UTC day
moved back `d` days, and as Start the instant one day of 24 hours before End;
End is not later than the current instant moved back `d` days. -/
theorem DailyPeriod_window (now : Time) (delayDays : Int)
    (hnow : -internalToAbsolute ≤ now.sec) (hnow2 : now.sec < 2 ^ 63) (hd : 0 ≤ delayDays)
    (hrange : -internalToAbsolute ≤
      (now.sec / secondsPerDay - delayDays - 1) * secondsPerDay) :
    (DailyPeriod now delayDays).End.sec = (now.sec / secondsPerDay - delayDays) * secondsPerDay ∧
    (DailyPeriod now delayDays).End.nsec = 0 ∧
    Clock (DailyPeriod now delayDays).End = (0, 0, 0) ∧
    civilFromDays (DailyPeriod now delayDays).End.day = civilFromDays (now.day - delayDays) ∧
    (DailyPeriod now delayDays).Start.sec = (DailyPeriod now delayDays).End.sec - secondsPerDay ∧
    (DailyPeriod now delayDays).Start.nsec = 0 ∧
    (DailyPeriod now delayDays).End.sec ≤ now.sec - delayDays * secondsPerDay := by
  have hd1 : delayDays < 2 ^ 63 := by
    simp only [internalToAbsolute, secondsPerDay] at hrange
    omega
  rw [DailyPeriod_eq now delayDays hnow hnow2 hd hd1]
  have hE : wrapInt64 (now.sec / secondsPerDay * secondsPerDay + -delayDays * secondsPerDay) =
      (now.sec / secondsPerDay - delayDays) * secondsPerDay := by
    rw [wrapInt64_of_range]
    · ring
    · simp only [internalToAbsolute, secondsPerDay] at hrange ⊢
      omega
    · simp only [internalToAbsolute, secondsPerDay] at hrange ⊢
      omega
  have hS : wrapInt64 ((now.sec / secondsPerDay - delayDays) * secondsPerDay +
      -1 * secondsPerDay) =
      (now.sec / secondsPerDay - delayDays) * secondsPerDay - secondsPerDay := by
    rw [wrapInt64_of_range]
    · ring
    · simp only [internalToAbsolute, secondsPerDay] at hrange ⊢
      omega
    · simp only [internalToAbsolute, secondsPerDay] at hrange ⊢
      omega
  simp only [hE, hS]
  have hE1 : -internalToAbsolute ≤ (now.sec / secondsPerDay - delayDays) * secondsPerDay := by
    simp only [internalToAbsolute, secondsPerDay] at hrange ⊢
    omega
  have hE2 : (now.sec / secondsPerDay - delayDays) * secondsPerDay < 2 ^ 63 := by
    simp only [secondsPerDay]
    omega
  obtain ⟨hday, hclock⟩ := day_of_sec
    { sec := (now.sec / secondsPerDay - delayDays) * secondsPerDay, nsec := 0 } hE1 hE2
  obtain ⟨hnday, _⟩ := day_of_sec now hnow hnow2
  refine ⟨trivial, trivial, ?_, ?_, trivial, trivial, ?_⟩
  · simp only [Clock, hclock]
    simp only [secondsPerDay]
    have h0 : (now.sec / 86400 - delayDays) * 86400 % 86400 = 0 := Int.mul_emod_left _ _
    simp [h0]
  · rw [hday, hnday]
    congr 1
    simp only [secondsPerDay, unixToInternal]
    omega
  · simp only [secondsPerDay]
    omega

theorem DailyPeriod_window_witness :
    (DailyPeriod sampleNow 2).End.sec = (sampleNow.sec / secondsPerDay - 2) * secondsPerDay ∧
    (DailyPeriod sampleNow 2).End.nsec = 0 ∧
    Clock (DailyPeriod sampleNow 2).End = (0, 0, 0) ∧
    civilFromDays (DailyPeriod sampleNow 2).End.day = civilFromDays (sampleNow.day - 2) ∧
    (DailyPeriod sampleNow 2).Start.sec = (DailyPeriod sampleNow 2).End.sec - secondsPerDay ∧
    (DailyPeriod sampleNow 2).Start.nsec = 0 ∧
    (DailyPeriod sampleNow 2).End.sec ≤ sampleNow.sec - 2 * secondsPerDay :=
  DailyPeriod_window sampleNow 2 (by decide) (by decide) (by decide) (by decide)

/-- C11 as stated fails where the second count wraps: at 2024-03-15 10:30:00
UTC and the largest delay an `int` holds, `DailyPeriod` returns as End the
midnight of 2024-03-16, the day after the current day, and as Start the
midnight of the current day. -/
theorem DailyPeriod_wraps_at_maxInt :
    0 ≤ maxInt ∧
    DailyPeriod sampleNow maxInt =
      { Start := { sec := 63846057600, nsec := 0 }, End := { sec := 63846144000, nsec := 0 } } ∧
    civilFromDays sampleNow.day = (2024, 3, 15) ∧
    civilFromDays (DailyPeriod sampleNow maxInt).End.day = (2024, 3, 16) ∧
    (DailyPeriod sampleNow maxInt).End.sec ≠
      (sampleNow.sec / secondsPerDay - maxInt) * secondsPerDay ∧
    ¬ (DailyPeriod sampleNow maxInt).End.sec ≤ sampleNow.sec - maxInt * secondsPerDay ∧
    sampleNow.sec < (DailyPeriod sampleNow maxInt).End.sec := by
  decide!

/-- C12: for a current instant not before the zero of the absolute second count
and a delay `d ≥ 0` that leaves End not before that zero, `MonthlyPeriod(d)`
returns as End the instant 00:00 UTC of the current UTC day moved back `d` days,
and as Start the instant 00:00 UTC of day 1 of the month and year of End; Start
is not later than End and equals End exactly when End falls on the first day of
its month. -/
theorem MonthlyPeriod_window (now : Time) (delayDays : Int)
    (hnow : -internalToAbsolute ≤ now.sec) (hnow2 : now.sec < 2 ^ 63) (hd : 0 ≤ delayDays)
    (hrange : -internalToAbsolute ≤ (now.sec / secondsPerDay - delayDays) * secondsPerDay) :
    (MonthlyPeriod now delayDays).End.sec =
      (now.sec / secondsPerDay - delayDays) * secondsPerDay ∧
    (MonthlyPeriod now delayDays).End.nsec = 0 ∧
    civilFromDays (MonthlyPeriod now delayDays).End.day = civilFromDays (now.day - delayDays) ∧
    (MonthlyPeriod now delayDays).Start.nsec = 0 ∧
    Clock (MonthlyPeriod now delayDays).Start = (0, 0, 0) ∧
    Year (MonthlyPeriod now delayDays).Start = Year (MonthlyPeriod now delayDays).End ∧
    Month (MonthlyPeriod now delayDays).Start = Month (MonthlyPeriod now delayDays).End ∧
    Day (MonthlyPeriod now delayDays).Start = 1 ∧
    (MonthlyPeriod now delayDays).Start.sec =
      (MonthlyPeriod now delayDays).End.sec -
        (Day (MonthlyPeriod now delayDays).End - 1) * secondsPerDay ∧
    (MonthlyPeriod now delayDays).Start.sec ≤ (MonthlyPeriod now delayDays).End.sec ∧
    ((MonthlyPeriod now delayDays).Start = (MonthlyPeriod now delayDays).End ↔
      Day (MonthlyPeriod now delayDays).End = 1) := by
  have hd1 : delayDays < 2 ^ 63 := by
    simp only [internalToAbsolute, secondsPerDay] at hrange
    omega
  have hS := MonthlyPeriod_Start now delayDays
  have hEnd : (MonthlyPeriod now delayDays).End =
      { sec := (now.sec / secondsPerDay - delayDays) * secondsPerDay, nsec := 0 } := by
    rw [MonthlyPeriod_End, DailyPeriod_eq now delayDays hnow hnow2 hd hd1]
    show Time.mk _ _ = _
    congr 1
    rw [wrapInt64_of_range]
    · ring
    · simp only [internalToAbsolute, secondsPerDay] at hrange ⊢
      omega
    · simp only [internalToAbsolute, secondsPerDay] at hrange ⊢
      omega
  generalize (MonthlyPeriod now delayDays).End = E at hS hEnd ⊢
  generalize (MonthlyPeriod now delayDays).Start = S at hS ⊢
  have hE2 : E.sec < 2 ^ 63 := by
    rw [hEnd]
    simp only [secondsPerDay]
    omega
  have hE1 : -internalToAbsolute ≤ E.sec := by
    rw [hEnd]
    exact hrange
  obtain ⟨hday, hclock⟩ := day_of_sec E hE1 hE2
  obtain ⟨hnday, _⟩ := day_of_sec now hnow hnow2
  obtain ⟨hm1, hm2, hday1, hday2, hdays⟩ := daysFromCivil_civilFromDays E.day
  have hmid : E.sec % secondsPerDay = 0 := by
    rw [hEnd]
    exact Int.mul_emod_left _ _
  -- the days of End since the zero of the absolute second count
  have hzero : Day E - 1 ≤ E.abs / secondsPerDay := by
    have h := day_le_of_zero (E.abs / secondsPerDay)
      (Int.ediv_nonneg (abs_range E).1 (by decide))
    exact h
  have habs : E.abs = E.sec + internalToAbsolute := by
    unfold Time.abs wrapUint64
    simp only [internalToAbsolute] at hE1 ⊢
    omega
  have hd' : Day E + (1 - Day E) = 1 := by ring
  have hDate := Date_of_time E (1 - Day E) 0 0 0 0 (le_refl 0) (by norm_num)
  rw [hd'] at hDate
  have hSsec : S.sec = E.sec - (Day E - 1) * secondsPerDay ∧ S.nsec = 0 := by
    rw [hS, hDate]
    refine ⟨?_, rfl⟩
    show wrapInt64 _ = _
    have hD1 : 1 ≤ Day E := hday1
    have hD2 : Day E ≤ 31 := hday2
    simp only [hday, secondsPerDay, unixToInternal, internalToAbsolute, wrapInt64] at *
    generalize Day E = dd at *
    omega
  have hS1 : -internalToAbsolute ≤ S.sec := by
    rw [hSsec.1]
    simp only [habs, secondsPerDay, internalToAbsolute] at hzero hmid ⊢
    generalize Day E = dd at *
    omega
  have hS2 : S.sec < 2 ^ 63 := by
    rw [hSsec.1]
    have hD1 : 1 ≤ Day E := hday1
    simp only [secondsPerDay]
    generalize Day E = dd at *
    omega
  obtain ⟨hSday, hSclock⟩ := day_of_sec S hS1 hS2
  have hSd : S.day = E.day + (1 - Day E) := by
    rw [hSday, hday, hSsec.1]
    simp only [secondsPerDay] at hmid ⊢
    generalize Day E = dd at *
    omega
  have hcivil : civilFromDays S.day = (Year E, Month E, 1) := by
    have hadd := daysFromCivil_add (Year E) (Month E) (Day E) (1 - Day E)
    have hdays' : daysFromCivil (Year E) (Month E) (Day E) = E.day := hdays
    rw [hd', hdays'] at hadd
    rw [hSd, ← hadd]
    exact civilFromDays_daysFromCivil _ _ 1 hm1 hm2 (le_refl 1) (by decide)
  have hD1 : 1 ≤ Day E := hday1
  refine ⟨by rw [hEnd], by rw [hEnd], ?_, hSsec.2, ?_, ?_, ?_, ?_, hSsec.1, ?_, ?_⟩
  · rw [hday, hnday, hEnd]
    congr 1
    simp only [secondsPerDay, unixToInternal]
    omega
  · have h0 : S.sec % secondsPerDay = 0 := by
      rw [hSsec.1]
      simp only [secondsPerDay] at hmid ⊢
      generalize Day E = dd at *
      omega
    simp only [Clock, hSclock, h0]
    decide
  · show (civilFromDays _).1 = _
    rw [hcivil]
  · show (civilFromDays _).2.1 = _
    rw [hcivil]
  · show (civilFromDays _).2.2 = _
    rw [hcivil]
  · rw [hSsec.1]
    simp only [secondsPerDay]
    generalize Day E = dd at *
    omega
  · constructor
    · intro heq
      have h := hSsec.1
      rw [heq] at h
      simp only [secondsPerDay] at h
      generalize Day E = dd at *
      omega
    · intro h1
      have hs := hSsec.1
      rw [h1] at hs
      have hn : S.nsec = E.nsec := by rw [hSsec.2, hEnd]
      cases S
      cases E
      simp only [Time.mk.injEq] at hs hn ⊢
      exact ⟨by simpa using hs, hn⟩

theorem MonthlyPeriod_window_witness :
    (MonthlyPeriod sampleNow 15).End.sec =
      (sampleNow.sec / secondsPerDay - 15) * secondsPerDay ∧
    (MonthlyPeriod sampleNow 15).End.nsec = 0 ∧
    civilFromDays (MonthlyPeriod sampleNow 15).End.day = civilFromDays (sampleNow.day - 15) ∧
    (MonthlyPeriod sampleNow 15).Start.nsec = 0 ∧
    Clock (MonthlyPeriod sampleNow 15).Start = (0, 0, 0) ∧
    Year (MonthlyPeriod sampleNow 15).Start = Year (MonthlyPeriod sampleNow 15).End ∧
    Month (MonthlyPeriod sampleNow 15).Start = Month (MonthlyPeriod sampleNow 15).End ∧
    Day (MonthlyPeriod sampleNow 15).Start = 1 ∧
    (MonthlyPeriod sampleNow 15).Start.sec =
      (MonthlyPeriod sampleNow 15).End.sec -
        (Day (MonthlyPeriod sampleNow 15).End - 1) * secondsPerDay ∧
    (MonthlyPeriod sampleNow 15).Start.sec ≤ (MonthlyPeriod sampleNow 15).End.sec ∧
    ((MonthlyPeriod sampleNow 15).Start = (MonthlyPeriod sampleNow 15).End ↔
      Day (MonthlyPeriod sampleNow 15).End = 1) :=
  MonthlyPeriod_window sampleNow 15 (by decide) (by decide) (by decide) (by decide)

/-- C12 as stated fails where the second count wraps: at 2024-03-15 10:30:00
UTC and the largest delay an `int` holds, `MonthlyPeriod` returns as End the
midnight of 2024-03-16, the day after the current day, and as Start the
midnight of 2024-03-01. -/
theorem MonthlyPeriod_wraps_at_maxInt :
    0 ≤ maxInt ∧
    MonthlyPeriod sampleNow maxInt =
      { Start := { sec := 63844848000, nsec := 0 }, End := { sec := 63846144000, nsec := 0 } } ∧
    civilFromDays sampleNow.day = (2024, 3, 15) ∧
    civilFromDays (MonthlyPeriod sampleNow maxInt).End.day = (2024, 3, 16) ∧
    civilFromDays (MonthlyPeriod sampleNow maxInt).Start.day = (2024, 3, 1) ∧
    (MonthlyPeriod sampleNow maxInt).End.sec ≠
      (sampleNow.sec / secondsPerDay - maxInt) * secondsPerDay ∧
    sampleNow.sec < (MonthlyPeriod sampleNow maxInt).End.sec := by
  decide!

/-- The calendar of the model on known dates: 2024-03-15 10:30:00, the leap days
of 2000 and 2024, the missing leap days of 1900 and 2100, a day before 1970,
the turn of a year, the first day of year 1 and the first day of the absolute
second count. -/
theorem calendar_samples :
    (Year sampleNow, Month sampleNow, Day sampleNow) = (2024, 3, 15) ∧
    Clock sampleNow = (10, 30, 0) ∧
    civilFromDays 11016 = (2000, 2, 29) ∧
    civilFromDays 19782 = (2024, 2, 29) ∧
    civilFromDays (47541 - 1) = (2100, 2, 28) ∧
    civilFromDays (-25508 - 1) = (1900, 2, 28) ∧
    civilFromDays (-1) = (1969, 12, 31) ∧
    civilFromDays (20088 + 1) = (2025, 1, 1) ∧
    civilFromDays (-(unixToInternal / secondsPerDay)) = (1, 1, 1) ∧
    civilFromDays absoluteZeroDay = (-292277022399, 1, 1) ∧
    internalToAbsolute = 292277022400 / 400 * 146097 * secondsPerDay ∧
    Date 2024 3 15 0 0 0 0 = { sec := 63846057600, nsec := 0 } ∧
    Date 2024 3 0 0 0 0 0 = { sec := 63844761600, nsec := 0 } ∧
    Date 2025 0 31 0 0 0 0 = { sec := 63871200000, nsec := 0 } ∧
    Date 1970 1 1 0 0 0 0 = { sec := unixToInternal, nsec := 0 } ∧
    AddDate sampleNow 0 0 (-15) = { sec := 63844799400, nsec := 250 } := by
  decide!

/-- The periods for the current instant 2024-03-15 10:30:00 UTC: with a delay
of 2 days the day is 2024-03-12 to 2024-03-13 and the month 2024-03-01 to
2024-03-13; with a delay of 14 days End is 2024-03-01 and the monthly window is
empty; with a delay of 15 days End is the leap day 2024-02-29 and the month
starts on 2024-02-01. -/
theorem period_samples :
    DailyPeriod sampleNow 2 =
      { Start := { sec := 63845798400, nsec := 0 }, End := { sec := 63845884800, nsec := 0 } } ∧
    MonthlyPeriod sampleNow 2 =
      { Start := { sec := 63844848000, nsec := 0 }, End := { sec := 63845884800, nsec := 0 } } ∧
    MonthlyPeriod sampleNow 14 =
      { Start := { sec := 63844848000, nsec := 0 }, End := { sec := 63844848000, nsec := 0 } } ∧
    MonthlyPeriod sampleNow 15 =
      { Start := { sec := 63842342400, nsec := 0 }, End := { sec := 63844761600, nsec := 0 } } := by
  decide!

/-! ## The order of the collected results -/

theorem overlay_nil (prior : Option Float64) (L : List String) : overlay [] prior L = prior :=
  rfl

theorem overlay_append (xs ys : List (List String × Float64)) (prior : Option Float64) (L : List String) :
    overlay (xs ++ ys) prior L = overlay ys (overlay xs prior L) L := by
  unfold overlay
  rw [List.reverse_append, lookup_append_rows]
  cases List.lookup L ys.reverse <;> rfl

theorem overlay_of_not_mem (ws : List (List String × Float64)) (prior : Option Float64) (L : List String)
    (h : L ∉ ws.map Prod.fst) : overlay ws prior L = prior := by
  unfold overlay
  rw [lookup_rows_eq_none L ws.reverse (by rw [List.map_reverse]; simpa using h)]

/-- A write that succeeds changes the row of its tuple and nothing else. -/
theorem setGauge_some (c c' : CostCollector) (name : String) (lvs : List String) (v : Float64)
    (h : setGauge c name lvs v = some c') :
    SameSchema c c' ∧
      ∀ n L, c'.value? n L = if n = name ∧ L = lvs then some v else c.value? n L := by
  cases hn : labelNamesOf c name with
  | none =>
    have hg : c.metrics.lookup name = none := by
      unfold labelNamesOf at hn
      cases hl : c.metrics.lookup name with
      | none => rfl
      | some g => simp [hl] at hn
    simp [setGauge, hg] at h
  | some names =>
    by_cases hl : lvs.length = names.length
    · obtain ⟨c'', h'', hs, hv⟩ := setGauge_ok c name names lvs v hn hl
      rw [h] at h''
      cases h''
      exact ⟨hs, hv⟩
    · rw [setGauge_mismatch c name names lvs v hn hl] at h
      cases h

theorem applyWrites_some (name : String) (ws : List (List String × Float64)) :
    ∀ c c' : CostCollector, applyWrites c name ws = some c' →
      SameSchema c c' ∧
        ∀ n L, c'.value? n L =
          if n = name then overlay ws (c.value? n L) L else c.value? n L := by
  induction ws with
  | nil =>
    intro c c' h
    rw [applyWrites_nil] at h
    cases h
    exact ⟨sameSchema_refl c, fun n L => by simp [overlay_nil]⟩
  | cons w rest ih =>
    intro c c' h
    rw [applyWrites_cons] at h
    cases h₁ : setGauge c name w.1 w.2 with
    | none => simp [h₁] at h
    | some c₁ =>
      rw [h₁] at h
      obtain ⟨hs₁, hv₁⟩ := setGauge_some c c₁ name w.1 w.2 h₁
      obtain ⟨hs₂, hv₂⟩ := ih c₁ c' h
      refine ⟨sameSchema_trans hs₁ hs₂, fun n L => ?_⟩
      rw [hv₂ n L, hv₁ n L]
      by_cases hn : n = name
      · have hw : w :: rest = [w] ++ rest := rfl
        simp only [hn, if_true, true_and]
        rw [hw, overlay_append]
        congr 1
        obtain ⟨a, b⟩ := w
        unfold overlay
        simp only [List.reverse_cons, List.reverse_nil, List.nil_append, lookup_rows_cons]
        by_cases hL : L = a <;> simp [hL, List.lookup]
      · simp [hn]

/-- One step of the inner loop of the publish step that completes writes the
rows of its metric. -/
theorem publishMetric_some (ar : accountResults) (s s' : CostCollector)
    (metricCfg : MetricConfig) (h : publishMetric ar s metricCfg = some s') :
    SameSchema s s' ∧
      ∀ n L, s'.value? n L = overlay (metricRows ar n metricCfg) (s.value? n L) L := by
  unfold publishMetric at h
  cases hres : ar.results.lookup metricCfg.MetricName with
  | none =>
    rw [hres] at h
    cases h
    refine ⟨sameSchema_refl s, fun n L => ?_⟩
    simp [metricRows, hres, overlay_nil]
  | some result =>
    rw [hres] at h
    simp only [updateMetrics_eq] at h
    obtain ⟨hs, hv⟩ := applyWrites_some _ _ s s' h
    refine ⟨hs, fun n L => ?_⟩
    rw [hv n L]
    by_cases hn : n = metricCfg.MetricName
    · subst hn
      simp [metricRows, hres]
    · have hn' : ¬ metricCfg.MetricName = n := fun e => hn e.symm
      simp [metricRows, hn, hn', overlay_nil]

/-- A loop of steps that write rows writes the rows of all its steps, in order. -/
theorem foldlM_overlay {α : Type} (f : CostCollector → α → Option CostCollector)
    (Inv : CostCollector → Prop) (rows : α → String → List (List String × Float64)) (l : List α)
    (hstep : ∀ s a s', Inv s → f s a = some s' →
      Inv s' ∧ ∀ n L, s'.value? n L = overlay (rows a n) (s.value? n L) L) :
    ∀ s s', Inv s → l.foldlM f s = some s' →
      Inv s' ∧ ∀ n L, s'.value? n L = overlay (l.flatMap (rows · n)) (s.value? n L) L := by
  induction l with
  | nil =>
    intro s s' hs h
    simp only [List.foldlM_nil, Option.pure_def, Option.some.injEq] at h
    subst h
    exact ⟨hs, fun n L => by simp [overlay_nil]⟩
  | cons a rest ih =>
    intro s s' hs h
    rw [List.foldlM_cons] at h
    cases h₁ : f s a with
    | none => simp [h₁] at h
    | some s₁ =>
      rw [h₁] at h
      simp only [Option.bind_eq_bind, Option.some_bind] at h
      obtain ⟨hs₁, hv₁⟩ := hstep s a s₁ hs h₁
      obtain ⟨hs₂, hv₂⟩ := ih s₁ s' hs₁ h
      refine ⟨hs₂, fun n L => ?_⟩
      rw [hv₂ n L, hv₁ n L, List.flatMap_cons, overlay_append]

theorem publishAccount_some (c : CostCollector) (ar : accountResults) (s s' : CostCollector)
    (hs : SameSchema c s) (h : publishAccount s ar = some s') :
    SameSchema c s' ∧
      ∀ n L, s'.value? n L =
        overlay (accountRows c.config.Metrics ar n) (s.value? n L) L := by
  unfold publishAccount at h
  rw [hs.1] at h
  exact foldlM_overlay (publishMetric ar) (SameSchema c) (fun m n => metricRows ar n m)
    c.config.Metrics
    (fun t m t' ht hstep =>
      ⟨sameSchema_trans ht (publishMetric_some ar t t' m hstep).1,
        (publishMetric_some ar t t' m hstep).2⟩)
    s s' hs h

theorem value_resetAll (c : CostCollector) (n : String) (L : List String) :
    (resetAll c).value? n L = none := by
  unfold CostCollector.value? resetAll
  simp only [lookup_map_snd]
  cases c.metrics.lookup n <;> rfl

/-- After a publish step that completes, a tuple holds the value of its last
row among the rows of the collected accounts, and no value when it has no row. -/
theorem publish_some (c c' : CostCollector) (allResults : List accountResults)
    (h : publish c allResults = some c') :
    SameSchema c c' ∧
      ∀ n L, c'.value? n L =
        overlay (allResults.flatMap (fun ar => accountRows c.config.Metrics ar n)) none L := by
  rw [publish_eq] at h
  obtain ⟨hs, hv⟩ := foldlM_overlay publishAccount (SameSchema c)
    (fun ar n => accountRows c.config.Metrics ar n) allResults
    (fun s ar s' hs hstep => publishAccount_some c ar s s' hs hstep)
    (resetAll c) c' (sameSchema_resetAll c) h
  refine ⟨hs, fun n L => ?_⟩
  rw [hv n L, value_resetAll]

theorem head_buildLabelValues (account : AWSAccount) (metricCfg : MetricConfig)
    (keys : List String) :
    (buildLabelValues account metricCfg keys).head? = some account.AccountId := by
  rw [buildLabelValues_eq]
  rfl

/-- Every row that `updateMetrics` writes for an account starts with the id of
the account. -/
theorem head_of_mem_emittedRows (account : AWSAccount) (metricCfg : MetricConfig)
    (result : CostResult) (w : List String × Float64) (h : w ∈ emittedRows account metricCfg result) :
    w.1.head? = some account.AccountId := by
  unfold emittedRows at h
  cases hG : metricCfg.GroupBy with
  | none =>
    rw [hG] at h
    simp only [List.mem_singleton] at h
    rw [h]
    exact head_buildLabelValues _ _ _
  | some gb =>
    rw [hG] at h
    simp only at h
    by_cases hE : gb.Enabled = false
    · rw [if_pos hE, List.mem_singleton] at h
      rw [h]
      exact head_buildLabelValues _ _ _
    · rw [if_neg hE, List.mem_append] at h
      rcases h with h | h
      · simp only [groupRows, List.mem_map] at h
        obtain ⟨g, _, rfl⟩ := h
        exact head_buildLabelValues _ _ _
      · cases hM : gb.MergeMinorCost with
        | none => simp [hM] at h
        | some mc =>
          rw [hM] at h
          simp only at h
          split at h
          · rw [List.mem_singleton] at h
            rw [h]
            exact head_buildLabelValues _ _ _
          · simp at h

theorem head_of_mem_accountRows (metrics : List MetricConfig) (ar : accountResults)
    (name : String) (w : List String × Float64) (h : w ∈ accountRows metrics ar name) :
    w.1.head? = some ar.account.AccountId := by
  simp only [accountRows, List.mem_flatMap] at h
  obtain ⟨m, _, hw⟩ := h
  unfold metricRows at hw
  split at hw
  · cases hres : ar.results.lookup m.MetricName with
    | none => simp [hres] at hw
    | some r =>
      rw [hres] at hw
      exact head_of_mem_emittedRows ar.account m r w hw
  · simp at hw

/-- The rows of accounts with different ids do not meet: their writes commute. -/
theorem overlay_comm (metrics : List MetricConfig) (a b : accountResults) (name : String)
    (hne : a.account.AccountId ≠ b.account.AccountId) (prior : Option Float64) (L : List String) :
    overlay (accountRows metrics a name) (overlay (accountRows metrics b name) prior L) L =
      overlay (accountRows metrics b name) (overlay (accountRows metrics a name) prior L) L := by
  by_cases ha : L ∈ (accountRows metrics a name).map Prod.fst
  · have hb : L ∉ (accountRows metrics b name).map Prod.fst := by
      intro hb
      obtain ⟨wa, hwa, hLa⟩ := List.mem_map.mp ha
      obtain ⟨wb, hwb, hLb⟩ := List.mem_map.mp hb
      have h1 := head_of_mem_accountRows metrics a name wa hwa
      have h2 := head_of_mem_accountRows metrics b name wb hwb
      rw [hLa] at h1
      rw [hLb, h1] at h2
      exact hne (Option.some.inj h2)
    rw [overlay_of_not_mem _ _ L hb, overlay_of_not_mem _ _ L hb]
  · rw [overlay_of_not_mem _ _ L ha, overlay_of_not_mem _ _ L ha]

/-- The rows of collected accounts with pairwise different ids give the same
values in every order of the accounts. -/
theorem overlay_perm (metrics : List MetricConfig) (name : String) (L : List String)
    {rs₁ rs₂ : List accountResults} (hperm : rs₁.Perm rs₂) :
    (rs₁.map (fun ar => ar.account.AccountId)).Nodup →
    ∀ prior : Option Float64,
      overlay (rs₁.flatMap (fun ar => accountRows metrics ar name)) prior L =
        overlay (rs₂.flatMap (fun ar => accountRows metrics ar name)) prior L := by
  induction hperm with
  | nil => intro _ _; rfl
  | cons x _ ih =>
    intro hnd prior
    rw [List.map_cons, List.nodup_cons] at hnd
    rw [List.flatMap_cons, List.flatMap_cons, overlay_append, overlay_append]
    exact ih hnd.2 _
  | swap x y l =>
    intro hnd prior
    have hne : x.account.AccountId ≠ y.account.AccountId := by
      simp only [List.map_cons, List.nodup_cons, List.mem_cons, not_or] at hnd
      exact fun e => hnd.1.1 e.symm
    simp only [List.flatMap_cons, overlay_append]
    rw [overlay_comm metrics x y name hne]
  | trans h₁ _ ih₁ ih₂ =>
    intro hnd prior
    rw [ih₁ hnd prior]
    exact ih₂ ((h₁.map _).nodup_iff.mp hnd) prior

theorem publishMismatch_perm (c : CostCollector) {rs₁ rs₂ : List accountResults}
    (hperm : rs₁.Perm rs₂) : PublishMismatch c rs₁ ↔ PublishMismatch c rs₂ := by
  unfold PublishMismatch
  constructor
  · rintro ⟨ar, har, h⟩
    exact ⟨ar, hperm.mem_iff.mp har, h⟩
  · rintro ⟨ar, har, h⟩
    exact ⟨ar, hperm.mem_iff.mpr har, h⟩

/-- The publish step on two orders of the same collected results. -/
theorem publish_perm (c : CostCollector) {rs₁ rs₂ : List accountResults}
    (hperm : rs₁.Perm rs₂) (hids : (rs₁.map (fun ar => ar.account.AccountId)).Nodup) :
    (publish c rs₁ = none ↔ publish c rs₂ = none) ∧
    (∀ c₁ c₂, publish c rs₁ = some c₁ → publish c rs₂ = some c₂ →
      c₂.config = c₁.config ∧ c₂.awsClients = c₁.awsClients ∧
      c₂.scrapeErrors = c₁.scrapeErrors ∧
      (∀ n, labelNamesOf c₂ n = labelNamesOf c₁ n) ∧
      ∀ n L, c₁.value? n L = c₂.value? n L) := by
  refine ⟨?_, ?_⟩
  · rw [(publish_spec c rs₁).1, (publish_spec c rs₂).1]
    exact publishMismatch_perm c hperm
  · intro c₁ c₂ h₁ h₂
    obtain ⟨hs₁, hv₁⟩ := publish_some c c₁ rs₁ h₁
    obtain ⟨hs₂, hv₂⟩ := publish_some c c₂ rs₂ h₂
    refine ⟨hs₂.1.trans hs₁.1.symm, hs₂.2.1.trans hs₁.2.1.symm,
      hs₂.2.2.1.trans hs₁.2.2.1.symm, fun n => (hs₂.2.2.2 n).trans (hs₁.2.2.2 n).symm, ?_⟩
    intro n L
    rw [hv₁ n L, hv₂ n L]
    exact overlay_perm c.config.Metrics n L hperm hids none

/-- With pairwise different account ids, an id is the id of one position of the
configuration only. -/
theorem index_eq_of_id_eq (accounts : List AWSAccount)
    (hnd : (accounts.map (·.AccountId)).Nodup) (i j : Nat) (a b : AWSAccount)
    (hi : accounts[i]? = some a) (hj : accounts[j]? = some b)
    (hid : a.AccountId = b.AccountId) : i = j := by
  have hlen : ∀ (k : Nat) (x : AWSAccount), accounts[k]? = some x →
      k < (accounts.map (·.AccountId)).length := by
    intro k x hk
    rw [List.length_map]
    by_contra hge
    rw [List.getElem?_eq_none (by omega)] at hk
    cases hk
  have hmi : (accounts.map (·.AccountId))[i]? = some a.AccountId := by
    rw [List.getElem?_map, hi]
    rfl
  have hmj : (accounts.map (·.AccountId))[j]? = some a.AccountId := by
    rw [List.getElem?_map, hj, hid]
    rfl
  have hne := List.nodup_iff_getElem?_ne_getElem?.mp hnd
  rcases lt_trichotomy i j with h | h | h
  · exact absurd (hmi.trans hmj.symm) (hne i j h (hlen j b hj))
  · exact h
  · exact absurd (hmj.trans hmi.symm) (hne j i h (hlen i a hi))

/-- A collected result is that of an account of the configuration whose task is
in the schedule. -/
theorem mem_collected (c : CostCollector) (api : Nat → Nat → Except String CostResult)
    (sched : List Nat) (ar : accountResults) (h : ar ∈ (fetchAll c api sched).2.1) :
    ∃ i ∈ sched, c.config.TargetAWSAccounts[i]? = some ar.account := by
  induction sched with
  | nil => simp [fetchAll] at h
  | cons i rest ih =>
    rw [(fetchAll_cons c api i rest).1, List.mem_append] at h
    rcases h with h | h
    · cases hget : c.config.TargetAWSAccounts[i]? with
      | none =>
        rw [accountTask_none c api i hget] at h
        simp at h
      | some acc =>
        cases hf : fetchSucceeds c api i with
        | false =>
          obtain ⟨e, he⟩ := accountTask_fails c api i acc hget hf
          rw [he] at h
          simp at h
        | true =>
          obtain ⟨res, hres, _⟩ := accountTask_succeeds c api i acc hget hf
          rw [hres] at h
          simp only [List.mem_singleton] at h
          subst h
          exact ⟨i, List.mem_cons_self _ _, hget⟩
    · obtain ⟨k, hk, hget⟩ := ih h
      exact ⟨k, List.mem_cons_of_mem _ hk, hget⟩

/-- With pairwise different account ids in the configuration and every task
completing once, the collected results have pairwise different account ids. -/
theorem collected_ids_nodup (c : CostCollector) (api : Nat → Nat → Except String CostResult)
    (sched : List Nat) (hids : (c.config.TargetAWSAccounts.map (·.AccountId)).Nodup)
    (hsched : sched.Nodup) :
    ((fetchAll c api sched).2.1.map (fun ar => ar.account.AccountId)).Nodup := by
  induction sched with
  | nil => simp [fetchAll]
  | cons i rest ih =>
    rw [List.nodup_cons] at hsched
    rw [(fetchAll_cons c api i rest).1, List.map_append, List.nodup_append]
    refine ⟨?_, ih hsched.2, ?_⟩
    · cases accountTask c api i with
      | none => simp
      | some r => cases r <;> simp
    · intro id h₁ h₂
      obtain ⟨ar₂, har₂, hid₂⟩ := List.mem_map.mp h₂
      obtain ⟨k, hk, hgetk⟩ := mem_collected c api rest ar₂ har₂
      cases hget : c.config.TargetAWSAccounts[i]? with
      | none =>
        rw [accountTask_none c api i hget] at h₁
        simp at h₁
      | some acc =>
        cases hf : fetchSucceeds c api i with
        | false =>
          obtain ⟨e, he⟩ := accountTask_fails c api i acc hget hf
          rw [he] at h₁
          simp at h₁
        | true =>
          obtain ⟨res, hres, _⟩ := accountTask_succeeds c api i acc hget hf
          rw [hres] at h₁
          simp only [List.map_cons, List.map_nil, List.mem_singleton] at h₁
          have hik : i = k :=
            index_eq_of_id_eq c.config.TargetAWSAccounts hids i k acc ar₂.account hget hgetk
              (h₁.symm.trans hid₂.symm)
          rw [hik] at hsched
          exact hsched.1 hk

theorem fetchAll_perm (c : CostCollector) (api : Nat → Nat → Except String CostResult)
    {sched₁ sched₂ : List Nat} (hperm : sched₁.Perm sched₂) :
    (fetchAll c api sched₁).2.1.Perm (fetchAll c api sched₂).2.1 ∧
    (fetchAll c api sched₁).2.2.Perm (fetchAll c api sched₂).2.2 := by
  unfold fetchAll
  exact ⟨(hperm.filterMap _).filterMap _, (hperm.filterMap _).filterMap _⟩

/-- C13: the snapshot of the publish step does not depend on the order of the
collected account results when these have pairwise different account ids: two
orders both panic or both complete, and then every label tuple of every metric
has the same value (and the configuration, the clients, the error counter and
the label names are the same). Hence, for a configuration with pairwise
different account ids, `Refresh` gives the same values and the same error in
every order in which the account tasks complete. -/
theorem publish_order_independent (c : CostCollector) :
    (∀ rs₁ rs₂ : List accountResults, rs₁.Perm rs₂ →
      (rs₁.map (fun ar => ar.account.AccountId)).Nodup →
      (publish c rs₁ = none ↔ publish c rs₂ = none) ∧
      (∀ c₁ c₂, publish c rs₁ = some c₁ → publish c rs₂ = some c₂ →
        c₂.config = c₁.config ∧ c₂.awsClients = c₁.awsClients ∧
        c₂.scrapeErrors = c₁.scrapeErrors ∧
        (∀ n, labelNamesOf c₂ n = labelNamesOf c₁ n) ∧
        ∀ n L, c₁.value? n L = c₂.value? n L)) ∧
    (∀ (api : Nat → Nat → Except String CostResult) (sched₁ sched₂ : List Nat),
      (c.config.TargetAWSAccounts.map (·.AccountId)).Nodup →
      sched₁.Nodup → sched₁.Perm sched₂ →
      (Refresh c api sched₁ = none ↔ Refresh c api sched₂ = none) ∧
      (∀ r₁ r₂, Refresh c api sched₁ = some r₁ → Refresh c api sched₂ = some r₂ →
        r₁.2 = r₂.2 ∧ r₁.1.scrapeErrors = r₂.1.scrapeErrors ∧
        ∀ n L, r₁.1.value? n L = r₂.1.value? n L)) := by
  refine ⟨fun rs₁ rs₂ hperm hids => publish_perm c hperm hids, ?_⟩
  intro api sched₁ sched₂ hids hnd hperm
  obtain ⟨hres, herrs⟩ := fetchAll_perm c api hperm
  have hlen := herrs.length_eq
  obtain ⟨hnone, hval⟩ := publish_perm c hres (collected_ids_nodup c api sched₁ hids hnd)
  rw [Refresh_eq, Refresh_eq, Option.map_eq_none', Option.map_eq_none']
  refine ⟨hnone, ?_⟩
  intro r₁ r₂ h₁ h₂
  cases hp₁ : publish c (fetchAll c api sched₁).2.1 with
  | none => simp [hp₁] at h₁
  | some c₁ =>
    cases hp₂ : publish c (fetchAll c api sched₂).2.1 with
    | none => simp [hp₂] at h₂
    | some c₂ =>
      rw [hp₁] at h₁
      rw [hp₂] at h₂
      simp only [Option.map_some', Option.some.injEq] at h₁ h₂
      subst h₁
      subst h₂
      refine ⟨by simp only [hlen], by simp only [withErrors, hlen], ?_⟩
      intro n L
      exact (hval c₁ c₂ hp₁ hp₂).2.2.2.2 n L

theorem publish_order_independent_witness :
    [0, 1].Perm [1, 0] ∧ [0, 1].Nodup ∧
    (sampleCollector.config.TargetAWSAccounts.map (·.AccountId)).Nodup ∧
    (Refresh sampleCollector firstCycle [0, 1]).isSome = true ∧
    (Refresh sampleCollector firstCycle [1, 0]).isSome = true ∧
    (∀ r₁ r₂, Refresh sampleCollector firstCycle [0, 1] = some r₁ →
      Refresh sampleCollector firstCycle [1, 0] = some r₂ →
      r₁.2 = r₂.2 ∧ r₁.1.scrapeErrors = r₂.1.scrapeErrors ∧
      ∀ n L, r₁.1.value? n L = r₂.1.value? n L) :=
  ⟨by decide, by decide, by decide, by decide!, by decide!,
    ((publish_order_independent sampleCollector).2 firstCycle [0, 1] [1, 0]
      (by decide) (by decide) (by decide)).2⟩

end AwsCostExporter
